import Mathlib

/-!
# Poco::Data::StatementImpl — statement execution engine

A shallow embedding of `Data/src/StatementImpl.cpp`.

* The engine's member variables are the fields of `StatementImpl`; every member
  function is a state transformer in the monad `M`, whose results are a normal
  return, a thrown exception (the object keeps the mutations made before the
  throw) or fuel exhaustion of a loop.
* `StatementImpl` is an abstract class: the pure virtual members implemented by a
  concrete backend are the fields of `Backend`. The backend's private data is the
  type parameter `β`. `hasNext`, `canBind`, `canCompile` and the metadata getters
  are queries on that data; `compileImpl`, `bindImpl` and `next` change it.
  `next` also sees the extractions of the current data set (it calls their
  `extract`), `bindImpl` the bindings.
* `calls` is a ghost field: the log of backend primitives invoked so far, most
  recent first. It never influences control flow.
* `Poco::UInt32` values are natural numbers; additions that can wrap are taken
  modulo `2^32`.
* Backend primitives are taken not to throw. `formatSQL` and the SQL buffer are
  not modelled: no other member function reads them.
* Loops that need not end take a fuel argument; the fuel left is handed on to the
  inner loops, so more fuel never changes a result that was reached.
* A backend is any value of `Backend`. Properties that depend on what a backend
  does say so: `FiniteBackend` (finitely many rows, bind batches and fragments),
  `RowYielding` (a single fragment whose rows come one per `next ()`) and
  `KeepsColumns` (`next ()` leaves the number of columns an extraction handles
  alone, as `extract` does in the source).
-/

namespace PocoData

/-! ## Values declared in headers -/

/-- Modelled from the spec: the `UNLIMITED` sentinel of a limit value
(`Limit::LIMIT_UNLIMITED`, declared in `Limit.h`), the largest `Poco::UInt32`. -/
def LIMIT_UNLIMITED : Nat := 0xffffffff

/-- Number of values of a `Poco::UInt32`. -/
def UINT32_SIZE : Nat := 2 ^ 32

/-- Modelled from the spec: `USE_CURRENT_DATA_SET`, the argument of
`columnsExtracted` / `rowsExtracted` that selects the current data set. -/
def USE_CURRENT_DATA_SET : Int := -1

/-- Lifecycle state (`StatementImpl::State`). -/
inductive State where
  | ST_INITIALIZED
  | ST_COMPILED
  | ST_BOUND
  | ST_PAUSED
  | ST_DONE
  | ST_RESET
  deriving DecidableEq, Repr

/-- Storage hint (`StatementImpl::Storage`). -/
inductive Storage where
  | STORAGE_DEQUE_IMPL
  | STORAGE_VECTOR_IMPL
  | STORAGE_LIST_IMPL
  | STORAGE_UNKNOWN_IMPL
  deriving DecidableEq, Repr

/-- Bulk mode of binding / extraction (`StatementImpl::BulkType`). -/
inductive BulkType where
  | BULK_UNDEFINED
  | BULK_BINDING
  | BULK_EXTRACTION
  | BULK_FORBIDDEN
  deriving DecidableEq, Repr

/-- Modelled from the spec: the limit descriptor (`Limit.h`): a row count or the
unlimited sentinel, the hard flag and the lower-bound flag. -/
structure Limit where
  value : Nat
  isHardLimit : Bool
  isLowerLimit : Bool
  deriving DecidableEq, Repr

/-- Modelled from the spec: the bulk descriptor (`Bulk.h`): its own limit and its
batch size. -/
structure Bulk where
  limit : Limit
  size : Nat
  deriving DecidableEq, Repr

/-- Declared type of a result column (`MetaColumn::ColumnDataType`). -/
inductive ColumnDataType where
  | FDT_BOOL
  | FDT_INT8
  | FDT_UINT8
  | FDT_INT16
  | FDT_UINT16
  | FDT_INT32
  | FDT_UINT32
  | FDT_INT64
  | FDT_UINT64
  | FDT_FLOAT
  | FDT_DOUBLE
  | FDT_STRING
  | FDT_BLOB
  | FDT_DATE
  | FDT_TIME
  | FDT_TIMESTAMP
  | FDT_UNKNOWN
  deriving DecidableEq, Repr

/-- Column descriptor: name and declared type. -/
structure MetaColumn where
  name : String
  type : ColumnDataType
  deriving DecidableEq, Repr

instance : Inhabited MetaColumn := ⟨⟨"", ColumnDataType.FDT_UNKNOWN⟩⟩

/-- Modelled from the spec: the observable state of an `AbstractExtraction`
(`AbstractExtraction.h` / `Extraction.h`): the data-set position it was declared
for, the number of columns it handles, its row progress, the limit and the
extractor attached by fixup, the two string/null flags, and, for an extraction
generated by `makeExtractors`, the column it was generated for. -/
structure Extraction where
  position : Nat
  numOfColumnsHandled : Nat
  numOfRowsHandled : Nat
  limit : Nat
  hasExtractor : Bool
  emptyStringIsNull : Bool
  forceEmptyString : Bool
  column : Option MetaColumn
  deriving DecidableEq, Repr

/-- Modelled from the spec: `AbstractExtraction::reset` clears the row progress. -/
def Extraction.reset (e : Extraction) : Extraction :=
  { e with numOfRowsHandled := 0 }

/-- Modelled from the spec: `AbstractExtraction::extract` as called by a backend's
`next`: the extraction has handled `n` more rows. -/
def Extraction.extract (n : Nat) (e : Extraction) : Extraction :=
  { e with numOfRowsHandled := e.numOfRowsHandled + n }

/-- Modelled from the spec: the observable state of an `AbstractBinding`
(`AbstractBinding.h`): its name, whether its value has been handed to the
backend, and whether a binder is attached. -/
structure Binding where
  name : String
  bound : Bool
  hasBinder : Bool
  deriving DecidableEq, Repr

/-- Modelled from the spec: `AbstractBinding::reset` clears the progress. -/
def Binding.reset (b : Binding) : Binding :=
  { b with bound := false }

/-- The two session features read by `addExtract` through `getFeature`. -/
structure SessionImpl where
  emptyStringIsNull : Bool
  forceEmptyString : Bool
  deriving DecidableEq, Repr

/-- Exceptions raised by the engine. `LimitException` is raised with three
different messages, kept apart here; a failed `poco_assert` raises
`AssertionViolationException`. -/
inductive Exc where
  /-- A `LimitException`: "Upper limit must not be smaller than the lower limit." -/
  | LimitViolation
  /-- A `LimitException`: "Did not receive enough data." -/
  | NotEnoughData
  /-- A `LimitException`: "HardLimit reached (retrieved more data than requested)." -/
  | HardLimitReached
  | InvalidArgumentException
  | NotFoundException
  | NoDataException
  | AssertionViolationException
  deriving DecidableEq, Repr

/-- Backend primitives, as recorded in the ghost call log. -/
inductive Prim where
  | compileImpl
  | bindImpl
  | hasNext
  | next
  | canBind
  | canCompile
  | columnsReturned
  | metaColumn
  | isStoredProcedure
  | affectedRowCount
  | dataSetCount
  | extractor
  | binder
  deriving DecidableEq, Repr

/-- The virtual members a concrete backend implements, over its private data `β`.
`dataSetCount` is modelled from the spec (the backend reports the number of data
sets); the others are the pure virtual members used by `StatementImpl.cpp`. -/
structure Backend (β : Type) where
  compileImpl : β → β
  bindImpl : β → List Binding → β × List Binding
  hasNext : β → Bool
  next : β → List Extraction → Nat × β × List Extraction
  canBind : β → Bool
  canCompile : β → Bool
  columnsReturned : β → Nat
  metaColumn : β → Nat → MetaColumn
  isStoredProcedure : β → Bool
  affectedRowCount : β → Nat
  dataSetCount : β → Nat

/-- Member variables of `StatementImpl`, the backend's data, and the ghost log. -/
structure StatementImpl (β : Type) where
  _state : State
  _extrLimit : Limit
  _lowerLimit : Nat
  _rSession : SessionImpl
  _storage : Storage
  _curDataSet : Nat
  _bulkBinding : BulkType
  _bulkExtraction : BulkType
  _extractors : List (List Extraction)
  _columnsExtracted : List Nat
  _bindings : List Binding
  backend : β
  calls : List Prim
  deriving DecidableEq

/-! ## The execution monad -/

/-- Result of running a member function. -/
inductive Res (σ α : Type) where
  | ok (val : α) (st : σ)
  | throw (e : Exc) (st : σ)
  | timeout
  deriving DecidableEq

/-- State transformer with exceptions and fuel exhaustion. -/
def M (σ α : Type) : Type := σ → Res σ α

/-- Sequencing: an exception or a fuel exhaustion ends the run. -/
def M.bind {σ α γ : Type} (m : M σ α) (f : α → M σ γ) : M σ γ := fun s =>
  match m s with
  | Res.ok a s1 => f a s1
  | Res.throw e s1 => Res.throw e s1
  | Res.timeout => Res.timeout

instance {σ : Type} : Monad (M σ) where
  pure a := fun s => Res.ok a s
  bind := M.bind

/-- Read the object. -/
def getS {σ : Type} : M σ σ := fun s => Res.ok s s

/-- Mutate the object. -/
def modifyS {σ : Type} (f : σ → σ) : M σ Unit := fun s => Res.ok () (f s)

/-- Raise an exception. -/
def throwE {σ α : Type} (e : Exc) : M σ α := fun s => Res.throw e s

/-- A loop ran out of fuel. -/
def outOfFuel {σ α : Type} : M σ α := fun _ => Res.timeout

/-- The macro `poco_assert (cond)`. -/
def poco_assert {σ : Type} (cond : Bool) : M σ Unit :=
  if cond then pure () else throwE Exc.AssertionViolationException

/-- The state a result leaves the object in, if the run ended. -/
def Res.state? {σ α : Type} : Res σ α → Option σ
  | Res.ok _ s => some s
  | Res.throw _ s => some s
  | Res.timeout => none

/-- The state a result leaves the object in; `s` itself if the fuel ran out. -/
def Res.stateOr {σ α : Type} (r : Res σ α) (s : σ) : σ :=
  (r.state?).getD s

/-- The value returned, if the run returned normally. -/
def Res.value? {σ α : Type} : Res σ α → Option α
  | Res.ok a _ => some a
  | _ => none

/-- The exception thrown, if the run threw. -/
def Res.exc? {σ α : Type} : Res σ α → Option Exc
  | Res.throw e _ => some e
  | _ => none

/-- `std::vector::resize (n, d)`. -/
def vresize {α : Type} (l : List α) (n : Nat) (d : α) : List α :=
  l.take n ++ List.replicate (n - l.length) d

/-- Modelled from the spec: `Poco::icompare`, the case-insensitive comparison of
two strings; `0` exactly when they are equal ignoring case. -/
def icompare (a b : String) : Int :=
  if a.toLower = b.toLower then 0 else if a.toLower < b.toLower then -1 else 1

/-- The constant `StatementImpl::VECTOR`. -/
def VECTOR : String := "vector"
/-- The constant `StatementImpl::LIST`. -/
def LIST : String := "list"
/-- The constant `StatementImpl::DEQUE`. -/
def DEQUE : String := "deque"
/-- The constant `StatementImpl::UNKNOWN`. -/
def UNKNOWN : String := "unknown"

/-! ## The engine -/

section Engine

variable {β : Type} (B : Backend β)

/-- The constructor `StatementImpl::StatementImpl (rSession)`, over the initial
data of the backend subobject. -/
def StatementImpl.new (rSession : SessionImpl) (b : β) : StatementImpl β :=
  { _state := State.ST_INITIALIZED
    _extrLimit := ⟨LIMIT_UNLIMITED, false, false⟩
    _lowerLimit := 0
    _rSession := rSession
    _storage := Storage.STORAGE_UNKNOWN_IMPL
    _curDataSet := 0
    _bulkBinding := BulkType.BULK_UNDEFINED
    _bulkExtraction := BulkType.BULK_UNDEFINED
    _extractors := vresize [] 1 []
    _columnsExtracted := vresize [] 1 0
    _bindings := []
    backend := b
    calls := [] }

/-- Assignment to `_state`. -/
def setState (st : State) : M (StatementImpl β) Unit :=
  modifyS fun s => { s with _state := st }

/-! ### Calls of the backend primitives -/

/-- Call of the virtual `compileImpl ()`. -/
def compileImpl : M (StatementImpl β) Unit :=
  modifyS fun s =>
    { s with backend := B.compileImpl s.backend, calls := Prim.compileImpl :: s.calls }

/-- Call of the virtual `bindImpl ()`. -/
def bindImpl : M (StatementImpl β) Unit :=
  modifyS fun s =>
    { s with backend := (B.bindImpl s.backend s._bindings).1
             _bindings := (B.bindImpl s.backend s._bindings).2
             calls := Prim.bindImpl :: s.calls }

/-- Call of the virtual `hasNext ()`. -/
def hasNext : M (StatementImpl β) Bool := fun s =>
  Res.ok (B.hasNext s.backend) { s with calls := Prim.hasNext :: s.calls }

/-- Call of the virtual `next ()`; the backend extracts into the extractions of
the current data set. -/
def next : M (StatementImpl β) Nat := fun s =>
  Res.ok (B.next s.backend (s._extractors.getD s._curDataSet [])).1
    { s with backend := (B.next s.backend (s._extractors.getD s._curDataSet [])).2.1
             _extractors := s._extractors.set s._curDataSet
               (B.next s.backend (s._extractors.getD s._curDataSet [])).2.2
             calls := Prim.next :: s.calls }

/-- Call of the virtual `canBind ()`. -/
def canBind : M (StatementImpl β) Bool := fun s =>
  Res.ok (B.canBind s.backend) { s with calls := Prim.canBind :: s.calls }

/-- Call of the virtual `canCompile ()`. -/
def canCompile : M (StatementImpl β) Bool := fun s =>
  Res.ok (B.canCompile s.backend) { s with calls := Prim.canCompile :: s.calls }

/-- Call of the virtual `columnsReturned ()`. -/
def columnsReturned : M (StatementImpl β) Nat := fun s =>
  Res.ok (B.columnsReturned s.backend) { s with calls := Prim.columnsReturned :: s.calls }

/-- Call of the virtual `metaColumn (pos)`. -/
def metaColumnAt (pos : Nat) : M (StatementImpl β) MetaColumn := fun s =>
  Res.ok (B.metaColumn s.backend pos) { s with calls := Prim.metaColumn :: s.calls }

/-- Call of the virtual `isStoredProcedure ()`. -/
def isStoredProcedure : M (StatementImpl β) Bool := fun s =>
  Res.ok (B.isStoredProcedure s.backend) { s with calls := Prim.isStoredProcedure :: s.calls }

/-- Call of the virtual `affectedRowCount ()`. -/
def affectedRowCount : M (StatementImpl β) Nat := fun s =>
  Res.ok (B.affectedRowCount s.backend) { s with calls := Prim.affectedRowCount :: s.calls }

/-- Call of `dataSetCount ()`. -/
def dataSetCount : M (StatementImpl β) Nat := fun s =>
  Res.ok (B.dataSetCount s.backend) { s with calls := Prim.dataSetCount :: s.calls }

/-- Call of the virtual `extractor ()`; the handle itself is not modelled. -/
def extractor : M (StatementImpl β) Unit :=
  modifyS fun s => { s with calls := Prim.extractor :: s.calls }

/-- Call of the virtual `binder ()`; the handle itself is not modelled. -/
def binder : M (StatementImpl β) Unit :=
  modifyS fun s => { s with calls := Prim.binder :: s.calls }

/-! ### Member functions -/

/-- Modelled from the spec: the accessor `extractions ()` of the header, the
extraction list of the current data set; indexing the registry beyond its size
is invalid and modelled as a failed assertion. -/
def extractions : M (StatementImpl β) (List Extraction) := do
  let s ← getS
  poco_assert (decide (s._curDataSet < s._extractors.length))
  pure (s._extractors.getD s._curDataSet [])

/-- Modelled from the spec: `getExtractionLimit ()` of the header, the value of
the extraction limit. -/
def getExtractionLimit (s : StatementImpl β) : Nat := s._extrLimit.value

/-- The member `StatementImpl::resetBinding`. -/
def resetBinding : M (StatementImpl β) Unit :=
  modifyS fun s => { s with _bindings := s._bindings.map Binding.reset }

/-- The member `StatementImpl::resetExtraction`. -/
def resetExtraction : M (StatementImpl β) Unit := do
  let es ← extractions
  modifyS fun s =>
    { s with _extractors := s._extractors.set s._curDataSet (es.map Extraction.reset) }
  let s ← getS
  poco_assert (decide (s._curDataSet < s._columnsExtracted.length))
  modifyS fun s => { s with _columnsExtracted := s._columnsExtracted.set s._curDataSet 0 }

/-- The member `StatementImpl::addExtract`. The pointer is never null here, so
`poco_check_ptr` always passes. `pos` is a `Poco::UInt32`, so `pos + 1` wraps to 0
at position `0xffffffff`: `resize (0)` then empties the registry and
`_extractors[pos]` is out of bounds, which is undefined behaviour in the source;
the model stores nothing there, and every property of `addExtract` below is
stated for positions at which `pos + 1` does not wrap. -/
def addExtract (pExtraction : Extraction) : M (StatementImpl β) Unit := do
  let pos := pExtraction.position
  let s ← getS
  if pos ≥ s._extractors.length then
    modifyS fun s =>
      { s with _extractors := vresize s._extractors ((pos + 1) % UINT32_SIZE) [] }
  let s ← getS
  let p1 := { pExtraction with emptyStringIsNull := s._rSession.emptyStringIsNull }
  let p2 := { p1 with forceEmptyString := s._rSession.forceEmptyString }
  modifyS fun s =>
    { s with _extractors := s._extractors.set pos (s._extractors.getD pos [] ++ [p2]) }

/-- Modelled from the spec: `addInternalExtract<T> (mc)` of the header: a default
extraction for column `mc`, handling one column, declared for the current data
set and registered like a caller-supplied one. -/
def addInternalExtract (mc : MetaColumn) : M (StatementImpl β) Unit := do
  let s ← getS
  addExtract
    { position := s._curDataSet
      numOfColumnsHandled := 1
      numOfRowsHandled := 0
      limit := LIMIT_UNLIMITED
      hasExtractor := false
      emptyStringIsNull := false
      forceEmptyString := false
      column := some mc }

/-- The `switch` of `makeExtractors`: the declared types with a `case`. -/
def ColumnDataType.supported : ColumnDataType → Bool
  | ColumnDataType.FDT_BOOL => true
  | ColumnDataType.FDT_INT8 => true
  | ColumnDataType.FDT_UINT8 => true
  | ColumnDataType.FDT_INT16 => true
  | ColumnDataType.FDT_UINT16 => true
  | ColumnDataType.FDT_INT32 => true
  | ColumnDataType.FDT_UINT32 => true
  | ColumnDataType.FDT_INT64 => true
  | ColumnDataType.FDT_UINT64 => true
  | ColumnDataType.FDT_FLOAT => true
  | ColumnDataType.FDT_DOUBLE => true
  | ColumnDataType.FDT_STRING => true
  | ColumnDataType.FDT_BLOB => true
  | ColumnDataType.FDT_DATE => true
  | ColumnDataType.FDT_TIME => true
  | ColumnDataType.FDT_TIMESTAMP => true
  | ColumnDataType.FDT_UNKNOWN => false

/-- The loop of `makeExtractors`: `n` columns remain, starting at index `i`. -/
def makeExtractorsLoop : Nat → Nat → M (StatementImpl β) Unit
  | 0, _ => pure ()
  | n + 1, i => do
    let mc ← metaColumnAt B i
    if mc.type.supported then addInternalExtract mc
    else throwE Exc.InvalidArgumentException
    makeExtractorsLoop n (i + 1)

/-- The member `StatementImpl::makeExtractors`. -/
def makeExtractors (count : Nat) : M (StatementImpl β) Unit :=
  makeExtractorsLoop B count 0

/-- The member `StatementImpl::fixupExtraction`. -/
def fixupExtraction : M (StatementImpl β) Unit := do
  let es ← extractions
  extractor
  let s ← getS
  if s._curDataSet ≥ s._columnsExtracted.length then
    modifyS fun s =>
      { s with _columnsExtracted := vresize s._columnsExtracted (s._curDataSet + 1) 0 }
  modifyS fun s =>
    { s with
      _extractors := s._extractors.set s._curDataSet
        (es.map fun e => { e with hasExtractor := true, limit := s._extrLimit.value })
      _columnsExtracted := s._columnsExtracted.set s._curDataSet
        (es.foldl (fun acc e => acc + e.numOfColumnsHandled)
          (s._columnsExtracted.getD s._curDataSet 0)) }

/-- The member `StatementImpl::fixupBinding`. -/
def fixupBinding : M (StatementImpl β) Unit := do
  binder
  modifyS fun s =>
    { s with _bindings := s._bindings.map fun b => { b with hasBinder := true } }

/-- The block `if (!extractions ().size () && !isStoredProcedure ()) ...` of
`compile`: default extractors are generated when none is registered for the
current data set and the statement is not a stored-procedure call. -/
def compileExtractors : M (StatementImpl β) Unit := do
  let es ← extractions
  if es.length = 0 then
    let sp ← isStoredProcedure B
    if !sp then
      let cols ← columnsReturned B
      if cols ≠ 0 then makeExtractors B cols

/-- The member `StatementImpl::compile`. -/
def compile : M (StatementImpl β) Unit := do
  let s ← getS
  if s._state = State.ST_INITIALIZED ∨ s._state = State.ST_RESET
      ∨ s._state = State.ST_BOUND then
    compileImpl B
    setState State.ST_COMPILED
    compileExtractors B
    fixupExtraction
    fixupBinding

/-- The member `StatementImpl::bind`. -/
def bind : M (StatementImpl β) Unit := do
  let s ← getS
  if s._state = State.ST_COMPILED then
    bindImpl B
    setState State.ST_BOUND
  else if s._state = State.ST_BOUND then
    let hn ← hasNext B
    if !hn then
      let cb ← canBind B
      if cb then bindImpl B
      else setState State.ST_DONE

/-- The loop `while (count < limit && hasNext ()) count += next ();`. -/
def extractLoopWithLimit (limit : Nat) : Nat → Nat → M (StatementImpl β) Nat
  | 0, _ => outOfFuel
  | fuel + 1, count =>
    if count < limit then do
      let hn ← hasNext B
      if hn then do
        let n ← next B
        extractLoopWithLimit limit fuel ((count + n) % UINT32_SIZE)
      else pure count
    else pure count

/-- The loop `do ... while (count < limit && canBind ())` of `executeWithLimit`. -/
def bindLoopWithLimit (limit : Nat) : Nat → Nat → M (StatementImpl β) Nat
  | 0, _ => outOfFuel
  | fuel + 1, count => do
    bind B
    let count ← extractLoopWithLimit B limit fuel count
    if count < limit then do
      let cb ← canBind B
      if cb then bindLoopWithLimit limit fuel count else pure count
    else pure count

/-- The decision after the loops of `executeWithLimit`, on the final `count`. -/
def finishWithLimit (limit count : Nat) : M (StatementImpl β) Nat := do
  let cb ← canBind B
  let done ← (if !cb then do
      let hn ← hasNext B
      pure (!hn || limit == 0)
    else pure false : M (StatementImpl β) Bool)
  if done then setState State.ST_DONE
  else do
    let hn ← hasNext B
    let s ← getS
    if hn && limit == count && s._extrLimit.isHardLimit then
      throwE Exc.HardLimitReached
    else setState State.ST_PAUSED
  if count ≠ 0 then pure count else affectedRowCount B

/-- The member `StatementImpl::executeWithLimit`. -/
def executeWithLimit (fuel : Nat) : M (StatementImpl β) Nat := do
  let s ← getS
  poco_assert (decide (s._state ≠ State.ST_DONE))
  let limit := s._extrLimit.value
  let count ← bindLoopWithLimit B limit fuel 0
  finishWithLimit B limit count

/-- The loop `while (hasNext ()) count += next ();`. -/
def extractLoopWithoutLimit : Nat → Nat → M (StatementImpl β) Nat
  | 0, _ => outOfFuel
  | fuel + 1, count => do
    let hn ← hasNext B
    if hn then do
      let n ← next B
      extractLoopWithoutLimit fuel ((count + n) % UINT32_SIZE)
    else pure count

/-- The loop `do ... while (canBind ())` of `executeWithoutLimit`. -/
def bindLoopWithoutLimit : Nat → Nat → M (StatementImpl β) Nat
  | 0, _ => outOfFuel
  | fuel + 1, count => do
    bind B
    let count ← extractLoopWithoutLimit B fuel count
    let cb ← canBind B
    if cb then bindLoopWithoutLimit fuel count else pure count

/-- The member `StatementImpl::executeWithoutLimit`. -/
def executeWithoutLimit (fuel : Nat) : M (StatementImpl β) Nat := do
  let s ← getS
  poco_assert (decide (s._state ≠ State.ST_DONE))
  let count ← bindLoopWithoutLimit B fuel 0
  if count ≠ 0 then pure count else affectedRowCount B

/-- The loop `do ... while (canCompile ())` of `execute`. -/
def compileLoop : Nat → Nat → M (StatementImpl β) Nat
  | 0, _ => outOfFuel
  | fuel + 1, lim => do
    compile B
    let s ← getS
    let n ← (if s._extrLimit.value = LIMIT_UNLIMITED then executeWithoutLimit B fuel
      else executeWithLimit B fuel : M (StatementImpl β) Nat)
    let cc ← canCompile B
    if cc then compileLoop fuel ((lim + n) % UINT32_SIZE)
    else pure ((lim + n) % UINT32_SIZE)

/-- The member `StatementImpl::execute`. -/
def execute (fuel : Nat) : M (StatementImpl β) Nat := do
  resetExtraction
  let s ← getS
  if s._lowerLimit > s._extrLimit.value then throwE Exc.LimitViolation
  let lim ← compileLoop B fuel 0
  let s ← getS
  if s._extrLimit.value = LIMIT_UNLIMITED then setState State.ST_DONE
  let s ← getS
  if lim < s._lowerLimit then throwE Exc.NotEnoughData
  pure lim

/-- The member `StatementImpl::reset`. -/
def reset : M (StatementImpl β) Unit := do
  resetBinding
  resetExtraction
  setState State.ST_RESET

/-- The member `StatementImpl::setExtractionLimit`. -/
def setExtractionLimit (extrLimit : Limit) : M (StatementImpl β) Unit :=
  if !extrLimit.isLowerLimit then
    modifyS fun s => { s with _extrLimit := extrLimit }
  else
    modifyS fun s => { s with _lowerLimit := extrLimit.value }

/-- The member `StatementImpl::setBulkExtraction`. -/
def setBulkExtraction (b : Bulk) : M (StatementImpl β) Unit := do
  let s ← getS
  let limit := getExtractionLimit s
  if LIMIT_UNLIMITED ≠ limit ∧ b.size ≠ limit then
    throwE Exc.InvalidArgumentException
  setExtractionLimit b.limit
  modifyS fun s => { s with _bulkExtraction := BulkType.BULK_EXTRACTION }

/-- The member `StatementImpl::setStorage`. -/
def setStorage (storage : String) : M (StatementImpl β) Unit :=
  if 0 = icompare DEQUE storage then
    modifyS fun s => { s with _storage := Storage.STORAGE_DEQUE_IMPL }
  else if 0 = icompare VECTOR storage then
    modifyS fun s => { s with _storage := Storage.STORAGE_VECTOR_IMPL }
  else if 0 = icompare LIST storage then
    modifyS fun s => { s with _storage := Storage.STORAGE_LIST_IMPL }
  else if 0 = icompare UNKNOWN storage then
    modifyS fun s => { s with _storage := Storage.STORAGE_UNKNOWN_IMPL }
  else throwE Exc.NotFoundException

/-- The loop of `metaColumn (name)`: `n` columns remain, starting at index `i`. -/
def metaColumnLoop (name : String) : Nat → Nat → M (StatementImpl β) MetaColumn
  | 0, _ => throwE Exc.NotFoundException
  | n + 1, i => do
    let column ← metaColumnAt B i
    if 0 = icompare column.name name then pure column
    else metaColumnLoop name n (i + 1)

/-- The member `StatementImpl::metaColumn (name)`. -/
def metaColumn (name : String) : M (StatementImpl β) MetaColumn := do
  let cols ← columnsReturned B
  metaColumnLoop B name cols 0

/-- The member `StatementImpl::activateNextDataSet`. -/
def activateNextDataSet : M (StatementImpl β) Nat := do
  let s ← getS
  let n ← dataSetCount B
  if s._curDataSet + 1 < n then
    modifyS fun s => { s with _curDataSet := s._curDataSet + 1 }
    let s ← getS
    pure s._curDataSet
  else throwE Exc.NoDataException

/-- The member `StatementImpl::activatePreviousDataSet`. -/
def activatePreviousDataSet : M (StatementImpl β) Nat := do
  let s ← getS
  if s._curDataSet > 0 then
    modifyS fun s => { s with _curDataSet := s._curDataSet - 1 }
    let s ← getS
    pure s._curDataSet
  else throwE Exc.NoDataException

/-- The erase loop of `removeBind`: the bindings kept, and the `found` flag. -/
def removeBindLoop (name : String) : List Binding → Bool → List Binding × Bool
  | [], found => ([], found)
  | b :: rest, found =>
    if b.name = name then removeBindLoop name rest true
    else ((b :: (removeBindLoop name rest found).1), (removeBindLoop name rest found).2)

/-- The member `StatementImpl::removeBind`. -/
def removeBind (name : String) : M (StatementImpl β) Unit := do
  let s ← getS
  let r := removeBindLoop name s._bindings false
  modifyS fun s => { s with _bindings := r.1 }
  if !r.2 then throwE Exc.NotFoundException

/-- Modelled from the spec: registering a binding (`addBinding` of the header)
appends it to the binding list. -/
def addBinding (info : Binding) : M (StatementImpl β) Unit :=
  modifyS fun s => { s with _bindings := s._bindings ++ [info] }

/-- The member `StatementImpl::columnsExtracted`. -/
def columnsExtracted (dataSet : Int) : M (StatementImpl β) Nat := do
  let s ← getS
  let dataSet := if USE_CURRENT_DATA_SET = dataSet then (s._curDataSet : Int) else dataSet
  if s._columnsExtracted.length > 0 then
    poco_assert (decide (dataSet ≥ 0 ∧ dataSet < (s._columnsExtracted.length : Int)))
    pure (s._columnsExtracted.getD dataSet.toNat 0)
  else pure 0

/-- The member `StatementImpl::rowsExtracted`. -/
def rowsExtracted (dataSet : Int) : M (StatementImpl β) Nat := do
  let s ← getS
  let dataSet := if USE_CURRENT_DATA_SET = dataSet then (s._curDataSet : Int) else dataSet
  let es ← extractions
  if es.length > 0 then
    poco_assert (decide (dataSet ≥ 0 ∧ dataSet < (s._extractors.length : Int)))
    match s._extractors.getD dataSet.toNat [] with
    | e :: _ => pure e.numOfRowsHandled
    | [] => pure 0
  else pure 0

end Engine

/-! ## A row-source backend -/

/-- Private data of the row-source backend: the rows of the result, the rows not
yet fetched, the columns of the result and the number of data sets. -/
structure RowSource where
  total : Nat
  remaining : Nat
  columns : List MetaColumn
  dataSets : Nat
  deriving DecidableEq, Repr

/-- A single-fragment backend without further bind batches: compiling (re)starts
the result of `total` rows, `next ()` fetches one row into every extraction of
the current data set and returns 1. -/
def rowBackend : Backend RowSource where
  compileImpl b := { b with remaining := b.total }
  bindImpl b bs := (b, bs)
  hasNext b := decide (0 < b.remaining)
  next b es := (1, { b with remaining := b.remaining - 1 }, es.map (Extraction.extract 1))
  canBind _ := false
  canCompile _ := false
  columnsReturned b := b.columns.length
  metaColumn b i := b.columns.getD i default
  isStoredProcedure _ := false
  affectedRowCount _ := 0
  dataSetCount b := b.dataSets

/-- A row source of `rows` rows over the given columns, one data set. -/
def RowSource.ofRows (rows : Nat) (columns : List MetaColumn) : RowSource :=
  { total := rows, remaining := 0, columns := columns, dataSets := 1 }

/-! ## Specification vocabulary -/

/-- The outcome `r` satisfies `Q` when it returns, `E` when it throws, and `T`
when the fuel ran out (`T := False` for total correctness). -/
def Res.sat {σ α : Type} (r : Res σ α) (T : Prop) (Q : α → σ → Prop)
    (E : Exc → σ → Prop) : Prop :=
  match r with
  | Res.ok a s => Q a s
  | Res.throw e s => E e s
  | Res.timeout => T

/-- What no member function other than the setters and the data-set navigation
changes: the limits, the cursor, the session, the storage and bulk modes; the
two per-data-set sequences are never shortened, and grow at most to cover the
cursor. -/
structure Frame {β : Type} (s t : StatementImpl β) : Prop where
  extrLimit : t._extrLimit = s._extrLimit
  lowerLimit : t._lowerLimit = s._lowerLimit
  curDataSet : t._curDataSet = s._curDataSet
  rSession : t._rSession = s._rSession
  storage : t._storage = s._storage
  bulkBinding : t._bulkBinding = s._bulkBinding
  bulkExtraction : t._bulkExtraction = s._bulkExtraction
  extractors : s._extractors.length ≤ t._extractors.length
  columnsExtracted : s._columnsExtracted.length ≤ t._columnsExtracted.length
  extractorsBound : t._extractors.length ≤ max s._extractors.length (s._curDataSet + 1)
  columnsBound : t._columnsExtracted.length ≤ max s._columnsExtracted.length (s._curDataSet + 1)

/-- The registry after `addExtract` has stored `e` at data-set position `pos`. -/
def registerAt (l : List (List Extraction)) (pos : Nat) (e : Extraction) :
    List (List Extraction) :=
  (if pos ≥ l.length then vresize l ((pos + 1) % UINT32_SIZE) [] else l).set pos
    ((if pos ≥ l.length then vresize l ((pos + 1) % UINT32_SIZE) [] else l).getD pos [] ++ [e])

/-- The default extraction `addInternalExtract` registers for column `mc`, as
stored by `addExtract` (with the two session flags applied). -/
def internalExtraction (cur : Nat) (session : SessionImpl) (mc : MetaColumn) : Extraction :=
  { position := cur
    numOfColumnsHandled := 1
    numOfRowsHandled := 0
    limit := LIMIT_UNLIMITED
    hasExtractor := false
    emptyStringIsNull := session.emptyStringIsNull
    forceEmptyString := session.forceEmptyString
    column := some mc }

/-- The registry after default extractions for `cols` have been registered, in
order, at position `cur`. -/
def registerColumns (l : List (List Extraction)) (cur : Nat) (session : SessionImpl)
    (cols : List MetaColumn) : List (List Extraction) :=
  cols.foldl (fun r mc => registerAt r cur (internalExtraction cur session mc)) l

/-- The columns `i, i+1, ..., i+n-1` reported by the backend. -/
def columnsFrom {β : Type} (B : Backend β) (b : β) (i n : Nat) : List MetaColumn :=
  (List.range' i n).map (B.metaColumn b)

/-- A statement over the row source whose columns are `columns`, freshly
constructed. -/
def freshOver (rows : Nat) (columns : List MetaColumn) : StatementImpl RowSource :=
  StatementImpl.new ⟨false, false⟩ (RowSource.ofRows rows columns)

/-- A move of the data-set cursor. -/
inductive DataSetMove where
  | next
  | previous
  deriving DecidableEq, Repr

/-- The object after one cursor move, whether the move succeeded or threw. -/
def applyMove {β : Type} (B : Backend β) (m : DataSetMove) (s : StatementImpl β) :
    StatementImpl β :=
  match m with
  | DataSetMove.next => ((activateNextDataSet B s).state?).getD s
  | DataSetMove.previous => ((activatePreviousDataSet s).state?).getD s

/-- The object after a sequence of cursor moves. -/
def applyMoves {β : Type} (B : Backend β) (ms : List DataSetMove) (s : StatementImpl β) :
    StatementImpl β :=
  ms.foldl (fun t m => applyMove B m t) s

/-- `Frame`, and the column counters are unchanged. -/
structure Quiet {β : Type} (s t : StatementImpl β) : Prop where
  frame : Frame s t
  columns : t._columnsExtracted = s._columnsExtracted

/-- The object is untouched as far as the backend and the lifecycle go. -/
def Untouched {β : Type} (s t : StatementImpl β) : Prop :=
  t._state = s._state ∧ t.backend = s.backend ∧ t.calls = s.calls

/-- The object after `resetExtraction` succeeded. -/
def afterReset {β : Type} (s : StatementImpl β) : StatementImpl β :=
  { s with
    _extractors := s._extractors.set s._curDataSet
      ((s._extractors.getD s._curDataSet []).map Extraction.reset)
    _columnsExtracted := s._columnsExtracted.set s._curDataSet 0 }

/-- A statement over a row source of `rows` rows with one `FDT_INT32` column,
freshly constructed and then given the upper limit `limit` (hard or soft). -/
def limitedOver (rows limit : Nat) (hard : Bool) : StatementImpl RowSource :=
  { freshOver rows [⟨"a", ColumnDataType.FDT_INT32⟩] with _extrLimit := ⟨limit, hard, false⟩ }

/-- The statement `freshOver 2 [a : FDT_INT32]` after one unlimited `execute`. -/
def drainedOver : StatementImpl RowSource :=
  (execute rowBackend 10 (freshOver 2 [⟨"a", ColumnDataType.FDT_INT32⟩])).stateOr
    (freshOver 2 [⟨"a", ColumnDataType.FDT_INT32⟩])

/-- The object at the entry of `executeWithLimit` / `executeWithoutLimit` in the
first pass of `execute`: after `resetExtraction` and `compile`. -/
def entered {β : Type} (B : Backend β) (s0 : StatementImpl β) : StatementImpl β :=
  ((resetExtraction >>= fun _ => compile B) s0).stateOr s0

/-- The object the loops of `executeWithLimit` leave. -/
def afterLoops {β : Type} (B : Backend β) (limit fuel : Nat) (s : StatementImpl β) :
    StatementImpl β :=
  (bindLoopWithLimit B limit fuel 0 s).stateOr s

/-- A call of a member function of the statement. -/
inductive Call where
  | addExtract (pExtraction : Extraction)
  | addBinding (info : Binding)
  | removeBind (name : String)
  | compile
  | bind
  | execute (fuel : Nat)
  | reset
  | setExtractionLimit (extrLimit : Limit)
  | setBulkExtraction (b : Bulk)
  | setStorage (storage : String)
  | makeExtractors (count : Nat)
  | metaColumn (name : String)
  | activateNextDataSet
  | activatePreviousDataSet
  | columnsExtracted (dataSet : Int)
  | rowsExtracted (dataSet : Int)

/-- The object a call leaves, whether it returned or threw; `none` if the fuel of
an `execute` ran out. -/
def runCall {β : Type} (B : Backend β) : Call → StatementImpl β → Option (StatementImpl β)
  | Call.addExtract e, s => (addExtract e s).state?
  | Call.addBinding b, s => (addBinding b s).state?
  | Call.removeBind name, s => (removeBind name s).state?
  | Call.compile, s => (compile B s).state?
  | Call.bind, s => (bind B s).state?
  | Call.execute fuel, s => (execute B fuel s).state?
  | Call.reset, s => (reset s).state?
  | Call.setExtractionLimit l, s => (setExtractionLimit l s).state?
  | Call.setBulkExtraction b, s => (setBulkExtraction b s).state?
  | Call.setStorage storage, s => (setStorage storage s).state?
  | Call.makeExtractors count, s => (makeExtractors B count s).state?
  | Call.metaColumn name, s => (metaColumn B name s).state?
  | Call.activateNextDataSet, s => (activateNextDataSet B s).state?
  | Call.activatePreviousDataSet, s => (activatePreviousDataSet s).state?
  | Call.columnsExtracted d, s => (columnsExtracted d s).state?
  | Call.rowsExtracted d, s => (rowsExtracted d s).state?

/-- The states a statement can be in: freshly constructed, or left by a call on a
reachable statement. -/
inductive Reachable {β : Type} (B : Backend β) : StatementImpl β → Prop where
  | new (rSession : SessionImpl) (b : β) : Reachable B (StatementImpl.new rSession b)
  | call (c : Call) {s t : StatementImpl β} :
      Reachable B s → runCall B c s = some t → Reachable B t

/-- Neither per-data-set sequence is shorter in `t` than in `s`, and each has
grown at most to cover the cursor of `s`. -/
def Grows {β : Type} (s t : StatementImpl β) : Prop :=
  s._extractors.length ≤ t._extractors.length
    ∧ s._columnsExtracted.length ≤ t._columnsExtracted.length
    ∧ t._extractors.length ≤ max s._extractors.length (s._curDataSet + 1)
    ∧ t._columnsExtracted.length ≤ max s._columnsExtracted.length (s._curDataSet + 1)

/-- An extraction declared for the second data set (position 1). -/
def secondDataSetExtraction : Extraction :=
  { position := 1
    numOfColumnsHandled := 1
    numOfRowsHandled := 0
    limit := LIMIT_UNLIMITED
    hasExtractor := false
    emptyStringIsNull := false
    forceEmptyString := false
    column := none }

/-- The object after a sequence of calls, each applied whether the previous ones
returned or threw. -/
def applyCalls {β : Type} (B : Backend β) (cs : List Call) (s : StatementImpl β) :
    StatementImpl β :=
  cs.foldl (fun t c => (runCall B c t).getD t) s

/-- A statement over a row source with two data sets: an extraction is registered
for the second data set, the cursor is moved to the second data set, the upper
limit is set to 3 and the lower limit to 5. The registry then has length 2, the
counter sequence length 1, and the cursor is 1. -/
def movedOver : StatementImpl RowSource :=
  applyCalls rowBackend
    [Call.addExtract secondDataSetExtraction, Call.activateNextDataSet,
     Call.setExtractionLimit ⟨3, false, false⟩, Call.setExtractionLimit ⟨5, false, true⟩]
    (StatementImpl.new ⟨false, false⟩
      { total := 0, remaining := 0, columns := [], dataSets := 2 })

/-- A backend with finitely many rows, bind batches and SQL fragments: `μ` bounds
the work left. Fetching a row when there is one, binding the next batch when
there is one and compiling the next fragment when there is one each use some of
it up; a bind never adds to it. -/
structure FiniteBackend {β : Type} (B : Backend β) (μ : β → Nat) : Prop where
  next_lt : ∀ b es, B.hasNext b = true → μ (B.next b es).2.1 < μ b
  bind_le : ∀ b bs, μ (B.bindImpl b bs).1 ≤ μ b
  bind_lt : ∀ b bs, B.canBind b = true → μ (B.bindImpl b bs).1 < μ b
  compile_lt : ∀ b, B.canCompile b = true → μ (B.compileImpl b) < μ b

/-- The statement `limitedOver rows limit hard` at the entry of `executeWithLimit`
in its first `execute`: its extractions reset, compiled, with a default
extraction generated for its column and fixed up. -/
def compiledOver (rows limit : Nat) (hard : Bool) : StatementImpl RowSource :=
  { limitedOver rows limit hard with
    _state := State.ST_COMPILED
    _extractors := [[{ internalExtraction 0 ⟨false, false⟩ ⟨"a", ColumnDataType.FDT_INT32⟩ with
                        hasExtractor := true, limit := limit }]]
    _columnsExtracted := [1]
    backend := { total := rows, remaining := rows,
                 columns := [⟨"a", ColumnDataType.FDT_INT32⟩], dataSets := 1 }
    calls := [Prim.binder, Prim.extractor, Prim.metaColumn, Prim.columnsReturned,
              Prim.isStoredProcedure, Prim.compileImpl] }

/-- An extraction registered by the caller for the first data set, handling one
column. -/
def callerExtraction : Extraction :=
  { position := 0
    numOfColumnsHandled := 1
    numOfRowsHandled := 0
    limit := LIMIT_UNLIMITED
    hasExtractor := false
    emptyStringIsNull := false
    forceEmptyString := false
    column := none }

/-- A fresh unlimited statement over two rows with `callerExtraction` registered. -/
def registeredOver : StatementImpl RowSource :=
  (addExtract callerExtraction (freshOver 2 [⟨"a", ColumnDataType.FDT_INT32⟩])).stateOr
    (freshOver 2 [⟨"a", ColumnDataType.FDT_INT32⟩])

/-- The statement `registeredOver` after its first `execute`. -/
def executedOnce : StatementImpl RowSource :=
  (execute rowBackend 10 registeredOver).stateOr registeredOver

/-- The statement `executedOnce` after `reset (); compile (); execute ()`. -/
def restarted : StatementImpl RowSource :=
  ((reset >>= fun _ => compile rowBackend >>= fun _ => execute rowBackend 10)
    executedOnce).stateOr executedOnce

/-- A freshly constructed statement over a row source of two rows and two data
sets, without columns. -/
def twoDataSets : StatementImpl RowSource :=
  StatementImpl.new ⟨false, false⟩ { total := 2, remaining := 0, columns := [], dataSets := 2 }

/-- The statement `twoDataSets` after an extraction has been registered for the
second data set and the cursor has been moved to the second data set. The
registry then has length 2, the counter sequence length 1, and the cursor is 1. -/
def navigatedOver : StatementImpl RowSource :=
  applyCalls rowBackend [Call.addExtract secondDataSetExtraction, Call.activateNextDataSet]
    twoDataSets

/-- The statement `twoDataSets` after an extraction has been registered for the
second data set, the cursor has been moved there, the statement has been compiled
and executed (both rows are extracted into the second data set), and the cursor
has been moved back to the first data set, which has no extraction. -/
def secondDataSetDrained : StatementImpl RowSource :=
  applyCalls rowBackend
    [Call.addExtract secondDataSetExtraction, Call.activateNextDataSet, Call.compile,
     Call.execute 10, Call.activatePreviousDataSet]
    twoDataSets

/-- The statement `limitedOver 10 4 false` after its first `execute`: one page of
four rows has been extracted and the state is Paused. -/
def pausedOver : StatementImpl RowSource :=
  (execute rowBackend 20 (limitedOver 10 4 false)).stateOr (limitedOver 10 4 false)

/-- An extraction after `fixupExtraction` has attached the extractor and the
limit value `limit` to it. -/
def Extraction.fixedUp (limit : Nat) (e : Extraction) : Extraction :=
  { e with hasExtractor := true, limit := limit }

/-- The numbers of columns handled by the extractions registered for the current
data set. -/
def handledColumns {β : Type} (s : StatementImpl β) : List Nat :=
  (s._extractors.getD s._curDataSet []).map fun e => e.numOfColumnsHandled

/-- The columns `compile` generates default extractions for, on the object as it
is after `compileImpl ()`: those reported by the backend when no extraction is
registered for the current data set and the statement is not a stored-procedure
call, none otherwise. -/
def generatedColumns {β : Type} (B : Backend β) (s : StatementImpl β) : List MetaColumn :=
  if (s._extractors.getD s._curDataSet []).length = 0 ∧ B.isStoredProcedure s.backend = false
  then columnsFrom B s.backend 0 (B.columnsReturned s.backend) else []

/-- The object after the first two statements of the body of `compile`:
`compileImpl ()` has been invoked and the state is Compiled. -/
def compiling {β : Type} (B : Backend β) (s : StatementImpl β) : StatementImpl β :=
  { s with
    _state := State.ST_COMPILED
    backend := B.compileImpl s.backend
    calls := Prim.compileImpl :: s.calls }

/-- A freshly constructed statement over three rows whose only column has a
declared type without default extractor, after one binding has been registered. -/
def unsupportedOver : StatementImpl RowSource :=
  applyCalls rowBackend [Call.addBinding ⟨"p", false, false⟩]
    (freshOver 3 [⟨"a", ColumnDataType.FDT_UNKNOWN⟩])

/-- How often the backend primitive `p` has been invoked on the object. -/
def invoked {β : Type} (p : Prim) (s : StatementImpl β) : Nat := s.calls.count p

/-- The backend's `next ()` only lets the extractions extract: the number of
columns each extraction handles is the same after it as before. -/
def KeepsColumns {β : Type} (B : Backend β) : Prop :=
  ∀ b es, ((B.next b es).2.2).map (fun e => e.numOfColumnsHandled) =
    es.map fun e => e.numOfColumnsHandled

/-- A single-fragment backend without further bind batches that yields its rows
one per `next ()`: `rows b` is the number of rows still to be fetched. -/
structure RowYielding {β : Type} (B : Backend β) (rows : β → Nat) : Prop where
  canBind_false : ∀ b, B.canBind b = false
  canCompile_false : ∀ b, B.canCompile b = false
  hasNext_iff : ∀ b, B.hasNext b = decide (0 < rows b)
  next_one : ∀ b es, (B.next b es).1 = 1
  next_rows : ∀ b es, rows (B.next b es).2.1 = rows b - 1
  bind_rows : ∀ b bs, rows (B.bindImpl b bs).1 = rows b

/-- Calls `execute ()` until the state is Done, at most `n` times: the value each
call returned and the state it left, in call order; `none` if a call throws or
runs out of fuel, or if the state is not Done after `n` calls. -/
def executeUntilDone {β : Type} (B : Backend β) (fuel : Nat) :
    Nat → StatementImpl β → Option (List (Nat × State))
  | 0, _ => none
  | n + 1, s =>
    match execute B fuel s with
    | Res.ok v t =>
      if t._state = State.ST_DONE then some [(v, State.ST_DONE)]
      else (executeUntilDone B fuel n t).map fun l => (v, t._state) :: l
    | Res.throw _ _ => none
    | Res.timeout => none

/-- A freshly constructed statement over three rows whose only column has a
declared type without default extractor, after `setExtractionLimit` of the soft
upper limit 4. -/
def unsupportedLimitedOver : StatementImpl RowSource :=
  applyCalls rowBackend [Call.setExtractionLimit ⟨4, false, false⟩]
    (freshOver 3 [⟨"a", ColumnDataType.FDT_UNKNOWN⟩])

/-- The call keeps `addExtract` within the positions at which the source is
defined: no extraction is registered (by the caller, or by `makeExtractors` at the
cursor) at a position beyond the registry for which `pos + 1` wraps in
`Poco::UInt32`, that is at position `0xffffffff`. -/
def Call.inRange {β : Type} (c : Call) (s : StatementImpl β) : Prop :=
  match c with
  | Call.addExtract e => e.position < s._extractors.length ∨ e.position + 1 < UINT32_SIZE
  | Call.makeExtractors _ =>
    s._curDataSet < s._extractors.length ∨ s._curDataSet + 1 < UINT32_SIZE
  | _ => True

/-- The states reachable from a freshly constructed statement by calls that are
in range. -/
inductive ReachableInRange {β : Type} (B : Backend β) : StatementImpl β → Prop where
  | new (rSession : SessionImpl) (b : β) : ReachableInRange B (StatementImpl.new rSession b)
  | call (c : Call) {s t : StatementImpl β} :
      ReachableInRange B s → c.inRange s → runCall B c s = some t → ReachableInRange B t

/-- An extraction declared for position `0xffffffff`. -/
def lastPositionExtraction : Extraction :=
  { position := 0xffffffff
    numOfColumnsHandled := 1
    numOfRowsHandled := 0
    limit := LIMIT_UNLIMITED
    hasExtractor := false
    emptyStringIsNull := false
    forceEmptyString := false
    column := none }

/-- The counter sequence is not shorter in `t` than in `s`, and the cursor is not
further on. -/
def CursorKept {β : Type} (s t : StatementImpl β) : Prop :=
  s._columnsExtracted.length ≤ t._columnsExtracted.length ∧ t._curDataSet ≤ s._curDataSet

/-- The body of the loop `do ... while (canCompile ())` of `execute`, without the
test: `compile ()`, then the limited or the unlimited execution. -/
def onePass {β : Type} (B : Backend β) (fuel : Nat) : M (StatementImpl β) Nat := do
  compile B
  let s ← getS
  if s._extrLimit.value = LIMIT_UNLIMITED then executeWithoutLimit B fuel
  else executeWithLimit B fuel

/-- A pass of the loop of `execute`: the loop entered with fuel `fuel`, running
total `lim` and object `s` reaches, after zero or more passes that returned with
`canCompile ()` true, the start of a pass with fuel `f`, running total `l` and
object `u`. -/
inductive LaterPass {β : Type} (B : Backend β) :
    Nat → Nat → StatementImpl β → Nat → Nat → StatementImpl β → Prop where
  | here (fuel lim : Nat) (s : StatementImpl β) : LaterPass B fuel lim s fuel lim s
  | step {fuel lim n f l : Nat} {s s2 u : StatementImpl β} :
      onePass B fuel s = Res.ok n s2 → B.canCompile s2.backend = true →
      LaterPass B fuel ((lim + n) % UINT32_SIZE)
        { s2 with calls := Prim.canCompile :: s2.calls } f l u →
      LaterPass B (fuel + 1) lim s f l u

/-- The row-source backend with a further SQL fragment always pending:
`canCompile ()` is true. -/
def fragmentBackend : Backend RowSource :=
  { rowBackend with canCompile := fun _ => true }

/-! ## Basic lemmas on the execution monad -/

section MonadLemmas

variable {σ α γ : Type}

@[simp] theorem M.pure_apply (a : α) (s : σ) : (pure a : M σ α) s = Res.ok a s := rfl

@[simp] theorem M.bind_apply (m : M σ α) (f : α → M σ γ) (s : σ) :
    (m >>= f) s = match m s with
      | Res.ok a s1 => f a s1
      | Res.throw e s1 => Res.throw e s1
      | Res.timeout => Res.timeout := rfl

@[simp] theorem getS_run (s : σ) : (getS : M σ σ) s = Res.ok s s := rfl

@[simp] theorem modifyS_run (f : σ → σ) (s : σ) : modifyS f s = Res.ok () (f s) := rfl

@[simp] theorem throwE_run (e : Exc) (s : σ) : (throwE e : M σ α) s = Res.throw e s := rfl

@[simp] theorem outOfFuel_run (s : σ) : (outOfFuel : M σ α) s = Res.timeout := rfl

@[simp] theorem poco_assert_true (s : σ) :
    (poco_assert true : M σ Unit) s = Res.ok () s := rfl

@[simp] theorem poco_assert_false (s : σ) :
    (poco_assert false : M σ Unit) s = Res.throw Exc.AssertionViolationException s := rfl

theorem ite_run (c : Prop) [Decidable c] (a b : M σ α) (s : σ) :
    (if c then a else b) s = if c then a s else b s := by
  split <;> rfl

@[simp] theorem Res.sat_ok (a : α) (s : σ) (T : Prop) (Q : α → σ → Prop)
    (E : Exc → σ → Prop) : (Res.ok a s).sat T Q E ↔ Q a s := Iff.rfl

@[simp] theorem Res.sat_throw (e : Exc) (s : σ) (T : Prop) (Q : α → σ → Prop)
    (E : Exc → σ → Prop) : (Res.throw e s : Res σ α).sat T Q E ↔ E e s := Iff.rfl

@[simp] theorem Res.sat_timeout (T : Prop) (Q : α → σ → Prop)
    (E : Exc → σ → Prop) : (Res.timeout : Res σ α).sat T Q E ↔ T := Iff.rfl

theorem Res.sat_mono {r : Res σ α} {T T2 : Prop} {Q Q2 : α → σ → Prop}
    {E E2 : Exc → σ → Prop} (h : r.sat T Q E) (hT : T → T2)
    (hQ : ∀ a s, Q a s → Q2 a s) (hE : ∀ e s, E e s → E2 e s) : r.sat T2 Q2 E2 := by
  cases r with
  | ok a s => exact hQ a s h
  | throw e s => exact hE e s h
  | timeout => exact hT h

theorem Res.sat_and {r : Res σ α} {T T2 : Prop} {Q Q2 : α → σ → Prop}
    {E E2 : Exc → σ → Prop} (h : r.sat T Q E) (h2 : r.sat T2 Q2 E2) :
    r.sat (T ∧ T2) (fun a s => Q a s ∧ Q2 a s) (fun e s => E e s ∧ E2 e s) := by
  cases r with
  | ok a s => exact ⟨h, h2⟩
  | throw e s => exact ⟨h, h2⟩
  | timeout => exact ⟨h, h2⟩

theorem sat_bind {m : M σ α} {f : α → M σ γ} {s : σ} {T : Prop}
    {Q2 : α → σ → Prop} {E2 : Exc → σ → Prop} {Q : γ → σ → Prop} {E : Exc → σ → Prop}
    (hm : (m s).sat T Q2 E2) (hf : ∀ a s1, Q2 a s1 → (f a s1).sat T Q E)
    (hE : ∀ e s1, E2 e s1 → E e s1) : ((m >>= f) s).sat T Q E := by
  rw [M.bind_apply]
  cases h : m s with
  | ok a s1 => rw [h] at hm; exact hf a s1 hm
  | throw e s1 => rw [h] at hm; exact hE e s1 hm
  | timeout => rw [h] at hm; exact hm

theorem Frame.refl {β : Type} (s : StatementImpl β) : Frame s s :=
  ⟨rfl, rfl, rfl, rfl, rfl, rfl, rfl, le_rfl, le_rfl, le_max_left _ _, le_max_left _ _⟩

theorem Frame.trans {β : Type} {s t u : StatementImpl β} (h1 : Frame s t)
    (h2 : Frame t u) : Frame s u :=
  ⟨h2.extrLimit.trans h1.extrLimit, h2.lowerLimit.trans h1.lowerLimit,
   h2.curDataSet.trans h1.curDataSet, h2.rSession.trans h1.rSession,
   h2.storage.trans h1.storage, h2.bulkBinding.trans h1.bulkBinding,
   h2.bulkExtraction.trans h1.bulkExtraction,
   le_trans h1.extractors h2.extractors, le_trans h1.columnsExtracted h2.columnsExtracted,
   by have a := h1.extractorsBound; have b := h2.extractorsBound; have c := h1.curDataSet
      rw [c] at b; omega,
   by have a := h1.columnsBound; have b := h2.columnsBound; have c := h1.curDataSet
      rw [c] at b; omega⟩

end MonadLemmas

section EngineLemmas

variable {β : Type} (B : Backend β)

/-! ## Vectors -/

theorem length_vresize {α : Type} (l : List α) (n : Nat) (d : α) :
    (vresize l n d).length = n := by
  simp [vresize]
  omega

theorem getD_vresize_nil {α : Type} (l : List (List α)) (n i : Nat) (h : l.length ≤ n) :
    (vresize l n [])[i]?.getD [] = l[i]?.getD [] := by
  unfold vresize
  rw [List.take_of_length_le h]
  by_cases hi : i < l.length
  · rw [List.getElem?_append_left hi]
  · rw [List.getElem?_append_right (by omega)]
    rw [List.getElem?_eq_none (by omega : l.length ≤ i)]
    by_cases h2 : i - l.length < n - l.length
    · simp [List.getElem?_replicate, h2]
    · simp [List.getElem?_replicate, h2]

theorem getD_set {α : Type} (l : List α) (i j : Nat) (v d : α) :
    (l.set i v)[j]?.getD d = if i = j ∧ i < l.length then v else l[j]?.getD d := by
  simp only [List.getElem?_set]
  by_cases h : i = j
  · subst h
    by_cases h2 : i < l.length
    · simp [h2]
    · simp [h2, List.getElem?_eq_none (by omega : l.length ≤ i)]
  · simp [h]

theorem length_registerAt (l : List (List Extraction)) (pos : Nat) (e : Extraction)
    (hw : pos < l.length ∨ pos + 1 < UINT32_SIZE) :
    (registerAt l pos e).length = max l.length (pos + 1) := by
  unfold registerAt
  by_cases h : pos ≥ l.length
  · have hm : (pos + 1) % UINT32_SIZE = pos + 1 := Nat.mod_eq_of_lt (by omega)
    simp only [h, if_true, List.length_set, length_vresize, hm]
    omega
  · simp only [h, if_false, List.length_set]
    omega

theorem getD_registerAt (l : List (List Extraction)) (pos d : Nat) (e : Extraction)
    (hw : pos < l.length ∨ pos + 1 < UINT32_SIZE) :
    (registerAt l pos e)[d]?.getD [] =
      if d = pos then l[d]?.getD [] ++ [e] else l[d]?.getD [] := by
  unfold registerAt
  by_cases h : pos ≥ l.length
  · have hm : (pos + 1) % UINT32_SIZE = pos + 1 := Nat.mod_eq_of_lt (by omega)
    simp only [h, if_true, getD_set, length_vresize, List.getD_eq_getElem?_getD, hm]
    by_cases hd : d = pos
    · subst hd
      simp [getD_vresize_nil l (d + 1) d (by omega)]
    · have hd2 : ¬ pos = d := fun h => hd h.symm
      simp [hd, hd2, getD_vresize_nil l (pos + 1) d (by omega)]
  · simp only [h, if_false, getD_set, List.getD_eq_getElem?_getD]
    by_cases hd : d = pos
    · subst hd
      simp [(by omega : d < l.length)]
    · have hd2 : ¬ pos = d := fun h => hd h.symm
      simp [hd, hd2]

theorem length_registerColumns (cols : List MetaColumn) (l : List (List Extraction))
    (cur : Nat) (session : SessionImpl) (hw : cur < l.length ∨ cur + 1 < UINT32_SIZE) :
    l.length ≤ (registerColumns l cur session cols).length := by
  induction cols generalizing l with
  | nil => simp [registerColumns]
  | cons mc cols ih =>
    have hlen := length_registerAt l cur (internalExtraction cur session mc) hw
    have h1 := ih (registerAt l cur (internalExtraction cur session mc))
      (Or.inl (by rw [hlen]; omega))
    rw [hlen] at h1
    simp only [registerColumns, List.foldl_cons] at h1 ⊢
    omega

theorem getD_registerColumns (cols : List MetaColumn) (l : List (List Extraction))
    (cur d : Nat) (session : SessionImpl) (hw : cur < l.length ∨ cur + 1 < UINT32_SIZE) :
    (registerColumns l cur session cols)[d]?.getD [] =
      if d = cur then l[d]?.getD [] ++ cols.map (internalExtraction cur session)
      else l[d]?.getD [] := by
  induction cols generalizing l with
  | nil => simp [registerColumns]
  | cons mc cols ih =>
    have hlen := length_registerAt l cur (internalExtraction cur session mc) hw
    have h1 := ih (registerAt l cur (internalExtraction cur session mc))
      (Or.inl (by rw [hlen]; omega))
    simp only [registerColumns, List.foldl_cons] at h1 ⊢
    rw [h1, getD_registerAt _ _ _ _ hw]
    by_cases hd : d = cur <;> simp [hd]

/-! ## Default extractor generation -/

theorem addExtract_run (e : Extraction) (s : StatementImpl β) :
    addExtract e s = Res.ok ()
      { s with _extractors := (registerAt s._extractors e.position
          { e with emptyStringIsNull := s._rSession.emptyStringIsNull
                   forceEmptyString := s._rSession.forceEmptyString }) } := by
  by_cases h : e.position ≥ s._extractors.length <;>
    simp [addExtract, ite_run, h, registerAt]

theorem addInternalExtract_run (mc : MetaColumn) (s : StatementImpl β) :
    addInternalExtract mc s = Res.ok ()
      { s with _extractors := (registerAt s._extractors s._curDataSet
          (internalExtraction s._curDataSet s._rSession mc)) } := by
  simp [addInternalExtract, addExtract_run, internalExtraction]

theorem makeExtractorsLoop_run (n i : Nat) (s : StatementImpl β)
    (hw : s._curDataSet < s._extractors.length ∨ s._curDataSet + 1 < UINT32_SIZE) :
    ∃ s', s'.backend = s.backend ∧ s'._state = s._state
      ∧ s'._columnsExtracted = s._columnsExtracted ∧ s'._bindings = s._bindings
      ∧ Frame s s'
      ∧ s'._extractors = registerColumns s._extractors s._curDataSet s._rSession
          ((columnsFrom B s.backend i n).takeWhile fun mc => mc.type.supported)
      ∧ ((∀ mc ∈ columnsFrom B s.backend i n, mc.type.supported = true) →
          makeExtractorsLoop B n i s = Res.ok () s')
      ∧ (¬ (∀ mc ∈ columnsFrom B s.backend i n, mc.type.supported = true) →
          makeExtractorsLoop B n i s = Res.throw Exc.InvalidArgumentException s') := by
  induction n generalizing i s with
  | zero =>
    exact ⟨s, rfl, rfl, rfl, rfl, Frame.refl s, by simp [columnsFrom, registerColumns],
      fun _ => rfl, fun h => absurd (by simp [columnsFrom]) h⟩
  | succ n ih =>
    have hcols : columnsFrom B s.backend i (n + 1) =
        B.metaColumn s.backend i :: columnsFrom B s.backend (i + 1) n := by
      simp [columnsFrom, List.range'_succ]
    by_cases hs : (B.metaColumn s.backend i).type.supported = true
    · have hlen := length_registerAt s._extractors s._curDataSet
        (internalExtraction s._curDataSet s._rSession (B.metaColumn s.backend i)) hw
      obtain ⟨s', h1, h2, h3, h4, h5, h6, h7, h8⟩ := ih (i + 1)
        { s with _extractors := (registerAt s._extractors s._curDataSet
                  (internalExtraction s._curDataSet s._rSession (B.metaColumn s.backend i)))
                 calls := Prim.metaColumn :: s.calls }
        (Or.inl (by simp only [hlen]; omega))
      have hrun : makeExtractorsLoop B (n + 1) i s = makeExtractorsLoop B n (i + 1)
          { s with _extractors := (registerAt s._extractors s._curDataSet
                    (internalExtraction s._curDataSet s._rSession (B.metaColumn s.backend i)))
                   calls := Prim.metaColumn :: s.calls } := by
        simp [makeExtractorsLoop, metaColumnAt, hs, addInternalExtract_run]
      refine ⟨s', h1, h2, h3, h4, ?_, ?_, ?_, ?_⟩
      · refine Frame.trans ?_ h5
        refine ⟨rfl, rfl, rfl, rfl, rfl, rfl, rfl, ?_, le_rfl, ?_, le_max_left _ _⟩
        · simp only [hlen]
          omega
        · simp only [hlen]
          omega
      · rw [h6, hcols]
        simp [List.takeWhile_cons, hs, registerColumns]
      · intro hall
        rw [hrun]
        apply h7
        intro mc hmc
        exact hall mc (by rw [hcols]; exact List.mem_cons_of_mem _ hmc)
      · intro hall
        rw [hrun]
        apply h8
        intro hall2
        apply hall
        intro mc hmc
        rw [hcols] at hmc
        rcases List.mem_cons.1 hmc with h | h
        · rw [h]; exact hs
        · exact hall2 mc h
    · refine ⟨{ s with calls := Prim.metaColumn :: s.calls }, rfl, rfl, rfl, rfl,
        ⟨rfl, rfl, rfl, rfl, rfl, rfl, rfl, le_rfl, le_rfl, le_max_left _ _, le_max_left _ _⟩, ?_, ?_, ?_⟩
      · rw [hcols]
        simp [List.takeWhile_cons, hs, registerColumns]
      · intro hall
        exact absurd (hall _ (by rw [hcols]; exact List.mem_cons_self _ _)) hs
      · intro _
        simp [makeExtractorsLoop, metaColumnAt, hs]

/-- C9 (amended): `makeExtractors (count)` registers default extractions column by
column and stops at the first column whose declared type has no `case`: it
throws the invalid-argument exception exactly when some column in `[0, count)`
has an unsupported type, and then the extractions of the columns before the
first unsupported one have already been appended, in column order, to the
current data set's list (the registry is unchanged only if column 0 is the
unsupported one); when every column is supported it returns and has appended
exactly one extraction per column, in column order. Other data sets' lists are
untouched in both cases. The cursor is inside the registry, or at least such that
the `pos + 1` of `addExtract` does not wrap (it is a `Poco::UInt32` below
`0xffffffff`). -/
theorem makeExtractors_registers_until_unsupported (count : Nat) (s : StatementImpl β)
    (hw : s._curDataSet < s._extractors.length ∨ s._curDataSet + 1 < UINT32_SIZE) :
    ∃ s',
      ((∀ mc ∈ columnsFrom B s.backend 0 count, mc.type.supported = true) →
        makeExtractors B count s = Res.ok () s' ∧
        s'._extractors.getD s._curDataSet [] = s._extractors.getD s._curDataSet [] ++
          (columnsFrom B s.backend 0 count).map
            (internalExtraction s._curDataSet s._rSession)) ∧
      (¬ (∀ mc ∈ columnsFrom B s.backend 0 count, mc.type.supported = true) →
        makeExtractors B count s = Res.throw Exc.InvalidArgumentException s') ∧
      (∀ d, s'._extractors.getD d [] =
        if d = s._curDataSet then
          s._extractors.getD d [] ++
            ((columnsFrom B s.backend 0 count).takeWhile fun mc => mc.type.supported).map
              (internalExtraction s._curDataSet s._rSession)
        else s._extractors.getD d []) := by
  obtain ⟨s', -, -, -, -, -, h6, h7, h8⟩ := makeExtractorsLoop_run B count 0 s hw
  have hreg : ∀ d, s'._extractors.getD d [] =
      if d = s._curDataSet then
        s._extractors.getD d [] ++
          ((columnsFrom B s.backend 0 count).takeWhile fun mc => mc.type.supported).map
            (internalExtraction s._curDataSet s._rSession)
      else s._extractors.getD d [] := by
    intro d
    simp only [List.getD_eq_getElem?_getD, h6]
    exact getD_registerColumns _ _ _ _ _ hw
  refine ⟨s', fun hall => ⟨h7 hall, ?_⟩, h8, hreg⟩
  have ht : ((columnsFrom B s.backend 0 count).takeWhile fun mc => mc.type.supported) =
      columnsFrom B s.backend 0 count :=
    List.takeWhile_eq_self_iff.2 hall
  have := hreg s._curDataSet
  rw [ht] at this
  simpa using this

/-- C9, over the supported columns `a : FDT_BOOL`, `b : FDT_INT32` on a freshly
constructed statement: `makeExtractors (2)` returns and the current data set's
list holds the two generated extractions, in column order. -/
theorem makeExtractors_registers_until_unsupported_witness :
    (freshOver 0 [⟨"a", ColumnDataType.FDT_BOOL⟩, ⟨"b", ColumnDataType.FDT_INT32⟩])._curDataSet
      < (freshOver 0 [⟨"a", ColumnDataType.FDT_BOOL⟩,
          ⟨"b", ColumnDataType.FDT_INT32⟩])._extractors.length ∧
    ∃ s', makeExtractors rowBackend 2
        (freshOver 0 [⟨"a", ColumnDataType.FDT_BOOL⟩, ⟨"b", ColumnDataType.FDT_INT32⟩]) =
          Res.ok () s' ∧
      s'._extractors.getD 0 [] =
        [internalExtraction 0 ⟨false, false⟩ ⟨"a", ColumnDataType.FDT_BOOL⟩,
         internalExtraction 0 ⟨false, false⟩ ⟨"b", ColumnDataType.FDT_INT32⟩] := by
  refine ⟨by decide!, ?_⟩
  obtain ⟨s', h1, -, -⟩ := makeExtractors_registers_until_unsupported rowBackend 2
    (freshOver 0 [⟨"a", ColumnDataType.FDT_BOOL⟩, ⟨"b", ColumnDataType.FDT_INT32⟩])
    (Or.inl (by decide!))
  obtain ⟨hrun, hreg⟩ := h1 (by decide!)
  exact ⟨s', hrun, by rw [show (0 : Nat) = (freshOver 0 [⟨"a", ColumnDataType.FDT_BOOL⟩,
    ⟨"b", ColumnDataType.FDT_INT32⟩])._curDataSet from rfl, hreg]; decide!⟩

/-- C9, counterexample: over the columns `a : FDT_BOOL`, `b : FDT_UNKNOWN`,
`makeExtractors (2)` throws the invalid-argument exception, and the registry,
empty before the call, then holds the extraction generated for column `a`. -/
theorem makeExtractors_not_atomic :
    (freshOver 0 [⟨"a", ColumnDataType.FDT_BOOL⟩, ⟨"b", ColumnDataType.FDT_UNKNOWN⟩])._extractors
        = [[]] ∧
    ∃ s', makeExtractors rowBackend 2
        (freshOver 0 [⟨"a", ColumnDataType.FDT_BOOL⟩, ⟨"b", ColumnDataType.FDT_UNKNOWN⟩]) =
          Res.throw Exc.InvalidArgumentException s' ∧
      s'._extractors =
        [[internalExtraction 0 ⟨false, false⟩ ⟨"a", ColumnDataType.FDT_BOOL⟩]] :=
  ⟨rfl, _, rfl, rfl⟩

/-! ## Limit and bulk configuration, data-set navigation -/

/-- C7: `setBulkExtraction (b)` throws the invalid-argument exception exactly when
the current extraction limit is not the unlimited sentinel and differs from
`b.size ()`; a failure leaves the whole object unchanged (in particular the
extraction limit, the lower limit and the bulk-extraction mode); otherwise it
returns, the bulk spec's limit has been applied as `setExtractionLimit` applies it
(`b.limit ()` is the new extraction limit and the lower limit is unchanged, or,
when `b.limit ()` is flagged as a lower bound, its value is the new lower limit
and the extraction limit is unchanged), the bulk-extraction mode is bulk, and
every other member is unchanged. -/
theorem setBulkExtraction_contract (b : Bulk) (s : StatementImpl β) :
    ((∃ s', setBulkExtraction b s = Res.throw Exc.InvalidArgumentException s') ↔
      (s._extrLimit.value ≠ LIMIT_UNLIMITED ∧ s._extrLimit.value ≠ b.size)) ∧
    (∀ e s', setBulkExtraction b s = Res.throw e s' →
      e = Exc.InvalidArgumentException ∧ s' = s) ∧
    ((∃ s', setBulkExtraction b s = Res.ok () s') ↔
      ¬ (s._extrLimit.value ≠ LIMIT_UNLIMITED ∧ s._extrLimit.value ≠ b.size)) ∧
    (∀ s', setBulkExtraction b s = Res.ok () s' →
      s'._bulkExtraction = BulkType.BULK_EXTRACTION ∧
      (∃ s1, setExtractionLimit b.limit s = Res.ok () s1 ∧
        s' = { s1 with _bulkExtraction := BulkType.BULK_EXTRACTION }) ∧
      (b.limit.isLowerLimit = false →
        s' = { s with _extrLimit := b.limit, _bulkExtraction := BulkType.BULK_EXTRACTION }) ∧
      (b.limit.isLowerLimit = true →
        s' = { s with _lowerLimit := b.limit.value,
                      _bulkExtraction := BulkType.BULK_EXTRACTION })) := by
  by_cases h1 : s._extrLimit.value = LIMIT_UNLIMITED
  · by_cases h3 : b.limit.isLowerLimit = true <;>
      simp [setBulkExtraction, getExtractionLimit, setExtractionLimit, ite_run, h1, h3]
  · by_cases h2 : s._extrLimit.value = b.size
    · have h1' : ¬ LIMIT_UNLIMITED = b.size := fun h => h1 (h2.trans h.symm)
      by_cases h3 : b.limit.isLowerLimit = true <;>
        simp [setBulkExtraction, getExtractionLimit, setExtractionLimit, ite_run, h1,
          h2, h1', h3]
    · have h1' : ¬ LIMIT_UNLIMITED = s._extrLimit.value := fun h => h1 h.symm
      have h2' : ¬ b.size = s._extrLimit.value := fun h => h2 h.symm
      simp [setBulkExtraction, getExtractionLimit, ite_run, h1, h2, h1', h2']

theorem activateNextDataSet_run (s : StatementImpl β) :
    activateNextDataSet B s =
      if s._curDataSet + 1 < B.dataSetCount s.backend then
        Res.ok (s._curDataSet + 1)
          { s with _curDataSet := s._curDataSet + 1, calls := Prim.dataSetCount :: s.calls }
      else
        Res.throw Exc.NoDataException { s with calls := Prim.dataSetCount :: s.calls } := by
  by_cases h : s._curDataSet + 1 < B.dataSetCount s.backend <;>
    simp [activateNextDataSet, dataSetCount, ite_run, h]

theorem activatePreviousDataSet_run (s : StatementImpl β) :
    activatePreviousDataSet s =
      if 0 < s._curDataSet then
        Res.ok (s._curDataSet - 1) { s with _curDataSet := s._curDataSet - 1 }
      else Res.throw Exc.NoDataException s := by
  by_cases h : 0 < s._curDataSet <;>
    simp [activatePreviousDataSet, ite_run, h]

theorem applyMove_backend (m : DataSetMove) (s : StatementImpl β) :
    (applyMove B m s).backend = s.backend := by
  cases m
  · simp only [applyMove, activateNextDataSet_run]
    split <;> rfl
  · simp only [applyMove, activatePreviousDataSet_run]
    split <;> rfl

theorem applyMove_cursor (m : DataSetMove) (s : StatementImpl β)
    (h : s._curDataSet < B.dataSetCount s.backend) :
    (applyMove B m s)._curDataSet < B.dataSetCount s.backend := by
  cases m
  · simp only [applyMove, activateNextDataSet_run]
    split
    · simpa [Res.state?] using ‹_›
    · simpa [Res.state?] using h
  · simp only [applyMove, activatePreviousDataSet_run]
    split
    · simp only [Res.state?, Option.getD_some]
      omega
    · simpa [Res.state?] using h

theorem applyMoves_cursor (ms : List DataSetMove) (s : StatementImpl β)
    (h : s._curDataSet < B.dataSetCount s.backend) :
    (applyMoves B ms s)._curDataSet < B.dataSetCount s.backend := by
  induction ms generalizing s with
  | nil => simpa [applyMoves] using h
  | cons m ms ih =>
    have h1 := applyMove_cursor B m s h
    rw [← applyMove_backend B m s] at h1
    have h2 := ih (applyMove B m s) h1
    rw [applyMove_backend B m s] at h2
    simpa [applyMoves] using h2

/-- C8: over a backend reporting `n` data sets, with the cursor `c` in `[0, n)`:
`activateNextDataSet` returns `c + 1` and moves the cursor there exactly when
`c + 1 < n`, and otherwise throws the no-data exception with the cursor still at
`c`; `activatePreviousDataSet` returns `c - 1` and moves the cursor there exactly
when `c > 0`, and otherwise throws with the cursor still at `c`; after any
sequence of the two operations the cursor is still in `[0, n)`. -/
theorem dataSet_cursor_in_bounds (s : StatementImpl β) (n : Nat)
    (hn : B.dataSetCount s.backend = n) (hc : s._curDataSet < n) :
    ((s._curDataSet + 1 < n ∧ ∃ s', activateNextDataSet B s = Res.ok (s._curDataSet + 1) s'
        ∧ s'._curDataSet = s._curDataSet + 1) ∨
      (¬ s._curDataSet + 1 < n ∧ ∃ s', activateNextDataSet B s =
        Res.throw Exc.NoDataException s' ∧ s'._curDataSet = s._curDataSet)) ∧
    ((0 < s._curDataSet ∧ ∃ s', activatePreviousDataSet s = Res.ok (s._curDataSet - 1) s'
        ∧ s'._curDataSet = s._curDataSet - 1) ∨
      (¬ 0 < s._curDataSet ∧ ∃ s', activatePreviousDataSet s =
        Res.throw Exc.NoDataException s' ∧ s'._curDataSet = s._curDataSet)) ∧
    (∀ ms : List DataSetMove, (applyMoves B ms s)._curDataSet < n) := by
  subst hn
  refine ⟨?_, ?_, fun ms => applyMoves_cursor B ms s hc⟩
  · rw [activateNextDataSet_run]
    by_cases h : s._curDataSet + 1 < B.dataSetCount s.backend
    · rw [if_pos h]
      exact Or.inl ⟨h, _, rfl, rfl⟩
    · rw [if_neg h]
      exact Or.inr ⟨h, _, rfl, rfl⟩
  · rw [activatePreviousDataSet_run]
    by_cases h : 0 < s._curDataSet
    · rw [if_pos h]
      exact Or.inl ⟨h, _, rfl, rfl⟩
    · rw [if_neg h]
      exact Or.inr ⟨h, _, rfl, rfl⟩

/-- C8, on a backend with three data sets: from the cursor at 0, two calls of
`activateNextDataSet` return 1 and 2, and at the cursor 2 the third call throws
the no-data exception and leaves the cursor at 2. -/
theorem dataSet_cursor_in_bounds_witness :
    (applyMoves rowBackend [DataSetMove.next, DataSetMove.next]
        (StatementImpl.new ⟨false, false⟩
          { total := 0, remaining := 0, columns := [], dataSets := 3 }))._curDataSet = 2 ∧
    ∃ s', activateNextDataSet rowBackend
        (applyMoves rowBackend [DataSetMove.next, DataSetMove.next]
          (StatementImpl.new ⟨false, false⟩
            { total := 0, remaining := 0, columns := [], dataSets := 3 })) =
        Res.throw Exc.NoDataException s' ∧ s'._curDataSet = 2 := by
  have h := (dataSet_cursor_in_bounds rowBackend
    (applyMoves rowBackend [DataSetMove.next, DataSetMove.next]
      (StatementImpl.new ⟨false, false⟩
        { total := 0, remaining := 0, columns := [], dataSets := 3 })) 3 rfl
    (by decide)).1
  refine ⟨rfl, ?_⟩
  rcases h with ⟨h1, _⟩ | ⟨_, h2⟩
  · exact absurd h1 (by decide)
  · exact h2

/-! ## Frame conditions and outcomes of the execution path -/

theorem Quiet.quietRefl (s : StatementImpl β) : Quiet s s := ⟨Frame.refl s, rfl⟩

theorem Quiet.quietTrans {s t u : StatementImpl β} (h1 : Quiet s t) (h2 : Quiet t u) : Quiet s u :=
  ⟨h1.frame.trans h2.frame, h2.columns.trans h1.columns⟩

theorem resetExtraction_run (s : StatementImpl β) :
    resetExtraction s =
      if s._curDataSet < s._extractors.length then
        if s._curDataSet < s._columnsExtracted.length then
          Res.ok ()
            { s with
              _extractors := s._extractors.set s._curDataSet
                ((s._extractors.getD s._curDataSet []).map Extraction.reset)
              _columnsExtracted := s._columnsExtracted.set s._curDataSet 0 }
        else
          Res.throw Exc.AssertionViolationException
            { s with
              _extractors := s._extractors.set s._curDataSet
                ((s._extractors.getD s._curDataSet []).map Extraction.reset) }
      else Res.throw Exc.AssertionViolationException s := by
  by_cases h1 : s._curDataSet < s._extractors.length
  · by_cases h2 : s._curDataSet < s._columnsExtracted.length <;>
      simp [resetExtraction, extractions, h1, h2]
  · simp [resetExtraction, extractions, h1]

theorem bind_run (s : StatementImpl β) :
    bind B s =
      if s._state = State.ST_COMPILED then
        Res.ok ()
          { s with
            _state := State.ST_BOUND
            backend := (B.bindImpl s.backend s._bindings).1
            _bindings := (B.bindImpl s.backend s._bindings).2
            calls := Prim.bindImpl :: s.calls }
      else if s._state = State.ST_BOUND then
        if B.hasNext s.backend = true then
          Res.ok () { s with calls := Prim.hasNext :: s.calls }
        else if B.canBind s.backend = true then
          Res.ok ()
            { s with
              backend := (B.bindImpl s.backend s._bindings).1
              _bindings := (B.bindImpl s.backend s._bindings).2
              calls := Prim.bindImpl :: Prim.canBind :: Prim.hasNext :: s.calls }
        else
          Res.ok ()
            { s with _state := State.ST_DONE, calls := Prim.canBind :: Prim.hasNext :: s.calls }
      else Res.ok () s := by
  by_cases h1 : s._state = State.ST_COMPILED
  · simp [bind, h1, bindImpl, setState, ite_run]
  · by_cases h2 : s._state = State.ST_BOUND
    · by_cases h3 : B.hasNext s.backend = true
      · simp [bind, h2, bindImpl, setState, ite_run, hasNext, h3]
      · by_cases h4 : B.canBind s.backend = true
        · simp [bind, h2, bindImpl, setState, ite_run, hasNext, h3, canBind, h4]
        · simp [bind, h2, bindImpl, setState, ite_run, hasNext, h3, canBind, h4]
    · simp [bind, h1, h2, ite_run]

theorem bind_quiet (s : StatementImpl β) :
    (bind B s).sat False (fun _ t => Quiet s t) (fun _ _ => False) := by
  rw [bind_run]
  repeat' split
  all_goals exact ⟨⟨rfl, rfl, rfl, rfl, rfl, rfl, rfl, le_rfl, le_rfl, le_max_left _ _, le_max_left _ _⟩, rfl⟩

theorem extractLoopWithLimit_quiet (limit : Nat) (fuel count : Nat) (s : StatementImpl β) :
    (extractLoopWithLimit B limit fuel count s).sat True (fun _ t => Quiet s t)
      (fun _ _ => False) := by
  induction fuel generalizing count s with
  | zero => simp [extractLoopWithLimit]
  | succ fuel ih =>
    by_cases h1 : count < limit
    · by_cases h2 : B.hasNext s.backend = true
      · simp only [extractLoopWithLimit, h1, if_true, hasNext, next, M.bind_apply, h2]
        refine Res.sat_mono (ih _ _) id (fun _ t h => Quiet.quietTrans ?_ h) (fun _ _ h => h)
        exact ⟨⟨rfl, rfl, rfl, rfl, rfl, rfl, rfl, by simp, le_rfl, by simp, le_max_left _ _⟩, rfl⟩
      · simp only [extractLoopWithLimit, h1, if_true, hasNext, M.bind_apply, h2]
        exact ⟨⟨rfl, rfl, rfl, rfl, rfl, rfl, rfl, le_rfl, le_rfl, le_max_left _ _, le_max_left _ _⟩, rfl⟩
    · simp only [extractLoopWithLimit, h1, if_false]
      exact Quiet.quietRefl s

theorem bindLoopWithLimit_quiet (limit : Nat) (fuel count : Nat) (s : StatementImpl β) :
    (bindLoopWithLimit B limit fuel count s).sat True (fun _ t => Quiet s t)
      (fun _ _ => False) := by
  induction fuel generalizing count s with
  | zero => simp [bindLoopWithLimit]
  | succ fuel ih =>
    simp only [bindLoopWithLimit]
    refine sat_bind (Res.sat_mono (bind_quiet B s) False.elim (fun _ _ h => h) (fun _ _ h => h))
      ?_ (fun _ _ h => h)
    intro _ s1 h1
    refine sat_bind (extractLoopWithLimit_quiet B limit fuel count s1) ?_ (fun _ _ h => h)
    intro c s2 h2
    by_cases hc : c < limit
    · simp only [hc, if_true, canBind, M.bind_apply]
      by_cases hb : B.canBind s2.backend = true
      · simp only [hb, if_true]
        refine Res.sat_mono (ih _ _) id (fun _ t h => (h1.quietTrans h2).quietTrans (Quiet.quietTrans ?_ h))
          (fun _ _ h => h)
        exact ⟨⟨rfl, rfl, rfl, rfl, rfl, rfl, rfl, le_rfl, le_rfl, le_max_left _ _, le_max_left _ _⟩, rfl⟩
      · simp only [hb]
        exact (h1.quietTrans h2).quietTrans ⟨⟨rfl, rfl, rfl, rfl, rfl, rfl, rfl, le_rfl, le_rfl, le_max_left _ _, le_max_left _ _⟩, rfl⟩
    · simp only [hc, if_false]
      exact h1.quietTrans h2

theorem extractLoopWithoutLimit_quiet (fuel count : Nat) (s : StatementImpl β) :
    (extractLoopWithoutLimit B fuel count s).sat True (fun _ t => Quiet s t)
      (fun _ _ => False) := by
  induction fuel generalizing count s with
  | zero => simp [extractLoopWithoutLimit]
  | succ fuel ih =>
    by_cases h2 : B.hasNext s.backend = true
    · simp only [extractLoopWithoutLimit, hasNext, next, M.bind_apply, h2, if_true]
      refine Res.sat_mono (ih _ _) id (fun _ t h => Quiet.quietTrans ?_ h) (fun _ _ h => h)
      exact ⟨⟨rfl, rfl, rfl, rfl, rfl, rfl, rfl, by simp, le_rfl, by simp, le_max_left _ _⟩, rfl⟩
    · simp only [extractLoopWithoutLimit, hasNext, M.bind_apply, h2]
      exact ⟨⟨rfl, rfl, rfl, rfl, rfl, rfl, rfl, le_rfl, le_rfl, le_max_left _ _, le_max_left _ _⟩, rfl⟩

theorem bindLoopWithoutLimit_quiet (fuel count : Nat) (s : StatementImpl β) :
    (bindLoopWithoutLimit B fuel count s).sat True (fun _ t => Quiet s t)
      (fun _ _ => False) := by
  induction fuel generalizing count s with
  | zero => simp [bindLoopWithoutLimit]
  | succ fuel ih =>
    simp only [bindLoopWithoutLimit]
    refine sat_bind (Res.sat_mono (bind_quiet B s) False.elim (fun _ _ h => h) (fun _ _ h => h))
      ?_ (fun _ _ h => h)
    intro _ s1 h1
    refine sat_bind (extractLoopWithoutLimit_quiet B fuel count s1) ?_ (fun _ _ h => h)
    intro c s2 h2
    simp only [canBind, M.bind_apply]
    by_cases hb : B.canBind s2.backend = true
    · simp only [hb, if_true]
      refine Res.sat_mono (ih _ _) id (fun _ t h => (h1.quietTrans h2).quietTrans (Quiet.quietTrans ?_ h))
        (fun _ _ h => h)
      exact ⟨⟨rfl, rfl, rfl, rfl, rfl, rfl, rfl, le_rfl, le_rfl, le_max_left _ _, le_max_left _ _⟩, rfl⟩
    · simp only [hb]
      exact (h1.quietTrans h2).quietTrans ⟨⟨rfl, rfl, rfl, rfl, rfl, rfl, rfl, le_rfl, le_rfl, le_max_left _ _, le_max_left _ _⟩, rfl⟩

/-- The outcome of the decision after the loops of `executeWithLimit`. -/
theorem finishWithLimit_spec (limit count : Nat) (s : StatementImpl β) :
    (finishWithLimit B limit count s).sat False
      (fun r t => Quiet s t ∧ t.backend = s.backend ∧ t._extractors = s._extractors
        ∧ r = (if count ≠ 0 then count else B.affectedRowCount s.backend)
        ∧ ((B.canBind s.backend = false ∧ (B.hasNext s.backend = false ∨ limit = 0)
              ∧ t._state = State.ST_DONE)
          ∨ (¬ (B.canBind s.backend = false ∧ (B.hasNext s.backend = false ∨ limit = 0))
              ∧ ¬ (B.hasNext s.backend = true ∧ limit = count
                    ∧ s._extrLimit.isHardLimit = true)
              ∧ t._state = State.ST_PAUSED)))
      (fun e t => e = Exc.HardLimitReached ∧ Quiet s t ∧ t.backend = s.backend
        ∧ t._extractors = s._extractors ∧ t._state = s._state
        ∧ ¬ (B.canBind s.backend = false ∧ (B.hasNext s.backend = false ∨ limit = 0))
        ∧ B.hasNext s.backend = true ∧ limit = count
        ∧ s._extrLimit.isHardLimit = true) := by
  have hq : ∀ (st : State) (c : List Prim), Quiet s { s with _state := st, calls := c } :=
    fun _ _ => ⟨⟨rfl, rfl, rfl, rfl, rfl, rfl, rfl, le_rfl, le_rfl, le_max_left _ _, le_max_left _ _⟩, rfl⟩
  by_cases hcb : B.canBind s.backend = true <;>
  by_cases hhn : B.hasNext s.backend = true <;>
  by_cases hl0 : limit = 0 <;>
  by_cases hlc : limit = count <;>
  by_cases hh : s._extrLimit.isHardLimit = true <;>
  by_cases hc0 : count = 0 <;>
  simp [finishWithLimit, canBind, hasNext, setState, affectedRowCount, ite_run, hcb, hhn,
    hl0, hlc, hh, hc0, hq] <;>
  first
    | omega
    | (split <;> simp_all)

theorem executeWithLimit_spec (fuel : Nat) (s : StatementImpl β) :
    (executeWithLimit B fuel s).sat True (fun _ t => Quiet s t)
      (fun e t => Quiet s t ∧
        ((e = Exc.AssertionViolationException ∧ t = s ∧ s._state = State.ST_DONE)
          ∨ (e = Exc.HardLimitReached ∧ s._state ≠ State.ST_DONE))) := by
  by_cases hd : s._state = State.ST_DONE
  · simp [executeWithLimit, hd, Quiet.quietRefl]
  · simp only [executeWithLimit, M.bind_apply, getS_run, ne_eq, hd, not_false_eq_true,
      decide_True, poco_assert_true]
    refine sat_bind (bindLoopWithLimit_quiet B _ fuel 0 s) ?_ (fun _ _ h => h.elim)
    intro c s1 h1
    refine Res.sat_mono (finishWithLimit_spec B _ c s1) False.elim
      (fun _ t h => h1.quietTrans h.1) (fun e t h => ⟨h1.quietTrans h.2.1, Or.inr ⟨h.1, trivial⟩⟩)

theorem executeWithoutLimit_spec (fuel : Nat) (s : StatementImpl β) :
    (executeWithoutLimit B fuel s).sat True (fun _ t => Quiet s t)
      (fun e t => e = Exc.AssertionViolationException ∧ t = s ∧ s._state = State.ST_DONE) := by
  by_cases hd : s._state = State.ST_DONE
  · simp [executeWithoutLimit, hd]
  · simp only [executeWithoutLimit, M.bind_apply, getS_run, ne_eq, hd, not_false_eq_true,
      decide_True, poco_assert_true]
    refine sat_bind (bindLoopWithoutLimit_quiet B fuel 0 s) ?_ (fun _ _ h => h.elim)
    intro c s1 h1
    by_cases hc : c = 0
    · simp only [hc, ne_eq, not_true_eq_false, if_false, affectedRowCount]
      exact h1.quietTrans ⟨⟨rfl, rfl, rfl, rfl, rfl, rfl, rfl, le_rfl, le_rfl, le_max_left _ _, le_max_left _ _⟩, rfl⟩
    · simp only [ne_eq, hc, not_false_eq_true, if_true]
      exact h1

theorem fixupExtraction_run (s : StatementImpl β) (h : s._curDataSet < s._extractors.length) :
    ∃ t, fixupExtraction s = Res.ok () t ∧ Frame s t ∧ t._state = s._state
      ∧ t.backend = s.backend ∧ t._bindings = s._bindings
      ∧ t._curDataSet < t._columnsExtracted.length
      ∧ t._extractors.length = s._extractors.length := by
  by_cases h2 : s._curDataSet ≥ s._columnsExtracted.length
  · refine ⟨_, by simp [fixupExtraction, extractions, h, extractor, h2]; rfl, ?_⟩
    refine ⟨⟨rfl, rfl, rfl, rfl, rfl, rfl, rfl, by simp, ?_, by simp, ?_⟩, rfl, rfl, rfl, ?_,
      by simp⟩
    · simp [length_vresize]; omega
    · simp [length_vresize]
    · simp [length_vresize]
  · refine ⟨_, by simp [fixupExtraction, extractions, h, extractor, h2]; rfl, ?_⟩
    refine ⟨⟨rfl, rfl, rfl, rfl, rfl, rfl, rfl, by simp, by simp, by simp, by simp⟩, rfl, rfl,
      rfl, ?_, by simp⟩
    simp; omega

theorem fixupBinding_run (s : StatementImpl β) :
    ∃ t, fixupBinding s = Res.ok () t ∧ Quiet s t ∧ t._state = s._state
      ∧ t.backend = s.backend ∧ t._extractors = s._extractors :=
  ⟨_, rfl, ⟨⟨rfl, rfl, rfl, rfl, rfl, rfl, rfl, le_rfl, le_rfl, le_max_left _ _, le_max_left _ _⟩, rfl⟩, rfl, rfl, rfl⟩

theorem compileExtractors_spec (s : StatementImpl β) :
    (compileExtractors B s).sat False
      (fun _ t => Quiet s t ∧ t._state = s._state ∧ t.backend = s.backend
        ∧ s._curDataSet < s._extractors.length)
      (fun e t => Quiet s t ∧ t._state = s._state ∧ t.backend = s.backend
        ∧ (e = Exc.InvalidArgumentException
            ∨ (e = Exc.AssertionViolationException ∧ ¬ s._curDataSet < s._extractors.length))) := by
  have hq : ∀ (c : List Prim), Quiet s { s with calls := c } :=
    fun _ => ⟨⟨rfl, rfl, rfl, rfl, rfl, rfl, rfl, le_rfl, le_rfl, le_max_left _ _, le_max_left _ _⟩, rfl⟩
  by_cases hcur : s._curDataSet < s._extractors.length
  · by_cases hes : s._extractors[s._curDataSet] = []
    · by_cases hsp : B.isStoredProcedure s.backend = true
      · simp [compileExtractors, extractions, ite_run, hcur, hes, isStoredProcedure, hsp, hq]
      · by_cases hcols : B.columnsReturned s.backend = 0
        · simp [compileExtractors, extractions, ite_run, hcur, hes, isStoredProcedure, hsp,
            columnsReturned, hcols, hq]
        · obtain ⟨t, h1, h2, h3, h4, h5, -, h7, h8⟩ := makeExtractorsLoop_run B
            (B.columnsReturned s.backend) 0
            { s with calls := Prim.columnsReturned :: Prim.isStoredProcedure :: s.calls }
            (Or.inl hcur)
          have hqt : Quiet s t :=
            (hq _).quietTrans ⟨h5, h3⟩
          by_cases hall : ∀ mc ∈ columnsFrom B s.backend 0 (B.columnsReturned s.backend),
              mc.type.supported = true
          · have := h7 hall
            simp [compileExtractors, extractions, ite_run, hcur, hes, isStoredProcedure, hsp,
              columnsReturned, hcols, makeExtractors, this]
            exact ⟨hqt, h2, h1⟩
          · have := h8 hall
            simp [compileExtractors, extractions, ite_run, hcur, hes, isStoredProcedure, hsp,
              columnsReturned, hcols, makeExtractors, this]
            exact ⟨hqt, h2, h1⟩
    · simp [compileExtractors, extractions, ite_run, hcur, hes, Quiet.quietRefl]
  · simp [compileExtractors, extractions, ite_run, hcur, Quiet.quietRefl]

theorem compile_spec (s : StatementImpl β) :
    (compile B s).sat False
      (fun _ t => Frame s t ∧
        (((s._state = State.ST_INITIALIZED ∨ s._state = State.ST_RESET
              ∨ s._state = State.ST_BOUND)
            ∧ t._state = State.ST_COMPILED ∧ t.backend = B.compileImpl s.backend
            ∧ t._curDataSet < t._columnsExtracted.length
            ∧ s._curDataSet < s._extractors.length)
          ∨ (¬ (s._state = State.ST_INITIALIZED ∨ s._state = State.ST_RESET
              ∨ s._state = State.ST_BOUND) ∧ t = s)))
      (fun e t => Frame s t ∧ (s._state = State.ST_INITIALIZED ∨ s._state = State.ST_RESET
            ∨ s._state = State.ST_BOUND)
        ∧ t._state = State.ST_COMPILED ∧ t.backend = B.compileImpl s.backend
        ∧ (e = Exc.InvalidArgumentException
            ∨ (e = Exc.AssertionViolationException ∧ ¬ s._curDataSet < s._extractors.length))) := by
  by_cases hst : s._state = State.ST_INITIALIZED ∨ s._state = State.ST_RESET
      ∨ s._state = State.ST_BOUND
  · have hf0 : Frame s { s with _state := State.ST_COMPILED, backend := B.compileImpl s.backend,
                                  calls := Prim.compileImpl :: s.calls } :=
      ⟨rfl, rfl, rfl, rfl, rfl, rfl, rfl, le_rfl, le_rfl, le_max_left _ _, le_max_left _ _⟩
    simp only [compile, M.bind_apply, getS_run, hst, if_true, compileImpl, setState, modifyS_run]
    refine sat_bind (compileExtractors_spec B _) ?_ ?_
    · intro _ s1 ⟨hq1, hs1, hb1, hc1⟩
      have hc1' : s1._curDataSet < s1._extractors.length := by
        have h1 := hq1.frame.curDataSet
        have h2 := hq1.frame.extractors
        simp only at h1 h2 hc1
        omega
      obtain ⟨s2, hr2, hf2, hs2, hb2, -, hc2, -⟩ := fixupExtraction_run s1 hc1'
      obtain ⟨s3, hr3, hq3, hs3, hb3, -⟩ := fixupBinding_run s2
      simp only [hr2, hr3, Res.sat_ok, true_and]
      refine ⟨Frame.trans hf0 (Frame.trans (Frame.trans hq1.frame hf2) hq3.frame),
        Or.inl ⟨?_, ?_, ?_, hc1⟩⟩
      · rw [hs3, hs2, hs1]
      · rw [hb3, hb2, hb1]
      · rw [hq3.frame.curDataSet, hq3.columns]
        exact hc2
    · intro e s1 ⟨hq1, hs1, hb1, he⟩
      exact ⟨Frame.trans hf0 hq1.frame, trivial, hs1, hb1, he⟩
  · simp [compile, hst, Frame.refl]

theorem compileLoop_spec (fuel lim : Nat) (s : StatementImpl β) :
    (compileLoop B fuel lim s).sat True (fun _ t => Frame s t)
      (fun e t => Frame s t ∧
        ((e = Exc.InvalidArgumentException ∧ t._state = State.ST_COMPILED)
          ∨ (e = Exc.AssertionViolationException
              ∧ (t._state = State.ST_DONE ∨ ¬ s._curDataSet < s._extractors.length))
          ∨ (e = Exc.HardLimitReached ∧ s._extrLimit.value ≠ LIMIT_UNLIMITED))) := by
  induction fuel generalizing lim s with
  | zero => simp [compileLoop]
  | succ fuel ih =>
    simp only [compileLoop]
    refine sat_bind (Res.sat_mono (compile_spec B s) False.elim (fun _ _ h => h)
      (fun _ _ h => h)) ?_ ?_
    · intro _ s1 ⟨hf1, _⟩
      simp only [M.bind_apply, getS_run]
      have hcont : ∀ (n : Nat) (s2 : StatementImpl β), Quiet s1 s2 →
          (match canCompile B s2 with
            | Res.ok a s3 =>
              (if a = true then compileLoop B fuel ((lim + n) % UINT32_SIZE)
                else pure ((lim + n) % UINT32_SIZE)) s3
            | Res.throw e s3 => Res.throw e s3
            | Res.timeout => Res.timeout).sat True (fun _ t => Frame s t)
          (fun e t => Frame s t ∧
            ((e = Exc.InvalidArgumentException ∧ t._state = State.ST_COMPILED)
              ∨ (e = Exc.AssertionViolationException
                  ∧ (t._state = State.ST_DONE ∨ ¬ s._curDataSet < s._extractors.length))
              ∨ (e = Exc.HardLimitReached ∧ s._extrLimit.value ≠ LIMIT_UNLIMITED))) := by
        intro n s2 h2
        have hf3 : Frame s { s2 with calls := Prim.canCompile :: s2.calls } :=
          (hf1.trans h2.frame).trans ⟨rfl, rfl, rfl, rfl, rfl, rfl, rfl, le_rfl, le_rfl, le_max_left _ _, le_max_left _ _⟩
        simp only [canCompile]
        by_cases hcc : B.canCompile s2.backend = true
        · simp only [hcc, if_true]
          refine Res.sat_mono (ih _ _) id (fun _ t h => hf3.trans h) ?_
          rintro e t ⟨hft, he⟩
          refine ⟨hf3.trans hft, ?_⟩
          rcases he with he | ⟨he, hd | hc⟩ | ⟨he, hl⟩
          · exact Or.inl he
          · exact Or.inr (Or.inl ⟨he, Or.inl hd⟩)
          · refine Or.inr (Or.inl ⟨he, Or.inr ?_⟩)
            have h1 := hf3.curDataSet
            have h2 := hf3.extractors
            simp only at hc h1 h2
            omega
          · refine Or.inr (Or.inr ⟨he, ?_⟩)
            have h1 := hf3.extrLimit
            simp only at hl
            rw [h1] at hl
            exact hl
        · simp only [hcc, Bool.false_eq_true, if_false, M.pure_apply, Res.sat_ok]
          exact hf3
      by_cases hu : s1._extrLimit.value = LIMIT_UNLIMITED
      · simp only [hu, if_true]
        have := executeWithoutLimit_spec B fuel s1
        cases hr : executeWithoutLimit B fuel s1 with
        | ok n s2 => rw [hr] at this; exact hcont n s2 this
        | throw e s2 =>
          rw [hr] at this
          obtain ⟨he, hs, hd⟩ := this
          subst hs
          exact ⟨hf1, Or.inr (Or.inl ⟨he, Or.inl hd⟩)⟩
        | timeout => trivial
      · simp only [hu, if_false]
        have := executeWithLimit_spec B fuel s1
        cases hr : executeWithLimit B fuel s1 with
        | ok n s2 => rw [hr] at this; exact hcont n s2 this
        | throw e s2 =>
          rw [hr] at this
          obtain ⟨hq, ⟨he, hs, hd⟩ | ⟨he, -⟩⟩ := this
          · subst hs
            exact ⟨hf1, Or.inr (Or.inl ⟨he, Or.inl hd⟩)⟩
          · refine ⟨hf1.trans hq.frame, Or.inr (Or.inr ⟨he, ?_⟩)⟩
            rw [← hf1.extrLimit]
            exact hu
        | timeout => trivial
    · rintro e t ⟨hf, -, hs, -, he | ⟨he, hc⟩⟩
      · exact ⟨hf, Or.inl ⟨he, hs⟩⟩
      · exact ⟨hf, Or.inr (Or.inl ⟨he, Or.inr hc⟩)⟩

theorem execute_run (fuel : Nat) (s : StatementImpl β)
    (h1 : s._curDataSet < s._extractors.length)
    (h2 : s._curDataSet < s._columnsExtracted.length)
    (h3 : s._lowerLimit ≤ s._extrLimit.value) :
    execute B fuel s =
      match compileLoop B fuel 0 (afterReset s) with
      | Res.ok lim t =>
        if t._extrLimit.value = LIMIT_UNLIMITED then
          if lim < t._lowerLimit then
            Res.throw Exc.NotEnoughData { t with _state := State.ST_DONE }
          else Res.ok lim { t with _state := State.ST_DONE }
        else
          if lim < t._lowerLimit then Res.throw Exc.NotEnoughData t
          else Res.ok lim t
      | Res.throw e t => Res.throw e t
      | Res.timeout => Res.timeout := by
  have h3' : ¬ s._extrLimit.value < s._lowerLimit := by omega
  simp only [execute, M.bind_apply, resetExtraction_run, h1, h2, if_true, getS_run, gt_iff_lt,
    ite_run, throwE_run, M.pure_apply, h3', if_false, afterReset]
  cases compileLoop B fuel 0 { s with
      _extractors := s._extractors.set s._curDataSet
        ((s._extractors.getD s._curDataSet []).map Extraction.reset),
      _columnsExtracted := s._columnsExtracted.set s._curDataSet 0 } with
  | timeout => rfl
  | throw e t => rfl
  | ok lim t =>
    by_cases hu : t._extrLimit.value = LIMIT_UNLIMITED <;>
    by_cases hl : lim < t._lowerLimit <;>
    simp [hu, hl, setState]

theorem execute_run_violation (fuel : Nat) (s : StatementImpl β)
    (h1 : s._curDataSet < s._extractors.length)
    (h2 : s._curDataSet < s._columnsExtracted.length)
    (h3 : s._extrLimit.value < s._lowerLimit) :
    execute B fuel s = Res.throw Exc.LimitViolation (afterReset s) := by
  simp only [execute, M.bind_apply, resetExtraction_run, h1, h2, if_true, getS_run, gt_iff_lt,
    ite_run, throwE_run, M.pure_apply, h3, afterReset]

theorem execute_run_assertion (fuel : Nat) (s : StatementImpl β)
    (h : ¬ (s._curDataSet < s._extractors.length
      ∧ s._curDataSet < s._columnsExtracted.length)) :
    ∃ t, execute B fuel s = Res.throw Exc.AssertionViolationException t
      ∧ Frame s t ∧ t._state = s._state ∧ t.backend = s.backend ∧ t.calls = s.calls := by
  by_cases h1 : s._curDataSet < s._extractors.length
  · have h2 : ¬ s._curDataSet < s._columnsExtracted.length := fun h2 => h ⟨h1, h2⟩
    refine ⟨{ s with _extractors := (s._extractors.set s._curDataSet
        ((s._extractors.getD s._curDataSet []).map Extraction.reset)) }, ?_,
      ⟨rfl, rfl, rfl, rfl, rfl, rfl, rfl, by simp, le_rfl, by simp, le_max_left _ _⟩, rfl, rfl, rfl⟩
    simp only [execute, M.bind_apply, resetExtraction_run, h1, h2, if_true, if_false]
  · refine ⟨s, ?_, Frame.refl s, rfl, rfl, rfl⟩
    simp only [execute, M.bind_apply, resetExtraction_run, h1, if_false]

theorem afterReset_frame (s : StatementImpl β) : Frame s (afterReset s) :=
  ⟨rfl, rfl, rfl, rfl, rfl, rfl, rfl, by simp [afterReset], by simp [afterReset],
    by simp [afterReset], by simp [afterReset]⟩

theorem execute_spec (fuel : Nat) (s : StatementImpl β) :
    (execute B fuel s).sat True
      (fun _ t => Frame s t
        ∧ s._curDataSet < s._extractors.length ∧ s._curDataSet < s._columnsExtracted.length
        ∧ s._lowerLimit ≤ s._extrLimit.value
        ∧ (s._extrLimit.value = LIMIT_UNLIMITED → t._state = State.ST_DONE))
      (fun e t => Frame s t ∧
        ((e = Exc.AssertionViolationException ∧ Untouched s t
            ∧ ¬ (s._curDataSet < s._extractors.length
                  ∧ s._curDataSet < s._columnsExtracted.length))
          ∨ (e = Exc.LimitViolation ∧ Untouched s t
              ∧ s._curDataSet < s._extractors.length
              ∧ s._curDataSet < s._columnsExtracted.length
              ∧ s._lowerLimit > s._extrLimit.value)
          ∨ (s._curDataSet < s._extractors.length
              ∧ s._curDataSet < s._columnsExtracted.length
              ∧ s._lowerLimit ≤ s._extrLimit.value
              ∧ ((e = Exc.InvalidArgumentException ∧ t._state = State.ST_COMPILED)
                ∨ (e = Exc.AssertionViolationException ∧ t._state = State.ST_DONE)
                ∨ (e = Exc.HardLimitReached ∧ s._extrLimit.value ≠ LIMIT_UNLIMITED)
                ∨ (e = Exc.NotEnoughData
                    ∧ (s._extrLimit.value = LIMIT_UNLIMITED → t._state = State.ST_DONE)))))) := by
  by_cases h12 : s._curDataSet < s._extractors.length
      ∧ s._curDataSet < s._columnsExtracted.length
  · obtain ⟨h1, h2⟩ := h12
    by_cases h3 : s._extrLimit.value < s._lowerLimit
    · rw [execute_run_violation B fuel s h1 h2 h3]
      exact ⟨afterReset_frame s, Or.inr (Or.inl ⟨rfl, ⟨rfl, rfl, rfl⟩, h1, h2, h3⟩)⟩
    · have hlow : s._lowerLimit ≤ s._extrLimit.value := by omega
      rw [execute_run B fuel s h1 h2 hlow]
      have := compileLoop_spec B fuel 0 (afterReset s)
      cases hr : compileLoop B fuel 0 (afterReset s) with
      | timeout => trivial
      | throw e t =>
        rw [hr] at this
        obtain ⟨hf, he⟩ := this
        refine ⟨(afterReset_frame s).trans hf, Or.inr (Or.inr ⟨h1, h2, hlow, ?_⟩)⟩
        rcases he with he | ⟨he, hd | hc⟩ | ⟨he, hl⟩
        · exact Or.inl he
        · exact Or.inr (Or.inl ⟨he, hd⟩)
        · simp only [afterReset, List.length_set] at hc
          exact absurd h1 hc
        · exact Or.inr (Or.inr (Or.inl ⟨he, hl⟩))
      | ok lim t =>
        rw [hr] at this
        have hft : Frame s t := (afterReset_frame s).trans this
        have hlim : t._extrLimit = s._extrLimit := hft.extrLimit
        have hfd : Frame s { t with _state := State.ST_DONE } :=
          hft.trans ⟨rfl, rfl, rfl, rfl, rfl, rfl, rfl, le_rfl, le_rfl, le_max_left _ _, le_max_left _ _⟩
        dsimp only
        by_cases hu : t._extrLimit.value = LIMIT_UNLIMITED
        · rw [if_pos hu]
          by_cases hne : lim < t._lowerLimit
          · rw [if_pos hne]
            exact ⟨hfd, Or.inr (Or.inr ⟨h1, h2, hlow, Or.inr (Or.inr (Or.inr
              ⟨rfl, fun _ => rfl⟩))⟩)⟩
          · rw [if_neg hne]
            exact ⟨hfd, h1, h2, hlow, fun _ => rfl⟩
        · rw [if_neg hu]
          rw [hlim] at hu
          by_cases hne : lim < t._lowerLimit
          · rw [if_pos hne]
            exact ⟨hft, Or.inr (Or.inr ⟨h1, h2, hlow, Or.inr (Or.inr (Or.inr
              ⟨rfl, fun h => absurd h hu⟩))⟩)⟩
          · rw [if_neg hne]
            exact ⟨hft, h1, h2, hlow, fun h => absurd h hu⟩
  · obtain ⟨t, hr, hf, hs, hb, hc⟩ := execute_run_assertion B fuel s h12
    rw [hr]
    exact ⟨hf, Or.inl ⟨rfl, ⟨hs, hb, hc⟩, h12⟩⟩

/-! ## The limit check and execution after Done -/

theorem compile_noop (s : StatementImpl β)
    (h : ¬ (s._state = State.ST_INITIALIZED ∨ s._state = State.ST_RESET
      ∨ s._state = State.ST_BOUND)) : compile B s = Res.ok () s := by
  simp [compile, h]

theorem executeWithLimit_done (fuel : Nat) (s : StatementImpl β)
    (h : s._state = State.ST_DONE) :
    executeWithLimit B fuel s = Res.throw Exc.AssertionViolationException s := by
  simp [executeWithLimit, h]

theorem executeWithoutLimit_done (fuel : Nat) (s : StatementImpl β)
    (h : s._state = State.ST_DONE) :
    executeWithoutLimit B fuel s = Res.throw Exc.AssertionViolationException s := by
  simp [executeWithoutLimit, h]

theorem compileLoop_done (fuel lim : Nat) (s : StatementImpl β)
    (h : s._state = State.ST_DONE) :
    compileLoop B (fuel + 1) lim s = Res.throw Exc.AssertionViolationException s := by
  have hc := compile_noop B s (by simp [h])
  by_cases hu : s._extrLimit.value = LIMIT_UNLIMITED
  · simp [compileLoop, hc, hu, executeWithoutLimit_done B fuel s h]
  · simp [compileLoop, hc, hu, executeWithLimit_done B fuel s h]

/-- C3 (amended). `execute` throws the limit-violation `LimitException` exactly when
the assertions of `resetExtraction` hold at entry (the cursor is inside the
registry and inside the counter sequence) and `lowerLimit > extractionLimit.value`;
when it does, no backend primitive has been invoked and the lifecycle state is
unchanged; when `lowerLimit <= extractionLimit.value` it never throws that
exception; when the cursor is outside either sequence it throws the assertion
violation instead, also before any backend primitive is invoked. -/
theorem execute_limit_violation_iff (fuel : Nat) (s : StatementImpl β) :
    ((∃ t, execute B fuel s = Res.throw Exc.LimitViolation t) ↔
      (s._curDataSet < s._extractors.length ∧ s._curDataSet < s._columnsExtracted.length
        ∧ s._lowerLimit > s._extrLimit.value)) ∧
    (∀ t, execute B fuel s = Res.throw Exc.LimitViolation t →
      t._state = s._state ∧ t.backend = s.backend ∧ t.calls = s.calls) ∧
    (s._lowerLimit ≤ s._extrLimit.value →
      ∀ t, execute B fuel s ≠ Res.throw Exc.LimitViolation t) ∧
    (¬ (s._curDataSet < s._extractors.length ∧ s._curDataSet < s._columnsExtracted.length) →
      ∃ t, execute B fuel s = Res.throw Exc.AssertionViolationException t
        ∧ t._state = s._state ∧ t.backend = s.backend ∧ t.calls = s.calls) := by
  have key : ∀ t, execute B fuel s = Res.throw Exc.LimitViolation t →
      Untouched s t ∧ s._curDataSet < s._extractors.length
        ∧ s._curDataSet < s._columnsExtracted.length
        ∧ s._lowerLimit > s._extrLimit.value := by
    intro t ht
    have h := execute_spec B fuel s
    rw [ht] at h
    obtain ⟨-, ⟨he, -⟩ | ⟨-, hu, h1, h2, h3⟩ | ⟨-, -, -, he | he | he | he⟩⟩ := h
    · exact absurd he (by decide)
    · exact ⟨hu, h1, h2, h3⟩
    · exact absurd he.1 (by decide)
    · exact absurd he.1 (by decide)
    · exact absurd he.1 (by decide)
    · exact absurd he.1 (by decide)
  refine ⟨⟨?_, ?_⟩, ?_, ?_, ?_⟩
  · rintro ⟨t, ht⟩
    exact (key t ht).2
  · rintro ⟨h1, h2, h3⟩
    exact ⟨_, execute_run_violation B fuel s h1 h2 h3⟩
  · intro t ht
    exact (key t ht).1
  · intro hle t ht
    have := (key t ht).2.2.2
    omega
  · intro hc
    obtain ⟨t, hr, -, hs, hb, hcalls⟩ := execute_run_assertion B fuel s hc
    exact ⟨t, hr, hs, hb, hcalls⟩

/-- C3, counterexample: a statement with an extraction registered for the second
data set and the cursor moved there (the counter sequence still has length 1),
with lower limit 5 above the upper limit 3: `execute` throws the assertion
violation of `resetExtraction`, not the limit-violation exception. -/
theorem execute_limit_violation_preempted :
    movedOver._lowerLimit = 5 ∧ movedOver._extrLimit.value = 3 ∧
    movedOver._curDataSet = 1 ∧ movedOver._extractors.length = 2 ∧
    movedOver._columnsExtracted.length = 1 ∧
    (execute rowBackend 10 movedOver).exc? = some Exc.AssertionViolationException := by
  decide!

/-- C5 (amended). On a statement whose state is Done (with
`lowerLimit <= extractionLimit.value`) a further `execute` never returns
normally: it throws the assertion violation (of `poco_assert (_state != ST_DONE)`
in `executeWithLimit` / `executeWithoutLimit`, or of `resetExtraction`); no backend
primitive is invoked, so no row is extracted, and the state is still Done. -/
theorem execute_after_done_asserts (fuel : Nat) (s : StatementImpl β)
    (hd : s._state = State.ST_DONE) (hl : s._lowerLimit ≤ s._extrLimit.value) :
    (∃ t, execute B (fuel + 1) s = Res.throw Exc.AssertionViolationException t
      ∧ t._state = State.ST_DONE ∧ t.backend = s.backend ∧ t.calls = s.calls) ∧
    (∀ fuel2 v t, execute B fuel2 s ≠ Res.ok v t) := by
  have hmain : ∀ f, ∃ t, execute B (f + 1) s = Res.throw Exc.AssertionViolationException t
      ∧ t._state = State.ST_DONE ∧ t.backend = s.backend ∧ t.calls = s.calls := by
    intro f
    by_cases hc : s._curDataSet < s._extractors.length
        ∧ s._curDataSet < s._columnsExtracted.length
    · refine ⟨afterReset s, ?_, hd, rfl, rfl⟩
      rw [execute_run B (f + 1) s hc.1 hc.2 hl, compileLoop_done B f 0 (afterReset s) hd]
    · obtain ⟨t, hr, -, hs, hb, hcalls⟩ := execute_run_assertion B (f + 1) s hc
      exact ⟨t, hr, hs.trans hd, hb, hcalls⟩
  refine ⟨hmain fuel, ?_⟩
  intro fuel2 v t h
  cases fuel2 with
  | zero =>
    by_cases hc : s._curDataSet < s._extractors.length
        ∧ s._curDataSet < s._columnsExtracted.length
    · rw [execute_run B 0 s hc.1 hc.2 hl] at h
      simp [compileLoop] at h
    · obtain ⟨t2, hr, -⟩ := execute_run_assertion B 0 s hc
      rw [hr] at h
      exact Res.noConfusion h
  | succ f =>
    obtain ⟨t2, hr, -⟩ := hmain f
    rw [hr] at h
    exact Res.noConfusion h

/-- C5, at the statement left Done by an unlimited `execute` over two rows: the
next `execute` throws the assertion violation. -/
theorem execute_after_done_asserts_witness :
    drainedOver._state = State.ST_DONE ∧
    ∃ t, execute rowBackend 1 drainedOver = Res.throw Exc.AssertionViolationException t
      ∧ t._state = State.ST_DONE ∧ t.backend = drainedOver.backend
      ∧ t.calls = drainedOver.calls :=
  ⟨by decide!, (execute_after_done_asserts rowBackend 0 drainedOver (by decide!) (by decide!)).1⟩

/-- C5, counterexample: an unlimited `execute` over two rows returns 2 and leaves
the state Done; a further `execute` on that statement does not return normally,
it throws the assertion violation. -/
theorem execute_after_done_does_not_succeed :
    (execute rowBackend 10 (freshOver 2 [⟨"a", ColumnDataType.FDT_INT32⟩])).value? = some 2 ∧
    drainedOver._state = State.ST_DONE ∧
    drainedOver._lowerLimit ≤ drainedOver._extrLimit.value ∧
    (execute rowBackend 10 drainedOver).exc? = some Exc.AssertionViolationException := by
  decide!

/-! ## The hard limit -/

theorem finishWithLimit_hard (L : Nat) (s1 : StatementImpl β)
    (hhard : s1._extrLimit.isHardLimit = true)
    (hnext : B.hasNext s1.backend = true)
    (hzero : L ≠ 0 ∨ B.canBind s1.backend = true) :
    ∃ t, finishWithLimit B L L s1 = Res.throw Exc.HardLimitReached t
      ∧ t.backend = s1.backend ∧ t._extractors = s1._extractors
      ∧ t._columnsExtracted = s1._columnsExtracted := by
  have h := finishWithLimit_spec B L L s1
  cases hr : finishWithLimit B L L s1 with
  | timeout => rw [hr] at h; exact h.elim
  | ok v t =>
    rw [hr] at h
    obtain ⟨-, -, -, -, ⟨hcb, hn, -⟩ | ⟨-, hn, -⟩⟩ := h
    · rcases hzero with hz | hz
      · rcases hn with hn | hn
        · rw [hnext] at hn; exact absurd hn (by decide)
        · exact absurd hn hz
      · rw [hz] at hcb; exact absurd hcb (by decide)
    · exact absurd ⟨hnext, rfl, hhard⟩ hn
  | throw e t =>
    rw [hr] at h
    obtain ⟨he, hq, hb, hx, -⟩ := h
    subst he
    exact ⟨t, rfl, hb, hx, hq.columns⟩

theorem Res.sat_state {σ α : Type} {r : Res σ α} {T : Prop} {Q : α → σ → Prop}
    {E : Exc → σ → Prop} {P : σ → Prop} {t : σ} (h : r.sat T Q E) (ht : r.state? = some t)
    (hQ : ∀ a s, Q a s → P s) (hE : ∀ e s, E e s → P s) : P t := by
  cases r with
  | ok a s =>
    simp only [Res.state?, Option.some.injEq] at ht
    subst ht
    exact hQ a s h
  | throw e s =>
    simp only [Res.state?, Option.some.injEq] at ht
    subst ht
    exact hE e s h
  | timeout => exact Option.noConfusion ht

theorem Frame.grows {s t : StatementImpl β} (h : Frame s t) : Grows s t :=
  ⟨h.extractors, h.columnsExtracted, h.extractorsBound, h.columnsBound⟩

theorem reset_frame (s : StatementImpl β) :
    (reset s).sat False (fun _ t => Frame s t) (fun _ t => Frame s t) := by
  simp only [reset, M.bind_apply, resetBinding, modifyS_run, resetExtraction_run, setState]
  by_cases h1 : s._curDataSet < s._extractors.length
  · by_cases h2 : s._curDataSet < s._columnsExtracted.length
    · simp only [h1, h2, if_true, Res.sat_ok]
      exact ⟨rfl, rfl, rfl, rfl, rfl, rfl, rfl, by simp, by simp, by simp, by simp⟩
    · simp only [h1, h2, if_true, if_false, Res.sat_throw]
      exact ⟨rfl, rfl, rfl, rfl, rfl, rfl, rfl, by simp, le_rfl, by simp, le_max_left _ _⟩
  · simp only [h1, if_false, Res.sat_throw]
    exact ⟨rfl, rfl, rfl, rfl, rfl, rfl, rfl, le_rfl, le_rfl, le_max_left _ _, le_max_left _ _⟩

theorem metaColumnLoop_grows (name : String) (n i : Nat) (s : StatementImpl β) :
    (metaColumnLoop B name n i s).sat False (fun _ t => Grows s t) (fun _ t => Grows s t) := by
  induction n generalizing i s with
  | zero => simp [metaColumnLoop, Grows]
  | succ n ih =>
    by_cases h : 0 = icompare (B.metaColumn s.backend i).name name
    · simp [metaColumnLoop, metaColumnAt, h, Grows]
    · simp only [metaColumnLoop, metaColumnAt, M.bind_apply, h, if_false]
      exact ih _ _

theorem columnsExtracted_state (d : Int) (s : StatementImpl β) :
    (columnsExtracted d s).state? = some s := by
  simp only [columnsExtracted, M.bind_apply, getS_run, ite_run, M.pure_apply]
  split
  · cases hd : decide ((if USE_CURRENT_DATA_SET = d then (s._curDataSet : Int) else d) ≥ 0 ∧
        (if USE_CURRENT_DATA_SET = d then (s._curDataSet : Int) else d)
          < (s._columnsExtracted.length : Int)) <;> simp [hd, Res.state?]
  · rfl

theorem rowsExtracted_state (d : Int) (s : StatementImpl β) :
    (rowsExtracted d s).state? = some s := by
  simp only [rowsExtracted, M.bind_apply, getS_run, extractions, M.pure_apply]
  cases h1 : decide (s._curDataSet < s._extractors.length)
  · simp [Res.state?]
  · simp only [poco_assert_true, ite_run]
    split
    · cases hd : decide ((if USE_CURRENT_DATA_SET = d then (s._curDataSet : Int) else d) ≥ 0 ∧
          (if USE_CURRENT_DATA_SET = d then (s._curDataSet : Int) else d)
            < (s._extractors.length : Int))
      · simp [hd, Res.state?]
      · simp only [poco_assert_true, M.bind_apply]
        split <;>
          (generalize List.getD s._extractors _ [] = l
           cases l <;> rfl)
    · rfl

theorem runCall_grows (c : Call) (s t : StatementImpl β) (h : runCall B c s = some t)
    (hin : c.inRange s)
    (hpos : ∀ e, c = Call.addExtract e → e.position < s._extractors.length) :
    Grows s t := by
  cases c with
  | addExtract e =>
    have := hpos e rfl
    simp only [runCall, addExtract_run, Res.state?, Option.some.injEq] at h
    subst h
    refine ⟨?_, le_rfl, ?_, le_max_left _ _⟩
    · simp only [length_registerAt _ _ _ hin]
      omega
    · simp only [length_registerAt _ _ _ hin]
      omega
  | addBinding b =>
    simp only [runCall, addBinding, modifyS_run, Res.state?, Option.some.injEq] at h
    subst h
    exact ⟨le_rfl, le_rfl, le_max_left _ _, le_max_left _ _⟩
  | removeBind name =>
    by_cases hf : (removeBindLoop name s._bindings false).2 = true <;>
      simp [runCall, removeBind, hf, Res.state?] at h <;>
      subst h <;> exact ⟨le_rfl, le_rfl, le_max_left _ _, le_max_left _ _⟩
  | compile =>
    exact Res.sat_state (compile_spec B s) h (fun _ _ hq => hq.1.grows)
      (fun _ _ he => he.1.grows)
  | bind =>
    exact Res.sat_state (bind_quiet B s) h (fun _ _ hq => hq.frame.grows)
      (fun _ _ he => he.elim)
  | execute fuel =>
    exact Res.sat_state (execute_spec B fuel s) h (fun _ _ hq => hq.1.grows)
      (fun _ _ he => he.1.grows)
  | reset =>
    exact Res.sat_state (reset_frame s) h (fun _ _ hq => hq.grows) (fun _ _ he => he.grows)
  | setExtractionLimit l =>
    by_cases hl : l.isLowerLimit = true <;>
      simp [runCall, setExtractionLimit, hl, Res.state?] at h <;>
      subst h <;> exact ⟨le_rfl, le_rfl, le_max_left _ _, le_max_left _ _⟩
  | setBulkExtraction b =>
    by_cases hc : LIMIT_UNLIMITED ≠ s._extrLimit.value ∧ b.size ≠ s._extrLimit.value
    · simp [runCall, setBulkExtraction, getExtractionLimit, hc, Res.state?] at h
      subst h
      exact ⟨le_rfl, le_rfl, le_max_left _ _, le_max_left _ _⟩
    · by_cases hl : b.limit.isLowerLimit = true <;>
        simp [runCall, setBulkExtraction, getExtractionLimit, hc, setExtractionLimit, hl,
          ite_run, Res.state?] at h <;>
        subst h <;> exact ⟨le_rfl, le_rfl, le_max_left _ _, le_max_left _ _⟩
  | setStorage storage =>
    simp only [runCall, setStorage] at h
    split at h
    · simp only [modifyS_run, Res.state?, Option.some.injEq] at h
      subst h; exact ⟨le_rfl, le_rfl, le_max_left _ _, le_max_left _ _⟩
    · split at h
      · simp only [modifyS_run, Res.state?, Option.some.injEq] at h
        subst h; exact ⟨le_rfl, le_rfl, le_max_left _ _, le_max_left _ _⟩
      · split at h
        · simp only [modifyS_run, Res.state?, Option.some.injEq] at h
          subst h; exact ⟨le_rfl, le_rfl, le_max_left _ _, le_max_left _ _⟩
        · split at h
          · simp only [modifyS_run, Res.state?, Option.some.injEq] at h
            subst h; exact ⟨le_rfl, le_rfl, le_max_left _ _, le_max_left _ _⟩
          · simp only [throwE_run, Res.state?, Option.some.injEq] at h
            subst h; exact ⟨le_rfl, le_rfl, le_max_left _ _, le_max_left _ _⟩
  | makeExtractors count =>
    obtain ⟨t2, -, -, -, -, hf, -, hok, hthrow⟩ := makeExtractorsLoop_run B count 0 s hin
    by_cases hall : ∀ mc ∈ columnsFrom B s.backend 0 count, mc.type.supported = true
    · simp only [runCall, makeExtractors, hok hall, Res.state?, Option.some.injEq] at h
      subst h; exact hf.grows
    · simp only [runCall, makeExtractors, hthrow hall, Res.state?, Option.some.injEq] at h
      subst h; exact hf.grows
  | metaColumn name =>
    simp only [runCall, metaColumn, M.bind_apply, columnsReturned] at h
    exact Res.sat_state (metaColumnLoop_grows B name _ 0 _) h (fun _ _ hq => hq)
      (fun _ _ he => he)
  | activateNextDataSet =>
    simp only [runCall, activateNextDataSet_run] at h
    split at h <;> simp only [Res.state?, Option.some.injEq] at h <;>
      subst h <;> exact ⟨le_rfl, le_rfl, le_max_left _ _, le_max_left _ _⟩
  | activatePreviousDataSet =>
    simp only [runCall, activatePreviousDataSet_run] at h
    split at h <;> simp only [Res.state?, Option.some.injEq] at h <;>
      subst h <;> exact ⟨le_rfl, le_rfl, le_max_left _ _, le_max_left _ _⟩
  | columnsExtracted d =>
    simp only [runCall, columnsExtracted_state, Option.some.injEq] at h
    subst h; exact ⟨le_rfl, le_rfl, le_max_left _ _, le_max_left _ _⟩
  | rowsExtracted d =>
    simp only [runCall, rowsExtracted_state, Option.some.injEq] at h
    subst h; exact ⟨le_rfl, le_rfl, le_max_left _ _, le_max_left _ _⟩

theorem runCall_not_shorter (c : Call) (s t : StatementImpl β)
    (h : runCall B c s = some t) (hin : c.inRange s) :
    s._extractors.length ≤ t._extractors.length
      ∧ s._columnsExtracted.length ≤ t._columnsExtracted.length := by
  by_cases hpos : ∀ e, c = Call.addExtract e → e.position < s._extractors.length
  · exact ⟨(runCall_grows B c s t h hin hpos).1, (runCall_grows B c s t h hin hpos).2.1⟩
  · cases c with
    | addExtract e =>
      simp only [runCall, addExtract_run, Res.state?, Option.some.injEq] at h
      subst h
      refine ⟨?_, le_rfl⟩
      simp only [length_registerAt _ _ _ hin]
      omega
    | _ => exact absurd (fun e he => Call.noConfusion he) hpos

theorem ReachableInRange.nonempty {s : StatementImpl β} (h : ReachableInRange B s) :
    1 ≤ s._extractors.length ∧ 1 ≤ s._columnsExtracted.length := by
  induction h with
  | new rSession b => exact ⟨by simp [StatementImpl.new, length_vresize],
      by simp [StatementImpl.new, length_vresize]⟩
  | call c _ hin hrun ih =>
    have := runCall_not_shorter B c _ _ hrun hin
    exact ⟨le_trans ih.1 this.1, le_trans ih.2 this.2⟩

theorem ReachableInRange.reachable {s : StatementImpl β} (h : ReachableInRange B s) :
    Reachable B s := by
  induction h with
  | new rSession b => exact Reachable.new rSession b
  | call c _ _ hrun ih => exact Reachable.call c ih hrun

/-- At position `0xffffffff` the `pos + 1` of `addExtract` wraps to 0: on a freshly
constructed statement the registry, of length 1 before, is resized to length 0. -/
theorem addExtract_wraps_at_last_position :
    (freshOver 0 [])._extractors.length = 1 ∧
    ((addExtract lastPositionExtraction (freshOver 0 [])).stateOr
      (freshOver 0 []))._extractors.length = 0 := by
  decide!

/-! ## Unlimited execution -/

theorem extractLoopWithoutLimit_total {μ : β → Nat} (hfin : FiniteBackend B μ)
    (fuel count : Nat) (s : StatementImpl β) (h : μ s.backend < fuel) :
    (extractLoopWithoutLimit B fuel count s).sat False
      (fun _ t => t._state = s._state ∧ μ t.backend ≤ μ s.backend
        ∧ B.hasNext t.backend = false)
      (fun _ _ => False) := by
  induction fuel generalizing count s with
  | zero => omega
  | succ fuel ih =>
    by_cases h2 : B.hasNext s.backend = true
    · simp only [extractLoopWithoutLimit, hasNext, next, M.bind_apply, h2, if_true]
      have hlt := hfin.next_lt s.backend (s._extractors.getD s._curDataSet []) h2
      refine Res.sat_mono (ih _ _ (by simp only; omega)) id ?_ (fun _ _ h => h)
      rintro _ t ⟨hs, hm, hn⟩
      simp only at hs hm
      exact ⟨hs, by omega, hn⟩
    · simp only [extractLoopWithoutLimit, hasNext, M.bind_apply, h2]
      simp only [Bool.not_eq_true] at h2
      exact ⟨rfl, le_rfl, h2⟩

theorem bindLoopWithoutLimit_rebind_total {μ : β → Nat} (hfin : FiniteBackend B μ)
    (fuel count : Nat) (s : StatementImpl β) (hst : s._state = State.ST_BOUND)
    (hn : B.hasNext s.backend = false) (hb : B.canBind s.backend = true)
    (h : μ s.backend < fuel) :
    (bindLoopWithoutLimit B fuel count s).sat False
      (fun _ t => t._state = State.ST_BOUND ∧ μ t.backend ≤ μ s.backend)
      (fun _ _ => False) := by
  induction fuel generalizing count s with
  | zero => omega
  | succ fuel ih =>
    have hlt := hfin.bind_lt s.backend s._bindings hb
    simp only [bindLoopWithoutLimit, M.bind_apply, bind_run, hst, if_true, if_false, hn, hb,
      Bool.false_eq_true, reduceCtorEq]
    refine sat_bind (extractLoopWithoutLimit_total B hfin fuel count _ (by simp only; omega))
      ?_ (fun _ _ h => h)
    rintro c t ⟨hs, hm, hnt⟩
    simp only at hs hm
    simp only [M.bind_apply, canBind]
    by_cases hbt : B.canBind t.backend = true
    · simp only [hbt, if_true]
      refine Res.sat_mono (ih c _ hs hnt hbt
        (by simp only; omega)) id ?_ (fun _ _ h => h)
      rintro _ u ⟨hu, hmu⟩
      simp only at hmu
      exact ⟨hu, by omega⟩
    · simp only [hbt, Bool.false_eq_true, if_false, M.pure_apply, Res.sat_ok]
      exact ⟨hs, by omega⟩

theorem bindLoopWithoutLimit_total {μ : β → Nat} (hfin : FiniteBackend B μ)
    (fuel count : Nat) (s : StatementImpl β) (hst : s._state = State.ST_COMPILED)
    (h : μ s.backend + 2 ≤ fuel) :
    (bindLoopWithoutLimit B fuel count s).sat False
      (fun _ t => t._state = State.ST_BOUND ∧ μ t.backend ≤ μ s.backend)
      (fun _ _ => False) := by
  cases fuel with
  | zero => omega
  | succ fuel =>
    have hle := hfin.bind_le s.backend s._bindings
    simp only [bindLoopWithoutLimit, M.bind_apply, bind_run, hst, if_true]
    refine sat_bind (extractLoopWithoutLimit_total B hfin fuel count _ (by simp only; omega))
      ?_ (fun _ _ h => h)
    rintro c t ⟨hs, hm, hnt⟩
    simp only at hs hm
    simp only [M.bind_apply, canBind]
    by_cases hbt : B.canBind t.backend = true
    · simp only [hbt, if_true]
      refine Res.sat_mono (bindLoopWithoutLimit_rebind_total B hfin fuel c _ hs hnt hbt
        (by simp only; omega)) id ?_ (fun _ _ h => h)
      rintro _ u ⟨hu, hmu⟩
      simp only at hmu
      exact ⟨hu, by omega⟩
    · simp only [hbt, Bool.false_eq_true, if_false, M.pure_apply, Res.sat_ok]
      exact ⟨hs, by omega⟩

theorem executeWithoutLimit_total {μ : β → Nat} (hfin : FiniteBackend B μ)
    (fuel : Nat) (s : StatementImpl β) (hst : s._state = State.ST_COMPILED)
    (h : μ s.backend + 2 ≤ fuel) :
    (executeWithoutLimit B fuel s).sat False
      (fun _ t => Quiet s t ∧ t._state = State.ST_BOUND ∧ μ t.backend ≤ μ s.backend)
      (fun _ _ => False) := by
  have h1 : (executeWithoutLimit B fuel s).sat False
      (fun _ t => t._state = State.ST_BOUND ∧ μ t.backend ≤ μ s.backend)
      (fun _ _ => False) := by
    simp only [executeWithoutLimit, M.bind_apply, getS_run, hst, ne_eq, reduceCtorEq,
      not_false_eq_true, decide_True, poco_assert_true]
    refine sat_bind (bindLoopWithoutLimit_total B hfin fuel 0 s hst h) ?_ (fun _ _ h => h)
    rintro c t ⟨hs, hm⟩
    by_cases hc : c = 0
    · simp only [hc, ne_eq, not_true_eq_false, if_false, affectedRowCount, Res.sat_ok]
      exact ⟨hs, hm⟩
    · simp only [ne_eq, hc, not_false_eq_true, if_true, M.pure_apply, Res.sat_ok]
      exact ⟨hs, hm⟩
  refine Res.sat_mono (Res.sat_and h1 (executeWithoutLimit_spec B fuel s)) (fun h => h.1)
    (fun _ t h => ⟨h.2, h.1⟩) (fun _ _ h => h.1)

theorem compileLoop_unfold_compile (fuel lim : Nat) (s : StatementImpl β)
    (hst : s._state ≠ State.ST_PAUSED ∧ s._state ≠ State.ST_DONE) :
    compileLoop B (fuel + 1) lim s =
      match compile B s with
      | Res.ok _ s1 => compileLoop B (fuel + 1) lim s1
      | Res.throw e t => Res.throw e t
      | Res.timeout => Res.timeout := by
  have hspec := compile_spec B s
  cases hc : compile B s with
  | timeout => simp [compileLoop, hc]
  | throw e t => simp [compileLoop, hc]
  | ok u s1 =>
    rw [hc] at hspec
    have hs1 : s1._state = State.ST_COMPILED := by
      rcases hspec.2 with ⟨-, h, -⟩ | ⟨h, hs⟩
      · exact h
      · subst hs
        cases hs : s1._state <;> simp_all
    have hn := compile_noop B s1 (by simp [hs1])
    simp only [compileLoop, M.bind_apply, hc, hn]

theorem compileLoop_unlimited_total {μ : β → Nat} (hfin : FiniteBackend B μ)
    (fuel lim : Nat) (s : StatementImpl β) (hst : s._state = State.ST_COMPILED)
    (hu : s._extrLimit.value = LIMIT_UNLIMITED)
    (hcur : s._curDataSet < s._extractors.length)
    (h : μ s.backend + 3 ≤ fuel) :
    (compileLoop B fuel lim s).sat False (fun _ t => Frame s t)
      (fun e t => Frame s t ∧ e = Exc.InvalidArgumentException
        ∧ t._state = State.ST_COMPILED) := by
  induction fuel generalizing lim s with
  | zero => omega
  | succ f ih =>
    have hn := compile_noop B s (by simp [hst])
    simp only [compileLoop, M.bind_apply, hn, getS_run, hu, if_true]
    refine sat_bind (executeWithoutLimit_total B hfin f s hst (by omega)) ?_
      (fun _ _ h => h.elim)
    rintro n t ⟨hq, hts, hm⟩
    simp only [M.bind_apply, canCompile]
    have hft : Frame s { t with calls := Prim.canCompile :: t.calls } :=
      hq.frame.trans ⟨rfl, rfl, rfl, rfl, rfl, rfl, rfl, le_rfl, le_rfl, le_max_left _ _,
        le_max_left _ _⟩
    by_cases hcc : B.canCompile t.backend = true
    · simp only [hcc, if_true]
      cases f with
      | zero => omega
      | succ f2 =>
        rw [compileLoop_unfold_compile B f2 _ _ (by simp [hts])]
        have hspec := compile_spec B { t with calls := Prim.canCompile :: t.calls }
        have hcur2 : t._curDataSet < t._extractors.length := by
          have h1 := hq.frame.curDataSet
          have h2 := hq.frame.extractors
          omega
        cases hc : compile B { t with calls := Prim.canCompile :: t.calls } with
        | timeout => rw [hc] at hspec; exact hspec
        | throw e u =>
          rw [hc] at hspec
          obtain ⟨hfu, -, hus, -, he | ⟨-, hne⟩⟩ := hspec
          · exact ⟨hft.trans hfu, he, hus⟩
          · exact absurd hcur2 hne
        | ok x s2 =>
          rw [hc] at hspec
          obtain ⟨hf2, ⟨-, hs2, hb2, -, -⟩ | ⟨hne, -⟩⟩ := hspec
          · have hlt := hfin.compile_lt t.backend hcc
            have hfs2 : Frame s s2 := hft.trans hf2
            refine Res.sat_mono (ih _ s2 hs2 (by rw [hfs2.extrLimit]; exact hu)
              (by have h1 := hfs2.curDataSet; have h2 := hfs2.extractors; omega)
              (by rw [hb2]; simp only; omega)) id
              (fun _ u hu => hfs2.trans hu) (fun e u hu => ⟨hfs2.trans hu.1, hu.2⟩)
          · exact absurd (Or.inr (Or.inr hts)) hne
    · simp only [hcc, Bool.false_eq_true, if_false, M.pure_apply, Res.sat_ok]
      exact hft

theorem rowBackend_finite : FiniteBackend rowBackend (fun b => b.remaining) where
  next_lt := by
    intro b es h
    simp only [rowBackend, decide_eq_true_eq] at h ⊢
    omega
  bind_le := fun _ _ => le_rfl
  bind_lt := fun _ _ h => absurd h (by simp [rowBackend])
  compile_lt := fun _ h => absurd h (by simp [rowBackend])

theorem Res.sat_cases {σ α : Type} {r : Res σ α} {T : Prop} {Q : α → σ → Prop}
    {E : Exc → σ → Prop} (h : r.sat T Q E) :
    (r = Res.timeout ∧ T) ∨ (∃ a s, r = Res.ok a s ∧ Q a s)
      ∨ (∃ e s, r = Res.throw e s ∧ E e s) := by
  cases r with
  | ok a s => exact Or.inr (Or.inl ⟨a, s, rfl, h⟩)
  | throw e s => exact Or.inr (Or.inr ⟨e, s, rfl, h⟩)
  | timeout => exact Or.inl ⟨rfl, h⟩

theorem execute_unlimited_outcome (fuel : Nat)
    (s : StatementImpl β) (hu : s._extrLimit.value = LIMIT_UNLIMITED)
    (hlow : s._lowerLimit < UINT32_SIZE)
    (h1 : s._curDataSet < s._extractors.length)
    (h2 : s._curDataSet < s._columnsExtracted.length) :
    (execute B fuel s).sat True
      (fun _ t => t._state = State.ST_DONE)
      (fun e t => ((e = Exc.InvalidArgumentException ∧ t._state = State.ST_COMPILED)
        ∨ ((e = Exc.NotEnoughData ∨ e = Exc.AssertionViolationException)
            ∧ t._state = State.ST_DONE))
          ∧ e ≠ Exc.HardLimitReached) := by
  refine Res.sat_mono (execute_spec B fuel s) id (fun _ t h => h.2.2.2.2 hu) ?_
  rintro e t ⟨-, ⟨-, -, hc⟩ | ⟨-, -, -, -, hv⟩ | ⟨-, -, -, he | he | he | he⟩⟩
  · exact absurd ⟨h1, h2⟩ hc
  · simp only [UINT32_SIZE, LIMIT_UNLIMITED] at hlow hu
    omega
  · exact ⟨Or.inl he, by rw [he.1]; decide⟩
  · exact ⟨Or.inr ⟨Or.inr he.1, he.2⟩, by rw [he.1]; decide⟩
  · exact absurd hu he.2
  · exact ⟨Or.inr ⟨Or.inl he.1, he.2 hu⟩, by rw [he.1]; decide⟩

theorem execute_unlimited_total {μ : β → Nat} (hfin : FiniteBackend B μ)
    (s : StatementImpl β) (hu : s._extrLimit.value = LIMIT_UNLIMITED)
    (hst : s._state ≠ State.ST_DONE) (hlow : s._lowerLimit < UINT32_SIZE)
    (h1 : s._curDataSet < s._extractors.length)
    (h2 : s._curDataSet < s._columnsExtracted.length)
    (hnp : s._state ≠ State.ST_PAUSED) (fuel : Nat)
    (hfuel : μ s.backend + μ (B.compileImpl s.backend) + 3 ≤ fuel) :
    (execute B fuel s).sat False
      (fun _ t => t._state = State.ST_DONE)
      (fun e t => (e = Exc.InvalidArgumentException ∧ t._state = State.ST_COMPILED)
        ∨ (e = Exc.NotEnoughData ∧ t._state = State.ST_DONE)) := by
  have hle : s._lowerLimit ≤ s._extrLimit.value := by
    rw [hu]; simp only [UINT32_SIZE, LIMIT_UNLIMITED] at hlow ⊢; omega
  rw [execute_run B fuel s h1 h2 hle]
  have hloop : (compileLoop B fuel 0 (afterReset s)).sat False
      (fun _ t => Frame s t)
      (fun e t => e = Exc.InvalidArgumentException ∧ t._state = State.ST_COMPILED) := by
    cases fuel with
    | zero => omega
    | succ f =>
      rw [compileLoop_unfold_compile B f 0 (afterReset s) ⟨hnp, hst⟩]
      have hspec := compile_spec B (afterReset s)
      have hfa := afterReset_frame s
      cases hc : compile B (afterReset s) with
      | timeout => rw [hc] at hspec; exact hspec
      | throw e u =>
        rw [hc] at hspec
        obtain ⟨-, -, hus, -, he | ⟨-, hne⟩⟩ := hspec
        · exact ⟨he, hus⟩
        · simp only [afterReset, List.length_set] at hne
          exact absurd h1 hne
      | ok x s1 =>
        rw [hc] at hspec
        have hfs1 : Frame s s1 := hfa.trans hspec.1
        have hs1 : s1._state = State.ST_COMPILED ∧
            μ s1.backend ≤ μ s.backend + μ (B.compileImpl s.backend) := by
          rcases hspec.2 with ⟨-, hs, hb, -⟩ | ⟨hne, hs⟩
          · refine ⟨hs, ?_⟩
            rw [hb]
            simp only [afterReset]
            omega
          · subst hs
            refine ⟨?_, by simp only [afterReset]; omega⟩
            simp only [afterReset] at hne ⊢
            cases hs : s._state <;> simp_all
        refine Res.sat_mono (compileLoop_unlimited_total B hfin (f + 1) 0 s1 hs1.1
          (by rw [hfs1.extrLimit]; exact hu)
          (by have a := hfs1.curDataSet; have b := hfs1.extractors; omega)
          (by omega)) id (fun _ u hu => hfs1.trans hu) (fun e u hu => hu.2)
  cases hr : compileLoop B fuel 0 (afterReset s) with
  | timeout => rw [hr] at hloop; exact hloop.elim
  | throw e t => rw [hr] at hloop; exact Or.inl hloop
  | ok lim t =>
    rw [hr] at hloop
    have hut : t._extrLimit.value = LIMIT_UNLIMITED := by
      have : Frame s t := hloop
      rw [this.extrLimit]; exact hu
    dsimp only
    rw [if_pos hut]
    by_cases hne : lim < t._lowerLimit
    · rw [if_pos hne]
      exact Or.inr ⟨rfl, rfl⟩
    · rw [if_neg hne]
      rfl

/-- C4 (amended). For a statement whose extraction limit is unlimited, whose state
at entry is not Done and whose cursor is inside the registry and the counter
sequence: one call to `execute` never fails with the hard-limit error; if it
ends, then either `compile` failed with the unsupported-type error while
generating default extractors and the state is Compiled, or the state is Done
(also when `execute` fails with the not-enough-data error). Over a backend with
finitely many rows, bind batches and SQL fragments, and from an entry state
other than Paused, the call does end (with enough fuel), whatever the row count
is. -/
theorem unlimited_execute_ends_done (μ : β → Nat) (hfin : FiniteBackend B μ)
    (s : StatementImpl β) (hu : s._extrLimit.value = LIMIT_UNLIMITED)
    (hst : s._state ≠ State.ST_DONE) (hlow : s._lowerLimit < UINT32_SIZE)
    (h1 : s._curDataSet < s._extractors.length)
    (h2 : s._curDataSet < s._columnsExtracted.length) :
    (∀ fuel t, execute B fuel s ≠ Res.throw Exc.HardLimitReached t) ∧
    (∀ fuel, execute B fuel s = Res.timeout
      ∨ (∃ v t, execute B fuel s = Res.ok v t ∧ t._state = State.ST_DONE)
      ∨ (∃ t, execute B fuel s = Res.throw Exc.InvalidArgumentException t
          ∧ t._state = State.ST_COMPILED)
      ∨ (∃ e t, execute B fuel s = Res.throw e t
          ∧ (e = Exc.NotEnoughData ∨ e = Exc.AssertionViolationException)
          ∧ t._state = State.ST_DONE)) ∧
    (s._state ≠ State.ST_PAUSED →
      ∀ fuel, μ s.backend + μ (B.compileImpl s.backend) + 3 ≤ fuel →
        (∃ v t, execute B fuel s = Res.ok v t ∧ t._state = State.ST_DONE)
        ∨ (∃ t, execute B fuel s = Res.throw Exc.InvalidArgumentException t
            ∧ t._state = State.ST_COMPILED)
        ∨ (∃ t, execute B fuel s = Res.throw Exc.NotEnoughData t
            ∧ t._state = State.ST_DONE)) := by
  refine ⟨?_, ?_, ?_⟩
  · intro fuel t ht
    have := execute_unlimited_outcome B fuel s hu hlow h1 h2
    rw [ht] at this
    exact this.2 rfl
  · intro fuel
    rcases Res.sat_cases (execute_unlimited_outcome B fuel s hu hlow h1 h2) with
      ⟨h, -⟩ | ⟨v, t, h, hd⟩ | ⟨e, t, h, ⟨he, hs⟩ | ⟨he, hs⟩, -⟩
    · exact Or.inl h
    · exact Or.inr (Or.inl ⟨v, t, h, hd⟩)
    · subst he
      exact Or.inr (Or.inr (Or.inl ⟨t, h, hs⟩))
    · exact Or.inr (Or.inr (Or.inr ⟨e, t, h, he, hs⟩))
  · intro hnp fuel hfuel
    rcases Res.sat_cases (execute_unlimited_total B hfin s hu hst hlow h1 h2 hnp fuel hfuel)
      with ⟨-, h⟩ | ⟨v, t, h, hd⟩ | ⟨e, t, h, ⟨he, hs⟩ | ⟨he, hs⟩⟩
    · exact h.elim
    · exact Or.inl ⟨v, t, h, hd⟩
    · subst he
      exact Or.inr (Or.inl ⟨t, h, hs⟩)
    · subst he
      exact Or.inr (Or.inr ⟨t, h, hs⟩)

/-- C4, over the row source with two rows and one `FDT_INT32` column: the
unlimited `execute` on the fresh statement returns 2 and the state is Done. -/
theorem unlimited_execute_ends_done_witness :
    ∃ t, execute rowBackend 5 (freshOver 2 [⟨"a", ColumnDataType.FDT_INT32⟩]) = Res.ok 2 t
      ∧ t._state = State.ST_DONE := by
  have hr : execute rowBackend 5 (freshOver 2 [⟨"a", ColumnDataType.FDT_INT32⟩]) =
      Res.ok 2 ((execute rowBackend 5 (freshOver 2 [⟨"a", ColumnDataType.FDT_INT32⟩])).stateOr
        (freshOver 2 [⟨"a", ColumnDataType.FDT_INT32⟩])) := by decide!
  rcases (unlimited_execute_ends_done rowBackend (fun b => b.remaining) rowBackend_finite
    (freshOver 2 [⟨"a", ColumnDataType.FDT_INT32⟩]) (by decide!) (by decide!) (by decide!)
    (by decide!) (by decide!)).2.2 (by decide!) 5 (by decide!) with
    ⟨v, t, h, hd⟩ | ⟨t, h, -⟩ | ⟨t, h, -⟩
  · rw [hr] at h
    injection h with hv ht
    exact ⟨t, by rw [hr, ht], hd⟩
  · rw [hr] at h
    exact Res.noConfusion h
  · rw [hr] at h
    exact Res.noConfusion h

/-- C4, counterexample: over a row source whose only column has the declared type
`FDT_UNKNOWN`, the unlimited `execute` on the fresh statement (state Initialized)
throws the invalid-argument exception of `makeExtractors` and leaves the state
Compiled, not Done. -/
theorem unlimited_execute_stops_compiled :
    (freshOver 2 [⟨"b", ColumnDataType.FDT_UNKNOWN⟩])._extrLimit.value = LIMIT_UNLIMITED ∧
    (freshOver 2 [⟨"b", ColumnDataType.FDT_UNKNOWN⟩])._state = State.ST_INITIALIZED ∧
    (execute rowBackend 10 (freshOver 2 [⟨"b", ColumnDataType.FDT_UNKNOWN⟩])).exc?
      = some Exc.InvalidArgumentException ∧
    ((execute rowBackend 10 (freshOver 2 [⟨"b", ColumnDataType.FDT_UNKNOWN⟩])).state?).map
      (fun t => t._state) = some State.ST_COMPILED := by
  decide!

/-! ## Limited execution over the row source -/

theorem compile_limitedOver (rows limit : Nat) (hard : Bool) :
    compile rowBackend (afterReset (limitedOver rows limit hard)) =
      Res.ok () (compiledOver rows limit hard) := by
  simp [compile, afterReset, limitedOver, freshOver, StatementImpl.new, RowSource.ofRows,
    vresize, compileImpl, setState, compileExtractors, extractions, isStoredProcedure,
    columnsReturned, makeExtractors, makeExtractorsLoop, metaColumnAt, rowBackend,
    ColumnDataType.supported, addInternalExtract_run, registerAt, fixupExtraction, extractor,
    fixupBinding, binder, compiledOver, internalExtraction]

theorem rowBackend_extractLoopWithLimit (limit fuel count : Nat)
    (s : StatementImpl RowSource) (hc : count ≤ limit) (hl : limit < UINT32_SIZE)
    (hfuel : min (limit - count) s.backend.remaining < fuel) :
    ∃ t, extractLoopWithLimit rowBackend limit fuel count s =
        Res.ok (count + min (limit - count) s.backend.remaining) t
      ∧ t.backend.remaining =
          s.backend.remaining - min (limit - count) s.backend.remaining
      ∧ t._state = s._state := by
  induction fuel generalizing count s with
  | zero => omega
  | succ fuel ih =>
    by_cases h1 : count < limit
    · by_cases h2 : 0 < s.backend.remaining
      · have hmod : (count + 1) % UINT32_SIZE = count + 1 := Nat.mod_eq_of_lt (by omega)
        obtain ⟨t, ht, hb, hs⟩ := ih (count + 1)
          { s with
            backend := { s.backend with remaining := s.backend.remaining - 1 }
            _extractors := s._extractors.set s._curDataSet
              ((s._extractors.getD s._curDataSet []).map (Extraction.extract 1))
            calls := Prim.next :: Prim.hasNext :: s.calls }
          (by omega) (by simp only; omega)
        simp only at ht hb hs
        have hv : count + 1 + min (limit - (count + 1)) (s.backend.remaining - 1) =
            count + min (limit - count) s.backend.remaining := by omega
        rw [hv] at ht
        refine ⟨t, ?_, ?_, hs⟩
        · simp only [extractLoopWithLimit, h1, if_true, hasNext, next, M.bind_apply, rowBackend,
            h2, decide_True, hmod]
          exact ht
        · rw [hb]
          omega
      · have h0 : s.backend.remaining = 0 := by omega
        refine ⟨{ s with calls := Prim.hasNext :: s.calls }, ?_, ?_, rfl⟩
        · simp [extractLoopWithLimit, h1, hasNext, rowBackend, h0]
        · simp [h0]
    · have h0 : limit - count = 0 := by omega
      refine ⟨s, ?_, ?_, rfl⟩
      · simp [extractLoopWithLimit, h1, h0]
      · simp [h0]

theorem rowBackend_bindLoopWithLimit (limit fuel : Nat)
    (s : StatementImpl RowSource) (hst : s._state = State.ST_COMPILED)
    (hl : limit < UINT32_SIZE) (hfuel : min limit s.backend.remaining < fuel) :
    ∃ t, bindLoopWithLimit rowBackend limit (fuel + 1) 0 s =
        Res.ok (min limit s.backend.remaining) t
      ∧ t.backend.remaining = s.backend.remaining - min limit s.backend.remaining
      ∧ t._state = State.ST_BOUND := by
  obtain ⟨t, ht, hb, hs⟩ := rowBackend_extractLoopWithLimit limit fuel 0
    { s with
      _state := State.ST_BOUND
      backend := (rowBackend.bindImpl s.backend s._bindings).1
      _bindings := (rowBackend.bindImpl s.backend s._bindings).2
      calls := Prim.bindImpl :: s.calls }
    (by omega) hl (by simpa [rowBackend] using hfuel)
  simp only [rowBackend, Nat.sub_zero, Nat.zero_add] at ht hb hs
  by_cases hlt : min limit s.backend.remaining < limit
  · refine ⟨{ t with calls := Prim.canBind :: t.calls }, ?_, hb, hs⟩
    simp only [bindLoopWithLimit, M.bind_apply, bind_run, hst, if_true, rowBackend, ht, hlt,
      canBind, Bool.false_eq_true, if_false, M.pure_apply]
  · refine ⟨t, ?_, hb, hs⟩
    simp only [bindLoopWithLimit, M.bind_apply, bind_run, hst, if_true, rowBackend, ht, hlt,
      if_false, M.pure_apply]

theorem rowBackend_executeWithLimit_fits (limit fuel : Nat)
    (s : StatementImpl RowSource) (hst : s._state = State.ST_COMPILED)
    (hlu : limit < UINT32_SIZE) (hlimit : s._extrLimit.value = limit)
    (hrows : 0 < s.backend.remaining) (hfit : s.backend.remaining ≤ limit)
    (hfuel : s.backend.remaining < fuel) :
    ∃ t, executeWithLimit rowBackend (fuel + 1) s = Res.ok s.backend.remaining t
      ∧ t._state = State.ST_DONE ∧ t.backend.remaining = 0 ∧ Quiet s t := by
  obtain ⟨t1, hloop, hb1, hs1⟩ := rowBackend_bindLoopWithLimit limit fuel s hst hlu (by omega)
  have hmin : min limit s.backend.remaining = s.backend.remaining := by omega
  rw [hmin] at hloop hb1
  have hq1 : Quiet s t1 := by
    have := bindLoopWithLimit_quiet rowBackend limit (fuel + 1) 0 s
    rw [hloop] at this
    exact this
  have hrun : executeWithLimit rowBackend (fuel + 1) s =
      finishWithLimit rowBackend limit s.backend.remaining t1 := by
    simp only [executeWithLimit, M.bind_apply, getS_run, hst, ne_eq, reduceCtorEq,
      not_false_eq_true, decide_True, poco_assert_true, hlimit, hloop]
  have hspec := finishWithLimit_spec rowBackend limit s.backend.remaining t1
  have hn : rowBackend.hasNext t1.backend = false := by
    simp [rowBackend, hb1]
  rw [hrun]
  cases hr : finishWithLimit rowBackend limit s.backend.remaining t1 with
  | timeout => rw [hr] at hspec; exact hspec.elim
  | throw e t =>
    rw [hr] at hspec
    exact absurd ⟨rfl, Or.inl hn⟩ hspec.2.2.2.2.2.1
  | ok v t =>
    rw [hr] at hspec
    obtain ⟨hq, hb, -, hv, ⟨-, -, hd⟩ | ⟨hne, -⟩⟩ := hspec
    · have hv2 : v = s.backend.remaining := by
        rw [hv, if_pos (by omega)]
      subst hv2
      exact ⟨t, rfl, hd, by rw [hb, hb1]; omega, hq1.quietTrans hq⟩
    · exact absurd ⟨rfl, Or.inl hn⟩ hne

theorem rowBackend_executeWithLimit_exceeds (limit fuel : Nat)
    (s : StatementImpl RowSource) (hst : s._state = State.ST_COMPILED)
    (hl : 0 < limit) (hlu : limit < UINT32_SIZE) (hlimit : s._extrLimit.value = limit)
    (hhard : s._extrLimit.isHardLimit = true) (hmore : limit < s.backend.remaining)
    (hfuel : limit < fuel) :
    ∃ t, executeWithLimit rowBackend (fuel + 1) s = Res.throw Exc.HardLimitReached t
      ∧ t.backend.remaining = s.backend.remaining - limit := by
  obtain ⟨t1, hloop, hb1, hs1⟩ := rowBackend_bindLoopWithLimit limit fuel s hst hlu (by omega)
  have hmin : min limit s.backend.remaining = limit := by omega
  rw [hmin] at hloop hb1
  have hq1 : Quiet s t1 := by
    have := bindLoopWithLimit_quiet rowBackend limit (fuel + 1) 0 s
    rw [hloop] at this
    exact this
  have hn : rowBackend.hasNext t1.backend = true := by
    simp only [rowBackend, decide_eq_true_eq, hb1]
    omega
  obtain ⟨t, hfin, hb, -⟩ := finishWithLimit_hard rowBackend limit t1
    (by rw [hq1.frame.extrLimit]; exact hhard) hn (Or.inl (by omega))
  refine ⟨t, ?_, by rw [hb, hb1]⟩
  simp only [executeWithLimit, M.bind_apply, getS_run, hst, ne_eq, reduceCtorEq,
    not_false_eq_true, decide_True, poco_assert_true, hlimit, hloop, hfin]

theorem execute_limitedOver_run (rows limit fuel : Nat) (hard : Bool)
    (hlu : limit < LIMIT_UNLIMITED) :
    execute rowBackend (fuel + 1) (limitedOver rows limit hard) =
      match executeWithLimit rowBackend fuel (compiledOver rows limit hard) with
      | Res.ok n t => Res.ok (n % UINT32_SIZE) { t with calls := Prim.canCompile :: t.calls }
      | Res.throw e t => Res.throw e t
      | Res.timeout => Res.timeout := by
  have hne : ¬ limit = LIMIT_UNLIMITED := by omega
  rw [execute_run rowBackend (fuel + 1) (limitedOver rows limit hard)
    (by simp [limitedOver, freshOver, StatementImpl.new, vresize])
    (by simp [limitedOver, freshOver, StatementImpl.new, vresize])
    (by simp [limitedOver, freshOver, StatementImpl.new])]
  simp only [compileLoop, M.bind_apply, compile_limitedOver, getS_run]
  have hlim : (compiledOver rows limit hard)._extrLimit.value = limit := rfl
  simp only [hlim, hne, if_false]
  have hq := executeWithLimit_spec rowBackend fuel (compiledOver rows limit hard)
  cases hr : executeWithLimit rowBackend fuel (compiledOver rows limit hard) with
  | timeout => rfl
  | throw e t => rfl
  | ok n t =>
    rw [hr] at hq
    have h1 : t._extrLimit.value = limit := by rw [hq.frame.extrLimit]; rfl
    have h2 : t._lowerLimit = 0 := by rw [hq.frame.lowerLimit]; rfl
    simp [canCompile, rowBackend, h1, h2, hne]

/-- C1, counterexample: with `R = 10` rows and the hard limit `L = 4`, the first
`execute` does not return 4 with the state Paused: it returns nothing and throws
the hard-limit exception. -/
theorem hard_limit_first_call_throws :
    (limitedOver 10 4 true)._extrLimit = ⟨4, true, false⟩ ∧
    (limitedOver 10 4 true)._lowerLimit = 0 ∧
    (execute rowBackend 20 (limitedOver 10 4 true)).value? = none ∧
    (execute rowBackend 20 (limitedOver 10 4 true)).exc? = some Exc.HardLimitReached := by
  decide!

/-! ## Restarting -/

/-- C6, the code at the failing input: the first `execute` returns 2 and leaves
`rowsExtracted () = 2`, `columnsExtracted () = 1`; `reset (); compile ();
execute ()` again returns 2 and leaves `rowsExtracted () = 2`, but
`columnsExtracted () = 0`. -/
theorem restart_with_compile_loses_column_count :
    (execute rowBackend 10 registeredOver).value? = some 2 ∧
    (rowsExtracted USE_CURRENT_DATA_SET executedOnce).value? = some 2 ∧
    (columnsExtracted USE_CURRENT_DATA_SET executedOnce).value? = some 1 ∧
    ((reset >>= fun _ => compile rowBackend >>= fun _ => execute rowBackend 10)
      executedOnce).value? = some 2 ∧
    (rowsExtracted USE_CURRENT_DATA_SET restarted).value? = some 2 ∧
    (columnsExtracted USE_CURRENT_DATA_SET restarted).value? = some 0 := by
  decide!

/-! ## Limit setting, bindings and column lookup -/

theorem removeBindLoop_eq (name : String) (l : List Binding) (found : Bool) :
    removeBindLoop name l found =
      (l.filter (fun b => decide (b.name ≠ name)),
        found || l.any (fun b => decide (b.name = name))) := by
  induction l generalizing found with
  | nil => simp [removeBindLoop]
  | cons b rest ih =>
    by_cases h : b.name = name
    · simp [removeBindLoop, h, ih]
    · simp [removeBindLoop, h, ih]

/-- C17: `setExtractionLimit (limit)` always returns. When `limit` is not flagged
as a lower bound, the extraction limit becomes `limit` (value and hard flag) and
the lower limit is unchanged; when it is flagged as a lower bound, the lower limit
becomes `limit.value ()` and the extraction limit (value and hard flag) is
unchanged, so a lower-bound limit never becomes the paging ceiling. In both cases
the state, the bulk modes, the registries and every other member are unchanged. -/
theorem setExtractionLimit_contract (extrLimit : Limit) (s : StatementImpl β) :
    ∃ t, setExtractionLimit extrLimit s = Res.ok () t
      ∧ (extrLimit.isLowerLimit = false →
          t._extrLimit = extrLimit ∧ t._lowerLimit = s._lowerLimit)
      ∧ (extrLimit.isLowerLimit = true →
          t._lowerLimit = extrLimit.value ∧ t._extrLimit = s._extrLimit)
      ∧ t._state = s._state ∧ t._bulkBinding = s._bulkBinding
      ∧ t._bulkExtraction = s._bulkExtraction ∧ t._extractors = s._extractors
      ∧ t._columnsExtracted = s._columnsExtracted ∧ t._bindings = s._bindings
      ∧ t._curDataSet = s._curDataSet ∧ t._storage = s._storage
      ∧ t._rSession = s._rSession ∧ t.backend = s.backend ∧ t.calls = s.calls := by
  cases h : extrLimit.isLowerLimit
  · exact ⟨{ s with _extrLimit := extrLimit }, by simp [setExtractionLimit, h],
      fun _ => ⟨rfl, rfl⟩, fun h2 => by simp at h2, rfl, rfl, rfl, rfl, rfl, rfl, rfl, rfl,
      rfl, rfl, rfl⟩
  · exact ⟨{ s with _lowerLimit := extrLimit.value }, by simp [setExtractionLimit, h],
      fun h2 => by simp at h2, fun _ => ⟨rfl, rfl⟩, rfl, rfl, rfl, rfl, rfl, rfl, rfl, rfl,
      rfl, rfl, rfl⟩

/-- C15: `removeBind (name)` leaves the binding list with every binding whose name
equals `name` (exactly, case-sensitively) removed and the others in their
original order; it throws the not-found exception exactly when no binding has
that name, and the binding list, like the rest of the object, is then
unchanged. -/
theorem removeBind_contract (name : String) (s : StatementImpl β) :
    ((∃ b ∈ s._bindings, b.name = name) →
      removeBind name s = Res.ok ()
        { s with _bindings := s._bindings.filter (fun b => decide (b.name ≠ name)) }) ∧
    ((∀ b ∈ s._bindings, b.name ≠ name) →
      removeBind name s = Res.throw Exc.NotFoundException s) ∧
    ((∃ t, removeBind name s = Res.throw Exc.NotFoundException t) ↔
      ∀ b ∈ s._bindings, b.name ≠ name) := by
  have hyes : (∃ b ∈ s._bindings, b.name = name) →
      removeBind name s = Res.ok ()
        { s with _bindings := s._bindings.filter (fun b => decide (b.name ≠ name)) } := by
    intro h
    have hany : (s._bindings.any fun b => decide (b.name = name)) = true := by
      simpa using h
    have hall : ¬ ∀ x ∈ s._bindings, ¬ x.name = name := by
      intro hc
      obtain ⟨b, hb, hn⟩ := h
      exact hc b hb hn
    simp [removeBind, removeBindLoop_eq, ite_run, hall]
  have hno : (∀ b ∈ s._bindings, b.name ≠ name) →
      removeBind name s = Res.throw Exc.NotFoundException s := by
    intro h
    have hany : (s._bindings.any fun b => decide (b.name = name)) = false := by
      simpa using h
    have hfil : s._bindings.filter (fun b => decide (b.name ≠ name)) = s._bindings := by
      rw [List.filter_eq_self]
      intro b hb
      simpa using h b hb
    have hfil2 : s._bindings.filter (fun b => !decide (b.name = name)) = s._bindings := by
      rw [← hfil]
      congr 1
      funext b
      simp
    have hall : ∀ x ∈ s._bindings, ¬ x.name = name := h
    simp [removeBind, removeBindLoop_eq, ite_run, hfil2]
    exact hall
  refine ⟨hyes, hno, ?_, ?_⟩
  · rintro ⟨t, ht⟩
    by_contra hcon
    have hex : ∃ b ∈ s._bindings, b.name = name := by
      simpa using hcon
    rw [hyes hex] at ht
    cases ht
  · intro h
    exact ⟨s, hno h⟩

theorem icompare_eq_zero_iff (a b : String) : 0 = icompare a b ↔ a.toLower = b.toLower := by
  unfold icompare
  by_cases h : a.toLower = b.toLower
  · simp [h]
  · by_cases h2 : a.toLower < b.toLower <;> simp [h, h2]

theorem metaColumnLoop_none (name : String) (n i : Nat) (s : StatementImpl β)
    (h : ∀ j, j < n → 0 ≠ icompare (B.metaColumn s.backend (i + j)).name name) :
    ∃ c, metaColumnLoop B name n i s = Res.throw Exc.NotFoundException { s with calls := c } := by
  induction n generalizing i s with
  | zero => exact ⟨s.calls, rfl⟩
  | succ n ih =>
    have h0 : ¬ 0 = icompare (B.metaColumn s.backend i).name name := by
      have := h 0 (by omega)
      simpa using this
    obtain ⟨c, hc⟩ := ih (i + 1) { s with calls := Prim.metaColumn :: s.calls } (by
      intro j hj
      have := h (j + 1) (by omega)
      simpa [Nat.add_assoc, Nat.add_comm 1 j] using this)
    exact ⟨c, by simp [metaColumnLoop, metaColumnAt, h0, ite_run, hc]⟩

theorem metaColumnLoop_first (name : String) (n i k : Nat) (s : StatementImpl β)
    (hk : k < n) (hm : 0 = icompare (B.metaColumn s.backend (i + k)).name name)
    (h : ∀ j, j < k → 0 ≠ icompare (B.metaColumn s.backend (i + j)).name name) :
    ∃ c, metaColumnLoop B name n i s =
      Res.ok (B.metaColumn s.backend (i + k)) { s with calls := c } := by
  induction n generalizing i k s with
  | zero => omega
  | succ n ih =>
    cases k with
    | zero =>
      have hm0 : 0 = icompare (B.metaColumn s.backend i).name name := by simpa using hm
      exact ⟨Prim.metaColumn :: s.calls, by simp [metaColumnLoop, metaColumnAt, hm0, ite_run]⟩
    | succ k =>
      have h0 : ¬ 0 = icompare (B.metaColumn s.backend i).name name := by
        have := h 0 (by omega)
        simpa using this
      obtain ⟨c, hc⟩ := ih (i + 1) k { s with calls := Prim.metaColumn :: s.calls } (by omega)
        (by simpa [Nat.add_assoc, Nat.add_comm 1 k] using hm)
        (by
          intro j hj
          have := h (j + 1) (by omega)
          simpa [Nat.add_assoc, Nat.add_comm 1 j] using this)
      refine ⟨c, ?_⟩
      have he : i + (k + 1) = i + 1 + k := by omega
      rw [he]
      simp [metaColumnLoop, metaColumnAt, h0, ite_run, hc]

/-- C16: `metaColumn (name)` returns the backend column with the smallest index `i`
in `[0, columnsReturned ())` whose name equals `name` ignoring case (`icompare`
gives 0), and throws the not-found exception exactly when no column in that range
has such a name; it throws nothing else, and leaves the object unchanged. -/
theorem metaColumn_first_match (name : String) (s : StatementImpl β) :
    (∀ i, i < B.columnsReturned s.backend →
      0 = icompare (B.metaColumn s.backend i).name name →
      (∀ j, j < i → 0 ≠ icompare (B.metaColumn s.backend j).name name) →
      ∃ c, metaColumn B name s = Res.ok (B.metaColumn s.backend i) { s with calls := c }) ∧
    ((∃ t, metaColumn B name s = Res.throw Exc.NotFoundException t) ↔
      ∀ i, i < B.columnsReturned s.backend →
        0 ≠ icompare (B.metaColumn s.backend i).name name) ∧
    (∀ e t, metaColumn B name s = Res.throw e t →
      e = Exc.NotFoundException ∧ ∃ c, t = { s with calls := c }) := by
  have hrun : metaColumn B name s =
      metaColumnLoop B name (B.columnsReturned s.backend) 0
        { s with calls := Prim.columnsReturned :: s.calls } := by
    simp [metaColumn, columnsReturned]
  have hfirst : ∀ i, i < B.columnsReturned s.backend →
      0 = icompare (B.metaColumn s.backend i).name name →
      (∀ j, j < i → 0 ≠ icompare (B.metaColumn s.backend j).name name) →
      ∃ c, metaColumn B name s = Res.ok (B.metaColumn s.backend i) { s with calls := c } := by
    intro i hi hm hb
    obtain ⟨c, hc⟩ := metaColumnLoop_first B name (B.columnsReturned s.backend) 0 i
      { s with calls := Prim.columnsReturned :: s.calls } hi (by simpa using hm)
      (by simpa using hb)
    exact ⟨c, by rw [hrun, hc]; simp⟩
  have hnone : (∀ i, i < B.columnsReturned s.backend →
      0 ≠ icompare (B.metaColumn s.backend i).name name) →
      ∃ c, metaColumn B name s = Res.throw Exc.NotFoundException { s with calls := c } := by
    intro h
    obtain ⟨c, hc⟩ := metaColumnLoop_none B name (B.columnsReturned s.backend) 0
      { s with calls := Prim.columnsReturned :: s.calls } (by simpa using h)
    exact ⟨c, by rw [hrun, hc]⟩
  have hcases : (∀ i, i < B.columnsReturned s.backend →
      0 ≠ icompare (B.metaColumn s.backend i).name name) ∨
      ∃ i, i < B.columnsReturned s.backend ∧
        0 = icompare (B.metaColumn s.backend i).name name ∧
        ∀ j, j < i → 0 ≠ icompare (B.metaColumn s.backend j).name name := by
    by_cases hex : ∃ i, i < B.columnsReturned s.backend ∧
        0 = icompare (B.metaColumn s.backend i).name name
    · right
      refine ⟨Nat.find hex, (Nat.find_spec hex).1, (Nat.find_spec hex).2, ?_⟩
      intro j hj hm
      exact Nat.find_min hex hj ⟨lt_trans hj (Nat.find_spec hex).1, hm⟩
    · left
      intro i hi hm
      exact hex ⟨i, hi, hm⟩
  refine ⟨hfirst, ⟨?_, fun h => ?_⟩, ?_⟩
  · rintro ⟨t, ht⟩
    rcases hcases with h | ⟨i, hi, hm, hb⟩
    · exact h
    · obtain ⟨c, hc⟩ := hfirst i hi hm hb
      rw [hc] at ht
      cases ht
  · obtain ⟨c, hc⟩ := hnone h
    exact ⟨_, hc⟩
  · intro e t ht
    rcases hcases with h | ⟨i, hi, hm, hb⟩
    · obtain ⟨c, hc⟩ := hnone h
      rw [hc] at ht
      cases ht
      exact ⟨rfl, c, rfl⟩
    · obtain ⟨c, hc⟩ := hfirst i hi hm hb
      rw [hc] at ht
      cases ht

/-- C14: `bind ()` from Compiled invokes `bindImpl ()` once and ends in Bound; from
Bound with `hasNext ()` true it only queries `hasNext ()` and changes nothing;
from Bound with `hasNext ()` false it invokes `bindImpl ()` once and stays Bound
if `canBind ()` is true, and otherwise moves to Done without invoking it; from
Initialized, Reset, Paused and Done it invokes nothing and leaves the object
unchanged. -/
theorem bind_transitions (s : StatementImpl β) :
    (s._state = State.ST_COMPILED →
      bind B s = Res.ok ()
        { s with
          _state := State.ST_BOUND
          backend := (B.bindImpl s.backend s._bindings).1
          _bindings := (B.bindImpl s.backend s._bindings).2
          calls := Prim.bindImpl :: s.calls }) ∧
    (s._state = State.ST_BOUND → B.hasNext s.backend = true →
      bind B s = Res.ok () { s with calls := Prim.hasNext :: s.calls }) ∧
    (s._state = State.ST_BOUND → B.hasNext s.backend = false → B.canBind s.backend = true →
      bind B s = Res.ok ()
        { s with
          backend := (B.bindImpl s.backend s._bindings).1
          _bindings := (B.bindImpl s.backend s._bindings).2
          calls := Prim.bindImpl :: Prim.canBind :: Prim.hasNext :: s.calls }) ∧
    (s._state = State.ST_BOUND → B.hasNext s.backend = false → B.canBind s.backend = false →
      bind B s = Res.ok ()
        { s with _state := State.ST_DONE, calls := Prim.canBind :: Prim.hasNext :: s.calls }) ∧
    (s._state = State.ST_INITIALIZED ∨ s._state = State.ST_RESET ∨ s._state = State.ST_PAUSED
        ∨ s._state = State.ST_DONE →
      bind B s = Res.ok () s) := by
  refine ⟨fun h => ?_, fun h h1 => ?_, fun h h1 h2 => ?_, fun h h1 h2 => ?_, fun h => ?_⟩
  · rw [bind_run, if_pos h]
  · rw [bind_run, if_neg (by rw [h]; decide), if_pos h, if_pos h1]
  · rw [bind_run, if_neg (by rw [h]; decide), if_pos h, if_neg (by rw [h1]; decide), if_pos h2]
  · rw [bind_run, if_neg (by rw [h]; decide), if_pos h, if_neg (by rw [h1]; decide),
      if_neg (by rw [h2]; decide)]
  · rw [bind_run, if_neg (by rcases h with h | h | h | h <;> rw [h] <;> decide),
      if_neg (by rcases h with h | h | h | h <;> rw [h] <;> decide)]

/-! ## Row progress and the assertions of the extraction reset -/

theorem applyCalls_reachable (cs : List Call) (s : StatementImpl β) (h : Reachable B s) :
    Reachable B (applyCalls B cs s) := by
  induction cs generalizing s with
  | nil => exact h
  | cons c cs ih =>
    simp only [applyCalls, List.foldl_cons]
    cases hr : runCall B c s with
    | none => exact ih s h
    | some t => exact ih t (Reachable.call c h hr)

/-- C11, the code at the failing input: in a state reachable by public calls the
cursor is on the first data set, which has no extraction; the registry has two
positions, and the first extraction registered at position 1 has handled two
rows; `rowsExtracted (1)` returns 0. -/
theorem rowsExtracted_ignores_other_data_set :
    Reachable rowBackend secondDataSetDrained ∧
    secondDataSetDrained._curDataSet = 0 ∧
    secondDataSetDrained._extractors.length = 2 ∧
    (secondDataSetDrained._extractors.getD 1 []).map (fun e => e.numOfRowsHandled) = [2] ∧
    (rowsExtracted 1 secondDataSetDrained).value? = some 0 :=
  ⟨applyCalls_reachable rowBackend _ _ (Reachable.new _ _), by decide!, by decide!,
    by decide!, by decide!⟩

/-- C12, counterexample: on the Paused statement `pausedOver` the extraction of the
current data set has handled 4 rows; after `resetExtraction`, the first step of
`execute`, it has handled 0 rows. -/
theorem resetExtraction_clears_row_progress :
    (pausedOver._extractors.getD pausedOver._curDataSet []).map
        (fun e => e.numOfRowsHandled) = [4] ∧
    (((resetExtraction pausedOver).stateOr pausedOver)._extractors.getD
        pausedOver._curDataSet []).map (fun e => e.numOfRowsHandled) = [0] := by
  decide!

/-- C12 (amended): the first step of `execute`, `resetExtraction`, calls `reset ()`
on every extraction registered for the current data set, which clears its row
progress and nothing else, and sets the current data set's extracted-column
counter to 0. The extractions registered for the other data sets (their row
progress included), the counters of the other data sets and every other member
are the same after that step as before it. -/
theorem resetExtraction_effect (s : StatementImpl β)
    (h1 : s._curDataSet < s._extractors.length)
    (h2 : s._curDataSet < s._columnsExtracted.length) :
    ∃ t, resetExtraction s = Res.ok () t
      ∧ t._extractors.getD s._curDataSet [] =
          (s._extractors.getD s._curDataSet []).map Extraction.reset
      ∧ (∀ e ∈ t._extractors.getD s._curDataSet [], e.numOfRowsHandled = 0)
      ∧ (∀ d, d ≠ s._curDataSet → t._extractors.getD d [] = s._extractors.getD d [])
      ∧ t._extractors.length = s._extractors.length
      ∧ t._columnsExtracted.getD s._curDataSet 0 = 0
      ∧ (∀ d, d ≠ s._curDataSet →
          t._columnsExtracted.getD d 0 = s._columnsExtracted.getD d 0)
      ∧ t._columnsExtracted.length = s._columnsExtracted.length
      ∧ Frame s t ∧ t._state = s._state ∧ t._bindings = s._bindings
      ∧ t.backend = s.backend ∧ t.calls = s.calls := by
  refine ⟨afterReset s, ?_, ?_, ?_, ?_, ?_, ?_, ?_, ?_, afterReset_frame s, rfl, rfl, rfl, rfl⟩
  · rw [resetExtraction_run, if_pos h1, if_pos h2]
    rfl
  · simp [afterReset, getD_set, h1]
  · intro e he
    simp only [afterReset, List.getD_eq_getElem?_getD, getD_set, h1, and_self, if_true,
      List.mem_map] at he
    obtain ⟨e0, -, rfl⟩ := he
    rfl
  · intro d hd
    have hd2 : ¬ s._curDataSet = d := fun h => hd h.symm
    simp [afterReset, getD_set, hd2]
  · simp [afterReset]
  · simp [afterReset, getD_set, h2]
  · intro d hd
    have hd2 : ¬ s._curDataSet = d := fun h => hd h.symm
    simp [afterReset, getD_set, hd2]
  · simp [afterReset]

/-- C12, on the Paused statement `pausedOver`: `resetExtraction` returns and the
extraction of the current data set has then handled no row. -/
theorem resetExtraction_effect_witness :
    pausedOver._curDataSet < pausedOver._extractors.length ∧
    pausedOver._curDataSet < pausedOver._columnsExtracted.length ∧
    ∃ t, resetExtraction pausedOver = Res.ok () t
      ∧ ∀ e ∈ t._extractors.getD pausedOver._curDataSet [], e.numOfRowsHandled = 0 := by
  refine ⟨by decide!, by decide!, ?_⟩
  obtain ⟨t, h1, -, h3, -⟩ := resetExtraction_effect pausedOver (by decide!) (by decide!)
  exact ⟨t, h1, h3⟩

/-! ## The compile transition -/

theorem foldl_columns (es : List Extraction) (init : Nat) :
    es.foldl (fun acc e => acc + e.numOfColumnsHandled) init =
      init + (es.map fun e => e.numOfColumnsHandled).sum := by
  induction es generalizing init with
  | nil => simp
  | cons e es ih => simp [ih, Nat.add_assoc]

theorem getD_vresize_zero (l : List Nat) (n i : Nat) (h : l.length ≤ n) :
    (vresize l n 0)[i]?.getD 0 = l[i]?.getD 0 := by
  unfold vresize
  rw [List.take_of_length_le h]
  by_cases hi : i < l.length
  · rw [List.getElem?_append_left hi]
  · rw [List.getElem?_append_right (by omega)]
    rw [List.getElem?_eq_none (by omega : l.length ≤ i)]
    by_cases h2 : i - l.length < n - l.length
    · simp [List.getElem?_replicate, h2]
    · simp [List.getElem?_replicate, h2]

theorem fixupExtraction_effect (s : StatementImpl β) (h : s._curDataSet < s._extractors.length) :
    ∃ t, fixupExtraction s = Res.ok () t
      ∧ t._extractors = s._extractors.set s._curDataSet
          ((s._extractors.getD s._curDataSet []).map (Extraction.fixedUp s._extrLimit.value))
      ∧ t._columnsExtracted.length = max s._columnsExtracted.length (s._curDataSet + 1)
      ∧ (∀ d, t._columnsExtracted.getD d 0 =
          if d = s._curDataSet then
            s._columnsExtracted.getD d 0 + (handledColumns s).sum
          else s._columnsExtracted.getD d 0)
      ∧ t.calls = Prim.extractor :: s.calls ∧ t._state = s._state ∧ t.backend = s.backend
      ∧ t._bindings = s._bindings ∧ Frame s t := by
  by_cases h2 : s._curDataSet ≥ s._columnsExtracted.length
  · refine ⟨_, by simp [fixupExtraction, extractions, h, extractor, h2]; rfl, ?_⟩
    refine ⟨by simp [Extraction.fixedUp, h]; rfl, ?_, ?_, rfl, rfl, rfl, rfl,
      ⟨rfl, rfl, rfl, rfl, rfl, rfl, rfl, by simp, ?_, by simp, ?_⟩⟩
    · simp [length_vresize]; omega
    · intro d
      simp only [List.getD_eq_getElem?_getD, getD_set, length_vresize, foldl_columns,
        handledColumns]
      by_cases hd : d = s._curDataSet
      · rw [hd]
        simp [getD_vresize_zero s._columnsExtracted (s._curDataSet + 1) s._curDataSet
          (by omega), h]
      · have hd2 : ¬ s._curDataSet = d := fun h => hd h.symm
        simp [hd, hd2, getD_vresize_zero s._columnsExtracted (s._curDataSet + 1) d (by omega)]
    · simp [length_vresize]; omega
    · simp [length_vresize]
  · refine ⟨_, by simp [fixupExtraction, extractions, h, extractor, h2]; rfl, ?_⟩
    refine ⟨by simp [Extraction.fixedUp, h]; rfl, ?_, ?_, rfl, rfl, rfl, rfl,
      ⟨rfl, rfl, rfl, rfl, rfl, rfl, rfl, by simp, by simp, by simp, by simp⟩⟩
    · simp; omega
    · intro d
      simp only [List.getD_eq_getElem?_getD, getD_set, foldl_columns, handledColumns]
      by_cases hd : d = s._curDataSet
      · rw [hd]
        simp [(by omega : s._curDataSet < s._columnsExtracted.length), h]
      · have hd2 : ¬ s._curDataSet = d := fun h => hd h.symm
        simp [hd, hd2]

theorem makeExtractorsLoop_invoked (n i : Nat) (s t : StatementImpl β)
    (h : (makeExtractorsLoop B n i s).state? = some t) (p : Prim) (hp : p ≠ Prim.metaColumn) :
    invoked p t = invoked p s := by
  induction n generalizing i s with
  | zero =>
    simp only [makeExtractorsLoop, M.pure_apply, Res.state?, Option.some.injEq] at h
    rw [h]
  | succ n ih =>
    by_cases hs : (B.metaColumn s.backend i).type.supported = true
    · have hrun : makeExtractorsLoop B (n + 1) i s = makeExtractorsLoop B n (i + 1)
          { s with _extractors := (registerAt s._extractors s._curDataSet
                    (internalExtraction s._curDataSet s._rSession (B.metaColumn s.backend i)))
                   calls := Prim.metaColumn :: s.calls } := by
        simp [makeExtractorsLoop, metaColumnAt, hs, addInternalExtract_run]
      rw [hrun] at h
      rw [ih _ _ h]
      simp only [invoked]
      exact List.count_cons_of_ne hp _
    · have hrun : makeExtractorsLoop B (n + 1) i s =
          Res.throw Exc.InvalidArgumentException { s with calls := Prim.metaColumn :: s.calls } := by
        simp [makeExtractorsLoop, metaColumnAt, hs]
      rw [hrun] at h
      simp only [Res.state?, Option.some.injEq] at h
      rw [← h]
      simp only [invoked]
      exact List.count_cons_of_ne hp _

theorem compileExtractors_run (s : StatementImpl β) (hcur : s._curDataSet < s._extractors.length) :
    ∃ t, t.backend = s.backend ∧ t._state = s._state
      ∧ t._columnsExtracted = s._columnsExtracted ∧ t._bindings = s._bindings ∧ Frame s t
      ∧ t._extractors = registerColumns s._extractors s._curDataSet s._rSession
          ((generatedColumns B s).takeWhile fun mc => mc.type.supported)
      ∧ (∀ p, p ≠ Prim.metaColumn → p ≠ Prim.columnsReturned → p ≠ Prim.isStoredProcedure →
          invoked p t = invoked p s)
      ∧ ((∀ mc ∈ generatedColumns B s, mc.type.supported = true) →
          compileExtractors B s = Res.ok () t)
      ∧ (¬ (∀ mc ∈ generatedColumns B s, mc.type.supported = true) →
          compileExtractors B s = Res.throw Exc.InvalidArgumentException t) := by
  have hf : ∀ (c : List Prim), Frame s { s with calls := c } :=
    fun _ => ⟨rfl, rfl, rfl, rfl, rfl, rfl, rfl, le_rfl, le_rfl, le_max_left _ _, le_max_left _ _⟩
  by_cases hes : s._extractors[s._curDataSet] = []
  · by_cases hsp : B.isStoredProcedure s.backend = true
    · have hg : generatedColumns B s = [] := by
        simp [generatedColumns, hsp]
      refine ⟨{ s with calls := Prim.isStoredProcedure :: s.calls }, rfl, rfl, rfl, rfl, hf _,
        by simp [hg, registerColumns], ?_, ?_, ?_⟩
      · intro p _ _ h3
        exact List.count_cons_of_ne h3 _
      · intro _
        simp [compileExtractors, extractions, ite_run, hcur, hes, isStoredProcedure, hsp]
      · intro h
        exact absurd (by simp [hg]) h
    · by_cases hcols : B.columnsReturned s.backend = 0
      · have hg : generatedColumns B s = [] := by
          simp [generatedColumns, hcols, columnsFrom]
        refine ⟨{ s with calls := Prim.columnsReturned :: Prim.isStoredProcedure :: s.calls },
          rfl, rfl, rfl, rfl, hf _, by simp [hg, registerColumns], ?_, ?_, ?_⟩
        · intro p _ h2 h3
          simp only [invoked]
          rw [List.count_cons_of_ne h2, List.count_cons_of_ne h3]
        · intro _
          simp [compileExtractors, extractions, ite_run, hcur, hes, isStoredProcedure, hsp,
            columnsReturned, hcols]
        · intro h
          exact absurd (by simp [hg]) h
      · have hg : generatedColumns B s =
            columnsFrom B s.backend 0 (B.columnsReturned s.backend) := by
          simp [generatedColumns, hcur, hes, hsp]
        obtain ⟨t, h1, h2, h3, h4, h5, h6, h7, h8⟩ := makeExtractorsLoop_run B
          (B.columnsReturned s.backend) 0
          { s with calls := Prim.columnsReturned :: Prim.isStoredProcedure :: s.calls }
          (Or.inl hcur)
        have hst : (makeExtractorsLoop B (B.columnsReturned s.backend) 0
            { s with calls := Prim.columnsReturned :: Prim.isStoredProcedure :: s.calls }).state?
              = some t := by
          by_cases hall : ∀ mc ∈ columnsFrom B s.backend 0 (B.columnsReturned s.backend),
              mc.type.supported = true
          · rw [h7 hall]; rfl
          · rw [h8 hall]; rfl
        refine ⟨t, h1, h2, h3, h4, (hf _).trans h5, by rw [h6, hg], ?_, ?_, ?_⟩
        · intro p p1 p2 p3
          rw [makeExtractorsLoop_invoked B _ _ _ _ hst p p1]
          simp only [invoked]
          rw [List.count_cons_of_ne p2, List.count_cons_of_ne p3]
        · intro hall
          rw [hg] at hall
          have := h7 hall
          simp [compileExtractors, extractions, ite_run, hcur, hes, isStoredProcedure, hsp,
            columnsReturned, hcols, makeExtractors, this]
        · intro hall
          rw [hg] at hall
          have := h8 hall
          simp [compileExtractors, extractions, ite_run, hcur, hes, isStoredProcedure, hsp,
            columnsReturned, hcols, makeExtractors, this]
  · have hg : generatedColumns B s = [] := by
      simp [generatedColumns, hcur, hes]
    refine ⟨s, rfl, rfl, rfl, rfl, Frame.refl s, by simp [hg, registerColumns], fun _ _ _ _ => rfl,
      ?_, ?_⟩
    · intro _
      simp [compileExtractors, extractions, ite_run, hcur, hes]
    · intro h
      exact absurd (by simp [hg]) h

theorem compile_unfold (s : StatementImpl β)
    (hst : s._state = State.ST_INITIALIZED ∨ s._state = State.ST_RESET
      ∨ s._state = State.ST_BOUND) :
    compile B s =
      (compileExtractors B >>= fun _ => fixupExtraction >>= fun _ => fixupBinding)
        (compiling B s) := by
  simp only [compile, M.bind_apply, getS_run, hst, if_true, compileImpl, setState, modifyS_run,
    compiling]

theorem compile_fresh (s : StatementImpl β)
    (hst : s._state = State.ST_INITIALIZED ∨ s._state = State.ST_RESET
      ∨ s._state = State.ST_BOUND)
    (hcur : s._curDataSet < s._extractors.length) :
    ∃ t, (compile B s).state? = some t
      ∧ t._state = State.ST_COMPILED ∧ t.backend = B.compileImpl s.backend
      ∧ invoked Prim.compileImpl t = invoked Prim.compileImpl s + 1
      ∧ Frame s t
      ∧ ((∀ mc ∈ generatedColumns B (compiling B s), mc.type.supported = true) →
          compile B s = Res.ok () t
          ∧ invoked Prim.extractor t = invoked Prim.extractor s + 1
          ∧ invoked Prim.binder t = invoked Prim.binder s + 1
          ∧ t._extractors.getD s._curDataSet [] =
              (s._extractors.getD s._curDataSet [] ++
                (generatedColumns B (compiling B s)).map
                  (internalExtraction s._curDataSet s._rSession)).map
                (Extraction.fixedUp s._extrLimit.value)
          ∧ (∀ d, d ≠ s._curDataSet → t._extractors.getD d [] = s._extractors.getD d [])
          ∧ t._columnsExtracted.getD s._curDataSet 0 =
              s._columnsExtracted.getD s._curDataSet 0 + (handledColumns t).sum
          ∧ (∀ d, d ≠ s._curDataSet →
              t._columnsExtracted.getD d 0 = s._columnsExtracted.getD d 0)
          ∧ t._columnsExtracted.length = max s._columnsExtracted.length (s._curDataSet + 1)
          ∧ t._bindings = s._bindings.map fun b => { b with hasBinder := true })
      ∧ (¬ (∀ mc ∈ generatedColumns B (compiling B s), mc.type.supported = true) →
          compile B s = Res.throw Exc.InvalidArgumentException t
          ∧ invoked Prim.extractor t = invoked Prim.extractor s
          ∧ invoked Prim.binder t = invoked Prim.binder s
          ∧ t._columnsExtracted = s._columnsExtracted
          ∧ t._bindings = s._bindings) := by
  have hcur0 : (compiling B s)._curDataSet < (compiling B s)._extractors.length := hcur
  obtain ⟨t1, hb1, hs1, hc1, hbi1, hf1, he1, hi1, hok1, hth1⟩ :=
    compileExtractors_run B (compiling B s) hcur0
  have hf0 : Frame s (compiling B s) :=
    ⟨rfl, rfl, rfl, rfl, rfl, rfl, rfl, le_rfl, le_rfl, le_max_left _ _, le_max_left _ _⟩
  have hi0 : ∀ p, p ≠ Prim.compileImpl → invoked p (compiling B s) = invoked p s := by
    intro p hp
    exact List.count_cons_of_ne hp _
  have hic : invoked Prim.compileImpl t1 = invoked Prim.compileImpl s + 1 := by
    rw [hi1 _ (by decide) (by decide) (by decide)]
    simp [invoked, compiling]
  by_cases hall : ∀ mc ∈ generatedColumns B (compiling B s), mc.type.supported = true
  · have htw : ((generatedColumns B (compiling B s)).takeWhile fun mc => mc.type.supported) =
        generatedColumns B (compiling B s) := List.takeWhile_eq_self_iff.2 hall
    rw [htw] at he1
    have hcur1 : t1._curDataSet < t1._extractors.length := by
      have h1 := hf1.curDataSet
      have h2 := hf1.extractors
      simp only [compiling] at h1 h2
      omega
    obtain ⟨t2, hr2, he2, hl2, hc2, hca2, hs2, hb2, hbi2, hf2⟩ := fixupExtraction_effect t1 hcur1
    have hrun : compile B s = Res.ok ()
        { t2 with
          _bindings := t2._bindings.map fun b => { b with hasBinder := true }
          calls := Prim.binder :: t2.calls } := by
      rw [compile_unfold B s hst]
      simp only [M.bind_apply, hok1 hall, hr2]
      rfl
    have hcur1' : t1._curDataSet = s._curDataSet := hf1.curDataSet
    have hlim1 : t1._extrLimit = s._extrLimit := hf1.extrLimit
    have hses1 : (compiling B s)._rSession = s._rSession := rfl
    have hext : ∀ d, t2._extractors.getD d [] =
        if d = s._curDataSet then
          (s._extractors.getD s._curDataSet [] ++
            (generatedColumns B (compiling B s)).map
              (internalExtraction s._curDataSet s._rSession)).map
            (Extraction.fixedUp s._extrLimit.value)
        else s._extractors.getD d [] := by
      intro d
      have hreg := fun d => getD_registerColumns (generatedColumns B (compiling B s))
        (compiling B s)._extractors (compiling B s)._curDataSet d (compiling B s)._rSession
        (Or.inl hcur0)
      simp only [List.getD_eq_getElem?_getD, he2, getD_set, hcur1', hlim1, he1, hcur1]
      by_cases hd : d = s._curDataSet
      · have hlen : s._curDataSet < (registerColumns (compiling B s)._extractors
            (compiling B s)._curDataSet (compiling B s)._rSession
            (generatedColumns B (compiling B s))).length := by
          rw [← he1]
          rw [← hcur1']
          exact hcur1
        rw [hd]
        simp only [hlen, and_self, if_true]
        rw [hreg]
        simp [compiling]
      · have hd2 : ¬ s._curDataSet = d := fun h => hd h.symm
        simp only [hd, hd2, false_and, if_false]
        rw [hreg]
        simp [compiling, hd]
    refine ⟨_, by rw [hrun]; rfl, ?_, ?_, ?_, ?_, fun _ => ⟨hrun, ?_, ?_, ?_, ?_, ?_, ?_, ?_, ?_⟩,
      fun h => absurd hall h⟩
    · show t2._state = _
      rw [hs2, hs1]; rfl
    · show t2.backend = _
      rw [hb2, hb1]; rfl
    · show List.count Prim.compileImpl (Prim.binder :: t2.calls) = _
      rw [List.count_cons_of_ne (by decide), hca2, List.count_cons_of_ne (by decide)]
      exact hic
    · exact (hf0.trans (hf1.trans hf2)).trans
        ⟨rfl, rfl, rfl, rfl, rfl, rfl, rfl, le_rfl, le_rfl, le_max_left _ _, le_max_left _ _⟩
    · show List.count Prim.extractor (Prim.binder :: t2.calls) = _
      rw [List.count_cons_of_ne (by decide), hca2, List.count_cons_self]
      have := hi1 Prim.extractor (by decide) (by decide) (by decide)
      have h0 := hi0 Prim.extractor (by decide)
      simp only [invoked] at this h0 ⊢
      omega
    · show List.count Prim.binder (Prim.binder :: t2.calls) = _
      rw [List.count_cons_self, hca2, List.count_cons_of_ne (by decide)]
      have := hi1 Prim.binder (by decide) (by decide) (by decide)
      have h0 := hi0 Prim.binder (by decide)
      simp only [invoked] at this h0 ⊢
      omega
    · have := hext s._curDataSet
      simpa using this
    · intro d hd
      have := hext d
      simpa [hd] using this
    · have h1 := hc2 s._curDataSet
      have h2 := hext s._curDataSet
      simp only [hcur1', if_true] at h1
      show t2._columnsExtracted.getD s._curDataSet 0 = _
      rw [h1, hc1]
      have hcur2 : t2._curDataSet = t1._curDataSet := hf2.curDataSet
      have hh : handledColumns
          { t2 with
            _bindings := t2._bindings.map fun b => { b with hasBinder := true }
            calls := Prim.binder :: t2.calls } = handledColumns t1 := by
        simp only [handledColumns, hcur2, he2, List.getD_eq_getElem?_getD, getD_set, hcur1,
          and_self, if_true, List.map_map]
        rfl
      rw [hh]
      rfl
    · intro d hd
      have h1 := hc2 d
      simp only [hcur1', hd, if_false] at h1
      show t2._columnsExtracted.getD d 0 = _
      rw [h1, hc1]
      rfl
    · show t2._columnsExtracted.length = _
      rw [hl2, hc1, hcur1']
      rfl
    · show List.map _ t2._bindings = _
      rw [hbi2, hbi1]
      rfl
  · refine ⟨t1, by rw [compile_unfold B s hst]; simp [M.bind_apply, hth1 hall]; rfl, ?_, ?_, hic,
      hf0.trans hf1, fun h => absurd h hall, fun _ => ⟨?_, ?_, ?_, ?_, ?_⟩⟩
    · rw [hs1]; rfl
    · rw [hb1]; rfl
    · rw [compile_unfold B s hst]
      simp [M.bind_apply, hth1 hall]
    · rw [hi1 _ (by decide) (by decide) (by decide)]
      exact hi0 _ (by decide)
    · rw [hi1 _ (by decide) (by decide) (by decide)]
      exact hi0 _ (by decide)
    · rw [hc1]; rfl
    · rw [hbi1]; rfl

theorem compile_outside (s : StatementImpl β)
    (hst : s._state = State.ST_INITIALIZED ∨ s._state = State.ST_RESET
      ∨ s._state = State.ST_BOUND)
    (hcur : ¬ s._curDataSet < s._extractors.length) :
    compile B s = Res.throw Exc.AssertionViolationException (compiling B s) := by
  rw [compile_unfold B s hst]
  have hcur0 : ¬ (compiling B s)._curDataSet < (compiling B s)._extractors.length := hcur
  simp [compileExtractors, extractions, hcur0]

/-- C13 (amended): from each of the states Initialized, Reset and Bound, `compile ()`
invokes `compileImpl ()` exactly once and sets the state to Compiled. If the
cursor is within the registry and every column for which a default extraction has
to be generated has a supported type, it then runs extraction fixup and binding
fixup and returns: `extractor ()` and `binder ()` have been invoked once each,
every extraction of the current data set has the extractor and the limit value
attached, the current data set's counter has grown by the number of columns they
handle, and every binding has the binder attached. Otherwise it throws (the
invalid-argument exception of `makeExtractors`, or the failed assertion of
`extractions ()` when the cursor is outside the registry) in state Compiled and
neither fixup has run. From each of the states Compiled, Paused and Done it is a
no-op: the object is unchanged and no backend primitive is invoked. -/
theorem compile_transition (s : StatementImpl β) :
    ((s._state = State.ST_COMPILED ∨ s._state = State.ST_PAUSED ∨ s._state = State.ST_DONE) →
      compile B s = Res.ok () s) ∧
    ((s._state = State.ST_INITIALIZED ∨ s._state = State.ST_RESET
        ∨ s._state = State.ST_BOUND) →
      ∃ t, (compile B s).state? = some t
        ∧ t._state = State.ST_COMPILED ∧ t.backend = B.compileImpl s.backend
        ∧ invoked Prim.compileImpl t = invoked Prim.compileImpl s + 1
        ∧ t._curDataSet = s._curDataSet
        ∧ ((s._curDataSet < s._extractors.length
              ∧ ∀ mc ∈ generatedColumns B (compiling B s), mc.type.supported = true) →
            compile B s = Res.ok () t
            ∧ invoked Prim.extractor t = invoked Prim.extractor s + 1
            ∧ invoked Prim.binder t = invoked Prim.binder s + 1
            ∧ (∀ e ∈ t._extractors.getD s._curDataSet [],
                e.hasExtractor = true ∧ e.limit = s._extrLimit.value)
            ∧ t._columnsExtracted.getD s._curDataSet 0 =
                s._columnsExtracted.getD s._curDataSet 0 + (handledColumns t).sum
            ∧ (∀ b ∈ t._bindings, b.hasBinder = true))
        ∧ (¬ (s._curDataSet < s._extractors.length
              ∧ ∀ mc ∈ generatedColumns B (compiling B s), mc.type.supported = true) →
            (∃ e, compile B s = Res.throw e t
              ∧ (e = Exc.InvalidArgumentException ∨ e = Exc.AssertionViolationException))
            ∧ invoked Prim.extractor t = invoked Prim.extractor s
            ∧ invoked Prim.binder t = invoked Prim.binder s
            ∧ t._columnsExtracted = s._columnsExtracted
            ∧ t._bindings = s._bindings)) := by
  refine ⟨fun h => compile_noop B s (by rcases h with h | h | h <;> rw [h] <;> decide),
    fun hst => ?_⟩
  by_cases hcur : s._curDataSet < s._extractors.length
  · obtain ⟨t, h1, h2, h3, h4, h5, hok, hth⟩ := compile_fresh B s hst hcur
    refine ⟨t, h1, h2, h3, h4, h5.curDataSet, ?_, ?_⟩
    · rintro ⟨-, hall⟩
      obtain ⟨k1, k2, k3, k4, -, k6, -, -, k9⟩ := hok hall
      refine ⟨k1, k2, k3, ?_, k6, ?_⟩
      · intro e he
        rw [k4] at he
        obtain ⟨e0, -, rfl⟩ := List.mem_map.1 he
        exact ⟨rfl, rfl⟩
      · intro b hb
        rw [k9] at hb
        obtain ⟨b0, -, rfl⟩ := List.mem_map.1 hb
        rfl
    · intro hn
      have hall : ¬ ∀ mc ∈ generatedColumns B (compiling B s), mc.type.supported = true :=
        fun h => hn ⟨hcur, h⟩
      obtain ⟨k1, k2, k3, k4, k5⟩ := hth hall
      exact ⟨⟨_, k1, Or.inl rfl⟩, k2, k3, k4, k5⟩
  · have hrun := compile_outside B s hst hcur
    refine ⟨compiling B s, by rw [hrun]; rfl, rfl, rfl, ?_, rfl, fun h => absurd h.1 hcur,
      fun _ => ⟨⟨_, hrun, Or.inr rfl⟩, ?_, ?_, rfl, rfl⟩⟩
    · simp [invoked, compiling]
    · exact List.count_cons_of_ne (by decide) _
    · exact List.count_cons_of_ne (by decide) _

/-- C13, counterexample: on the statement `unsupportedOver`, reachable by public
calls and in state Initialized, `compile ()` invokes `compileImpl ()` once, sets
the state to Compiled and throws the invalid-argument exception of
`makeExtractors`; neither `extractor ()` nor `binder ()` has been invoked, and the
registered binding has no binder attached: no fixup has run. -/
theorem compile_throws_before_fixup :
    Reachable rowBackend unsupportedOver ∧
    unsupportedOver._state = State.ST_INITIALIZED ∧
    (compile rowBackend unsupportedOver).exc? = some Exc.InvalidArgumentException ∧
    ((compile rowBackend unsupportedOver).stateOr unsupportedOver)._state
      = State.ST_COMPILED ∧
    invoked Prim.compileImpl ((compile rowBackend unsupportedOver).stateOr unsupportedOver)
      = 1 ∧
    invoked Prim.extractor ((compile rowBackend unsupportedOver).stateOr unsupportedOver)
      = 0 ∧
    invoked Prim.binder ((compile rowBackend unsupportedOver).stateOr unsupportedOver) = 0 ∧
    (((compile rowBackend unsupportedOver).stateOr unsupportedOver)._bindings.map
      fun b => b.hasBinder) = [false] :=
  ⟨applyCalls_reachable rowBackend _ _ (Reachable.new _ _), by decide!, by decide!, by decide!,
    by decide!, by decide!, by decide!, by decide!⟩

/-! ## The column counter after execute -/

theorem handledColumns_next (hB : KeepsColumns B) (s : StatementImpl β) (c : List Prim) :
    handledColumns
      { s with
        backend := (B.next s.backend (s._extractors.getD s._curDataSet [])).2.1
        _extractors := s._extractors.set s._curDataSet
          (B.next s.backend (s._extractors.getD s._curDataSet [])).2.2
        calls := c } = handledColumns s := by
  simp only [handledColumns, List.getD_eq_getElem?_getD, getD_set]
  by_cases h : s._curDataSet < s._extractors.length
  · simp only [h, and_self, if_true]
    have := hB s.backend (s._extractors.getD s._curDataSet [])
    simpa using this
  · simp [h]

theorem bind_handled (s : StatementImpl β) :
    (bind B s).sat False (fun _ t => handledColumns t = handledColumns s) (fun _ _ => False) := by
  rw [bind_run]
  repeat' split
  all_goals rfl

theorem extractLoopWithLimit_handled (hB : KeepsColumns B) (limit fuel count : Nat)
    (s : StatementImpl β) :
    (extractLoopWithLimit B limit fuel count s).sat True
      (fun _ t => handledColumns t = handledColumns s) (fun _ _ => False) := by
  induction fuel generalizing count s with
  | zero => simp [extractLoopWithLimit]
  | succ fuel ih =>
    by_cases h1 : count < limit
    · by_cases h2 : B.hasNext s.backend = true
      · simp only [extractLoopWithLimit, h1, if_true, hasNext, next, M.bind_apply, h2]
        refine Res.sat_mono (ih _ _) id (fun _ t h => h.trans ?_) (fun _ _ h => h)
        exact handledColumns_next B hB { s with calls := Prim.hasNext :: s.calls } _
      · simp only [extractLoopWithLimit, h1, if_true, hasNext, M.bind_apply, h2]
        rfl
    · simp only [extractLoopWithLimit, h1, if_false]
      rfl

theorem bindLoopWithLimit_handled (hB : KeepsColumns B) (limit fuel count : Nat)
    (s : StatementImpl β) :
    (bindLoopWithLimit B limit fuel count s).sat True
      (fun _ t => handledColumns t = handledColumns s) (fun _ _ => False) := by
  induction fuel generalizing count s with
  | zero => simp [bindLoopWithLimit]
  | succ fuel ih =>
    simp only [bindLoopWithLimit]
    refine sat_bind (Res.sat_mono (bind_handled B s) False.elim (fun _ _ h => h) (fun _ _ h => h))
      ?_ (fun _ _ h => h)
    intro _ s1 h1
    refine sat_bind (extractLoopWithLimit_handled B hB limit fuel count s1) ?_ (fun _ _ h => h)
    intro c s2 h2
    by_cases hc : c < limit
    · simp only [hc, if_true, canBind, M.bind_apply]
      by_cases hb : B.canBind s2.backend = true
      · simp only [hb, if_true]
        refine Res.sat_mono (ih _ _) id (fun _ t h => ?_) (fun _ _ h => h)
        rw [h, ← h1, ← h2]
        rfl
      · simp only [hb]
        show handledColumns _ = _
        rw [← h1, ← h2]
        rfl
    · simp only [hc, if_false]
      exact h2.trans h1

theorem extractLoopWithoutLimit_handled (hB : KeepsColumns B) (fuel count : Nat)
    (s : StatementImpl β) :
    (extractLoopWithoutLimit B fuel count s).sat True
      (fun _ t => handledColumns t = handledColumns s) (fun _ _ => False) := by
  induction fuel generalizing count s with
  | zero => simp [extractLoopWithoutLimit]
  | succ fuel ih =>
    by_cases h2 : B.hasNext s.backend = true
    · simp only [extractLoopWithoutLimit, hasNext, next, M.bind_apply, h2, if_true]
      refine Res.sat_mono (ih _ _) id (fun _ t h => h.trans ?_) (fun _ _ h => h)
      exact handledColumns_next B hB { s with calls := Prim.hasNext :: s.calls } _
    · simp only [extractLoopWithoutLimit, hasNext, M.bind_apply, h2]
      rfl

theorem bindLoopWithoutLimit_handled (hB : KeepsColumns B) (fuel count : Nat)
    (s : StatementImpl β) :
    (bindLoopWithoutLimit B fuel count s).sat True
      (fun _ t => handledColumns t = handledColumns s) (fun _ _ => False) := by
  induction fuel generalizing count s with
  | zero => simp [bindLoopWithoutLimit]
  | succ fuel ih =>
    simp only [bindLoopWithoutLimit]
    refine sat_bind (Res.sat_mono (bind_handled B s) False.elim (fun _ _ h => h) (fun _ _ h => h))
      ?_ (fun _ _ h => h)
    intro _ s1 h1
    refine sat_bind (extractLoopWithoutLimit_handled B hB fuel count s1) ?_ (fun _ _ h => h)
    intro c s2 h2
    simp only [canBind, M.bind_apply]
    by_cases hb : B.canBind s2.backend = true
    · simp only [hb, if_true]
      refine Res.sat_mono (ih _ _) id (fun _ t h => ?_) (fun _ _ h => h)
      rw [h, ← h1, ← h2]
      rfl
    · simp only [hb]
      show handledColumns _ = _
      rw [← h1, ← h2]
      rfl

theorem executeWithLimit_handled (hB : KeepsColumns B) (fuel : Nat) (s : StatementImpl β) :
    (executeWithLimit B fuel s).sat True
      (fun _ t => handledColumns t = handledColumns s ∧ Quiet s t) (fun _ _ => True) := by
  have hh : (executeWithLimit B fuel s).sat True
      (fun _ t => handledColumns t = handledColumns s) (fun _ _ => True) := ?_
  · exact Res.sat_mono (Res.sat_and (executeWithLimit_spec B fuel s) hh) (fun h => h.1)
      (fun _ t h => ⟨h.2, h.1⟩) (fun _ _ _ => trivial)
  by_cases hd : s._state = State.ST_DONE
  · simp [executeWithLimit, hd]
  · simp only [executeWithLimit, M.bind_apply, getS_run, ne_eq, hd, not_false_eq_true,
      decide_True, poco_assert_true]
    refine sat_bind (bindLoopWithLimit_handled B hB _ fuel 0 s) ?_ (fun _ _ h => h.elim)
    intro c s1 h1
    refine Res.sat_mono (finishWithLimit_spec B _ c s1) False.elim
      (fun _ t h => ?_) (fun _ _ _ => trivial)
    rw [← h1]
    simp only [handledColumns, h.2.2.1, h.1.frame.curDataSet]

theorem executeWithoutLimit_handled (hB : KeepsColumns B) (fuel : Nat) (s : StatementImpl β) :
    (executeWithoutLimit B fuel s).sat True
      (fun _ t => handledColumns t = handledColumns s ∧ Quiet s t) (fun _ _ => True) := by
  have hh : (executeWithoutLimit B fuel s).sat True
      (fun _ t => handledColumns t = handledColumns s) (fun _ _ => True) := ?_
  · exact Res.sat_mono (Res.sat_and (executeWithoutLimit_spec B fuel s) hh) (fun h => h.1)
      (fun _ t h => ⟨h.2, h.1⟩) (fun _ _ _ => trivial)
  by_cases hd : s._state = State.ST_DONE
  · simp [executeWithoutLimit, hd]
  · simp only [executeWithoutLimit, M.bind_apply, getS_run, ne_eq, hd, not_false_eq_true,
      decide_True, poco_assert_true]
    refine sat_bind (bindLoopWithoutLimit_handled B hB fuel 0 s) ?_ (fun _ _ h => h.elim)
    intro c s1 h1
    by_cases hc : c = 0
    · simp only [hc, ne_eq, not_true_eq_false, if_false, affectedRowCount]
      exact h1
    · simp only [ne_eq, hc, not_false_eq_true, if_true]
      exact h1

theorem compileLoop_single (hcc : ∀ b, B.canCompile b = false) (fuel lim : Nat)
    (s : StatementImpl β) :
    compileLoop B (fuel + 1) lim s =
      match compile B s with
      | Res.ok _ s1 =>
        match (if s1._extrLimit.value = LIMIT_UNLIMITED then executeWithoutLimit B fuel s1
          else executeWithLimit B fuel s1) with
        | Res.ok n s2 =>
          Res.ok ((lim + n) % UINT32_SIZE) { s2 with calls := Prim.canCompile :: s2.calls }
        | Res.throw e s2 => Res.throw e s2
        | Res.timeout => Res.timeout
      | Res.throw e s1 => Res.throw e s1
      | Res.timeout => Res.timeout := by
  simp only [compileLoop, M.bind_apply, getS_run]
  cases compile B s with
  | timeout => rfl
  | throw e s1 => rfl
  | ok u s1 =>
    simp only [ite_run]
    cases (if s1._extrLimit.value = LIMIT_UNLIMITED then executeWithoutLimit B fuel s1
      else executeWithLimit B fuel s1) with
    | timeout => rfl
    | throw e s2 => rfl
    | ok n s2 => simp [canCompile, hcc]

theorem execute_ok_inv (fuel v : Nat) (s t : StatementImpl β)
    (hrun : execute B fuel s = Res.ok v t) :
    s._curDataSet < s._extractors.length ∧ s._curDataSet < s._columnsExtracted.length
      ∧ s._lowerLimit ≤ s._extrLimit.value := by
  have := execute_spec B fuel s
  rw [hrun] at this
  exact ⟨this.2.1, this.2.2.1, this.2.2.2.1⟩

theorem execute_single_ok (hcc : ∀ b, B.canCompile b = false) (fuel v : Nat)
    (s t : StatementImpl β) (hrun : execute B fuel s = Res.ok v t) :
    ∃ f s1 n s2, fuel = f + 1 ∧ compile B (afterReset s) = Res.ok () s1
      ∧ (if s1._extrLimit.value = LIMIT_UNLIMITED then executeWithoutLimit B f s1
          else executeWithLimit B f s1) = Res.ok n s2
      ∧ v = n % UINT32_SIZE
      ∧ ∃ st, t = { s2 with _state := st, calls := Prim.canCompile :: s2.calls }
          ∧ (st = s2._state ∨ st = State.ST_DONE) := by
  obtain ⟨h1, h2, h3⟩ := execute_ok_inv B fuel v s t hrun
  rw [execute_run B fuel s h1 h2 h3] at hrun
  cases fuel with
  | zero => simp [compileLoop] at hrun
  | succ f =>
    rw [compileLoop_single B hcc] at hrun
    cases hc : compile B (afterReset s) with
    | timeout => simp [hc] at hrun
    | throw e s1 => simp [hc] at hrun
    | ok u s1 =>
      simp only [hc] at hrun
      cases hx : (if s1._extrLimit.value = LIMIT_UNLIMITED then executeWithoutLimit B f s1
          else executeWithLimit B f s1) with
      | timeout => simp [hx] at hrun
      | throw e s2 => simp [hx] at hrun
      | ok n s2 =>
        simp only [hx] at hrun
        refine ⟨f, s1, n, s2, rfl, rfl, hx, ?_⟩
        simp only [Nat.zero_add] at hrun
        by_cases hu : s2._extrLimit.value = LIMIT_UNLIMITED
        · by_cases hl : n % UINT32_SIZE < s2._lowerLimit
          · simp [hu, hl] at hrun
          · simp only [hu, if_true, hl, if_false, Res.ok.injEq] at hrun
            exact ⟨hrun.1.symm, State.ST_DONE, hrun.2.symm, Or.inr rfl⟩
        · by_cases hl : n % UINT32_SIZE < s2._lowerLimit
          · simp [hu, hl] at hrun
          · simp only [hu, if_false, hl, Res.ok.injEq] at hrun
            exact ⟨hrun.1.symm, s2._state, by rw [← hrun.2], Or.inl rfl⟩

theorem columnsExtracted_current (s : StatementImpl β)
    (h : s._curDataSet < s._columnsExtracted.length) :
    columnsExtracted USE_CURRENT_DATA_SET s =
      Res.ok (s._columnsExtracted.getD s._curDataSet 0) s := by
  have hpos : 0 < s._columnsExtracted.length := by omega
  have hne : ¬ s._columnsExtracted = [] := by
    intro hnil
    rw [hnil] at hpos
    exact absurd hpos (by decide)
  simp [columnsExtracted, hpos, hne, h, ite_run]

theorem rowBackend_keepsColumns : KeepsColumns rowBackend := by
  intro b es
  simp [rowBackend, Extraction.extract, Function.comp_def]

theorem extractLoopWithLimit_rows {rows : β → Nat} (hB : RowYielding B rows)
    (limit fuel count : Nat) (s : StatementImpl β) (hc : count ≤ limit)
    (hl : limit < UINT32_SIZE) (hfuel : min (limit - count) (rows s.backend) < fuel) :
    ∃ t, extractLoopWithLimit B limit fuel count s =
        Res.ok (count + min (limit - count) (rows s.backend)) t
      ∧ rows t.backend = rows s.backend - min (limit - count) (rows s.backend)
      ∧ t._state = s._state := by
  induction fuel generalizing count s with
  | zero => omega
  | succ fuel ih =>
    by_cases h1 : count < limit
    · by_cases h2 : 0 < rows s.backend
      · have hmod : (count + 1) % UINT32_SIZE = count + 1 := Nat.mod_eq_of_lt (by omega)
        have hn : B.hasNext s.backend = true := by rw [hB.hasNext_iff]; simpa using h2
        obtain ⟨t, ht, hb, hs⟩ := ih (count + 1)
          { s with
            backend := (B.next s.backend (s._extractors.getD s._curDataSet [])).2.1
            _extractors := s._extractors.set s._curDataSet
              (B.next s.backend (s._extractors.getD s._curDataSet [])).2.2
            calls := Prim.next :: Prim.hasNext :: s.calls }
          (by omega) (by simp only [hB.next_rows]; omega)
        simp only [hB.next_rows] at ht hb hs
        have hv : count + 1 + min (limit - (count + 1)) (rows s.backend - 1) =
            count + min (limit - count) (rows s.backend) := by omega
        rw [hv] at ht
        refine ⟨t, ?_, ?_, hs⟩
        · simp only [extractLoopWithLimit, h1, if_true, hasNext, next, M.bind_apply, hn,
            hB.next_one, hmod]
          exact ht
        · rw [hb]
          omega
      · have h0 : rows s.backend = 0 := by omega
        have hn : B.hasNext s.backend = false := by rw [hB.hasNext_iff]; simp [h0]
        refine ⟨{ s with calls := Prim.hasNext :: s.calls }, ?_, ?_, rfl⟩
        · simp [extractLoopWithLimit, h1, hasNext, hn, h0]
        · simp [h0]
    · have h0 : limit - count = 0 := by omega
      refine ⟨s, ?_, ?_, rfl⟩
      · simp [extractLoopWithLimit, h1, h0]
      · simp [h0]

theorem bindLoopWithLimit_rows {rows : β → Nat} (hB : RowYielding B rows)
    (limit fuel : Nat) (s : StatementImpl β)
    (hst : s._state = State.ST_COMPILED ∨ s._state = State.ST_PAUSED)
    (hl : limit < UINT32_SIZE) (hfuel : min limit (rows s.backend) < fuel) :
    ∃ t, bindLoopWithLimit B limit (fuel + 1) 0 s =
        Res.ok (min limit (rows s.backend)) t
      ∧ rows t.backend = rows s.backend - min limit (rows s.backend) := by
  obtain ⟨s1, hs1, hr1⟩ : ∃ s1, bind B s = Res.ok () s1 ∧ rows s1.backend = rows s.backend := by
    rcases hst with h | h
    · exact ⟨_, by rw [bind_run, if_pos h], hB.bind_rows _ _⟩
    · exact ⟨s, by rw [bind_run, if_neg (by rw [h]; decide), if_neg (by rw [h]; decide)], rfl⟩
  obtain ⟨t, ht, hb, -⟩ := extractLoopWithLimit_rows B hB limit fuel 0 s1 (by omega) hl
    (by rw [hr1]; simpa using hfuel)
  simp only [Nat.sub_zero, Nat.zero_add, hr1] at ht hb
  by_cases hlt : min limit (rows s.backend) < limit
  · refine ⟨{ t with calls := Prim.canBind :: t.calls }, ?_, hb⟩
    simp only [bindLoopWithLimit, M.bind_apply, hs1, ht, hlt, if_true, canBind,
      hB.canBind_false, Bool.false_eq_true, if_false, M.pure_apply]
  · refine ⟨t, ?_, hb⟩
    simp only [bindLoopWithLimit, M.bind_apply, hs1, ht, hlt, if_false, M.pure_apply]

theorem executeWithLimit_page {rows : β → Nat} (hB : RowYielding B rows)
    (limit fuel : Nat) (s : StatementImpl β)
    (hst : s._state = State.ST_COMPILED ∨ s._state = State.ST_PAUSED)
    (hl : 0 < limit) (hlu : limit < UINT32_SIZE) (hlimit : s._extrLimit.value = limit)
    (hsoft : s._extrLimit.isHardLimit = false)
    (hrows : 0 < rows s.backend) (hfuel : min limit (rows s.backend) < fuel) :
    ∃ t, executeWithLimit B (fuel + 1) s = Res.ok (min limit (rows s.backend)) t
      ∧ t._state = (if rows s.backend ≤ limit then State.ST_DONE else State.ST_PAUSED)
      ∧ rows t.backend = rows s.backend - min limit (rows s.backend) ∧ Quiet s t := by
  obtain ⟨t1, hloop, hb1⟩ := bindLoopWithLimit_rows B hB limit fuel s hst hlu hfuel
  have hq1 : Quiet s t1 := by
    have := bindLoopWithLimit_quiet B limit (fuel + 1) 0 s
    rw [hloop] at this
    exact this
  have hnd : s._state ≠ State.ST_DONE := by
    rcases hst with h | h <;> rw [h] <;> decide
  have hrun : executeWithLimit B (fuel + 1) s =
      finishWithLimit B limit (min limit (rows s.backend)) t1 := by
    simp only [executeWithLimit, M.bind_apply, getS_run, hnd, ne_eq,
      not_false_eq_true, decide_True, poco_assert_true, hlimit, hloop]
  have hspec := finishWithLimit_spec B limit (min limit (rows s.backend)) t1
  have hsoft1 : t1._extrLimit.isHardLimit = false := by rw [hq1.frame.extrLimit]; exact hsoft
  rw [hrun]
  cases hr : finishWithLimit B limit (min limit (rows s.backend)) t1 with
  | timeout => rw [hr] at hspec; exact hspec.elim
  | throw e t =>
    rw [hr] at hspec
    have := hspec.2.2.2.2.2.2.2.2
    rw [hsoft1] at this
    exact absurd this (by decide)
  | ok v t =>
    rw [hr] at hspec
    obtain ⟨hq, hb, -, hv, hcase⟩ := hspec
    have hv2 : v = min limit (rows s.backend) := by
      rw [hv, if_pos (by omega)]
    subst hv2
    refine ⟨t, rfl, ?_, by rw [hb, hb1], hq1.quietTrans hq⟩
    by_cases hfit : rows s.backend ≤ limit
    · rw [if_pos hfit]
      have hn : B.hasNext t1.backend = false := by
        rw [hB.hasNext_iff, hb1]
        simp only [decide_eq_false_iff_not]
        omega
      rcases hcase with ⟨-, -, hd⟩ | ⟨hne, -⟩
      · exact hd
      · exact absurd ⟨hB.canBind_false _, Or.inl hn⟩ hne
    · rw [if_neg hfit]
      have hn : B.hasNext t1.backend = true := by
        rw [hB.hasNext_iff, hb1]
        simp only [decide_eq_true_eq]
        omega
      rcases hcase with ⟨-, hd, -⟩ | ⟨-, -, hp⟩
      · rcases hd with hd | hd
        · rw [hn] at hd
          exact absurd hd (by decide)
        · omega
      · exact hp

theorem generatedColumns_afterReset (s : StatementImpl β) :
    generatedColumns B (compiling B (afterReset s)) = generatedColumns B (compiling B s) := by
  have hlen : ((afterReset s)._extractors.getD s._curDataSet []).length =
      (s._extractors.getD s._curDataSet []).length := by
    simp only [afterReset, List.getD_eq_getElem?_getD, getD_set]
    by_cases h : s._curDataSet < s._extractors.length
    · simp [h]
    · simp [h]
  have hb : (afterReset s).backend = s.backend := rfl
  have hc : (afterReset s)._curDataSet = s._curDataSet := rfl
  simp only [generatedColumns, compiling, hb, hc, hlen]

theorem execute_page {rows : β → Nat} (hB : RowYielding B rows) (L r fuel : Nat)
    (s : StatementImpl β) (hlim : s._extrLimit.value = L)
    (hsoft : s._extrLimit.isHardLimit = false) (hlow : s._lowerLimit = 0)
    (hL : 0 < L) (hLu : L < LIMIT_UNLIMITED) (hr : 0 < r)
    (h1 : s._curDataSet < s._extractors.length)
    (h2 : s._curDataSet < s._columnsExtracted.length)
    (hs : (s._state = State.ST_PAUSED ∧ rows s.backend = r)
      ∨ (s._state = State.ST_INITIALIZED ∧ rows (B.compileImpl s.backend) = r
          ∧ ∀ mc ∈ generatedColumns B (compiling B s), mc.type.supported = true))
    (hfuel : min L r + 3 ≤ fuel) :
    ∃ t, execute B fuel s = Res.ok (min L r) t
      ∧ t._state = (if r ≤ L then State.ST_DONE else State.ST_PAUSED)
      ∧ rows t.backend = r - min L r ∧ Frame s t := by
  obtain ⟨f, hf⟩ : ∃ f, fuel = f + 2 := ⟨fuel - 2, by omega⟩
  subst hf
  have hLs : L < UINT32_SIZE := by
    simp only [LIMIT_UNLIMITED, UINT32_SIZE] at hLu ⊢
    omega
  have hne : ¬ L = LIMIT_UNLIMITED := by omega
  obtain ⟨s1, hcomp, hst1, hr1, hf1⟩ : ∃ s1, compile B (afterReset s) = Res.ok () s1
      ∧ (s1._state = State.ST_COMPILED ∨ s1._state = State.ST_PAUSED)
      ∧ rows s1.backend = r ∧ Frame (afterReset s) s1 := by
    rcases hs with ⟨hp, hrow⟩ | ⟨hi, hrow, hgen⟩
    · exact ⟨afterReset s, compile_noop B _ (by
          intro h
          have hp2 : (afterReset s)._state = State.ST_PAUSED := hp
          rw [hp2] at h
          revert h
          decide),
        Or.inr hp, hrow, Frame.refl _⟩
    · obtain ⟨t1, -, k2, k3, -, k5, hok, -⟩ := compile_fresh B (afterReset s) (Or.inl hi)
        (by simpa [afterReset] using h1)
      rw [generatedColumns_afterReset] at hok
      exact ⟨t1, (hok hgen).1, Or.inl k2, by rw [k3]; exact hrow, k5⟩
  have hfs1 : Frame s s1 := (afterReset_frame s).trans hf1
  have hlim1 : s1._extrLimit.value = L := by rw [hfs1.extrLimit]; exact hlim
  obtain ⟨t2, hexec, hst2, hr2, hq2⟩ := executeWithLimit_page B hB L f s1 hst1 hL hLs hlim1
    (by rw [hfs1.extrLimit]; exact hsoft) (by rw [hr1]; exact hr) (by rw [hr1]; omega)
  rw [hr1] at hexec hst2 hr2
  have hmod : (0 + min L r) % UINT32_SIZE = min L r := by
    rw [Nat.zero_add]
    exact Nat.mod_eq_of_lt (by omega)
  have hft : Frame s { t2 with calls := Prim.canCompile :: t2.calls } :=
    (hfs1.trans hq2.frame).trans
      ⟨rfl, rfl, rfl, rfl, rfl, rfl, rfl, le_rfl, le_rfl, le_max_left _ _, le_max_left _ _⟩
  have hlimt : ¬ t2._extrLimit.value = LIMIT_UNLIMITED := by
    have := hft.extrLimit
    simp only at this
    rw [this, hlim]
    exact hne
  have hlowt : t2._lowerLimit = 0 := by
    have := hft.lowerLimit
    simp only at this
    rw [this, hlow]
  refine ⟨{ t2 with calls := Prim.canCompile :: t2.calls }, ?_, hst2, hr2, hft⟩
  rw [execute_run B _ s h1 h2 (by rw [hlow]; omega), compileLoop_single B hB.canCompile_false]
  simp only [hcomp, hlim1, hne, if_false, hexec, hmod, hlimt, hlowt, Nat.not_lt_zero]

theorem executeUntilDone_pages {rows : β → Nat} (hB : RowYielding B rows) (L fuel : Nat)
    (hL : 0 < L) (hLu : L < LIMIT_UNLIMITED) (hfuel : L + 3 ≤ fuel)
    (n r : Nat) (s : StatementImpl β) (hlim : s._extrLimit.value = L)
    (hsoft : s._extrLimit.isHardLimit = false) (hlow : s._lowerLimit = 0) (hr : 0 < r)
    (h1 : s._curDataSet < s._extractors.length)
    (h2 : s._curDataSet < s._columnsExtracted.length)
    (hs : (s._state = State.ST_PAUSED ∧ rows s.backend = r)
      ∨ (s._state = State.ST_INITIALIZED ∧ rows (B.compileImpl s.backend) = r
          ∧ ∀ mc ∈ generatedColumns B (compiling B s), mc.type.supported = true))
    (hn : (r - 1) / L + 1 ≤ n) :
    executeUntilDone B fuel n s =
      some (List.replicate ((r - 1) / L) (L, State.ST_PAUSED)
        ++ [(r - (r - 1) / L * L, State.ST_DONE)]) := by
  induction n generalizing r s with
  | zero => exact absurd hn (Nat.not_succ_le_zero _)
  | succ n ih =>
    obtain ⟨t, hex, hst, hrw, hfr⟩ := execute_page B hB L r fuel s hlim hsoft hlow hL hLu hr
      h1 h2 hs (by have : min L r ≤ L := Nat.min_le_left _ _; omega)
    by_cases hfit : r ≤ L
    · rw [if_pos hfit] at hst
      have hq : (r - 1) / L = 0 := Nat.div_eq_of_lt (by omega)
      have hm : min L r = r := by omega
      simp [executeUntilDone, hex, hst, hq, hm]
    · rw [if_neg hfit] at hst
      have hm : min L r = L := by omega
      have hq : (r - 1) / L = (r - L - 1) / L + 1 := by
        have : r - 1 = (r - L - 1) + L := by omega
        rw [this, Nat.add_div_right _ hL]
      have hlast : r - ((r - L - 1) / L + 1) * L = r - L - (r - L - 1) / L * L := by
        rw [Nat.succ_mul]
        omega
      have := ih (r - L) t (by rw [hfr.extrLimit]; exact hlim) (by rw [hfr.extrLimit]; exact hsoft)
        (by rw [hfr.lowerLimit]; exact hlow) (by omega)
        (by have a := hfr.curDataSet; have b := hfr.extractors; omega)
        (by have a := hfr.curDataSet; have b := hfr.columnsExtracted; omega)
        (Or.inl ⟨hst, by rw [hrw, hm]⟩) (by omega)
      simp only [executeUntilDone, hex, hst, reduceCtorEq, if_false, this, Option.map_some',
        hm, hq, hlast, List.replicate_succ, List.cons_append]

theorem rowBackend_rowYielding : RowYielding rowBackend (fun b => b.remaining) where
  canBind_false := fun _ => rfl
  canCompile_false := fun _ => rfl
  hasNext_iff := fun _ => rfl
  next_one := fun _ _ => rfl
  next_rows := fun _ _ => rfl
  bind_rows := fun _ _ => rfl

/-- C18 (amended): paging under a soft limit loses and duplicates no rows. For a
statement in state Initialized with a soft upper limit `L > 0` (a row count, not
the unlimited sentinel) and lower limit 0, whose cursor is within the registry and
the counter sequence, over a single-fragment backend without further bind batches
that yields `R > 0` rows one per `next ()`, and for which `compile ()` has no
default extraction to generate for a column of unsupported type: repeated
`execute ()` calls until the state is Done never fail; there are
`(R - 1) / L + 1` of them; every call before the last returns exactly `L` and
leaves the state Paused, the last returns the rest and leaves the state Done; each
call returns at most `L`, and the returned counts sum to `R`. -/
theorem soft_limit_paging {rows : β → Nat} (hB : RowYielding B rows) (R L fuel n : Nat)
    (s : StatementImpl β) (hst : s._state = State.ST_INITIALIZED)
    (hlim : s._extrLimit.value = L) (hsoft : s._extrLimit.isHardLimit = false)
    (hlow : s._lowerLimit = 0) (hL : 0 < L) (hLu : L < LIMIT_UNLIMITED) (hR : 0 < R)
    (hrows : rows (B.compileImpl s.backend) = R)
    (h1 : s._curDataSet < s._extractors.length)
    (h2 : s._curDataSet < s._columnsExtracted.length)
    (hgen : ∀ mc ∈ generatedColumns B (compiling B s), mc.type.supported = true)
    (hfuel : L + 3 ≤ fuel) (hn : (R - 1) / L + 1 ≤ n) :
    ∃ l, executeUntilDone B fuel n s = some l
      ∧ l = List.replicate ((R - 1) / L) (L, State.ST_PAUSED)
          ++ [(R - (R - 1) / L * L, State.ST_DONE)]
      ∧ (∀ p ∈ l, p.1 ≤ L)
      ∧ (l.map Prod.fst).sum = R := by
  have hq1 : (R - 1) / L * L ≤ R - 1 := Nat.div_mul_le_self _ _
  have hq2 : R - 1 < ((R - 1) / L + 1) * L :=
    (Nat.div_lt_iff_lt_mul hL).1 (Nat.lt_succ_self _)
  rw [Nat.succ_mul] at hq2
  refine ⟨_, executeUntilDone_pages B hB L fuel hL hLu hfuel n R s hlim hsoft hlow hR h1 h2
    (Or.inr ⟨hst, hrows, hgen⟩) hn, rfl, ?_, ?_⟩
  · intro p hp
    rcases List.mem_append.1 hp with h | h
    · rw [(List.mem_replicate.1 h).2]
    · rw [List.mem_singleton.1 h]
      show R - (R - 1) / L * L ≤ L
      omega
  · simp only [List.map_append, List.map_replicate, List.map_cons, List.map_nil,
      List.sum_append, List.sum_replicate, List.sum_cons, List.sum_nil, smul_eq_mul]
    omega

/-- C18, over ten rows with the soft limit 4 and one `FDT_INT32` column: three
`execute ()` calls return 4, 4, 2 and leave the states Paused, Paused, Done. -/
theorem soft_limit_paging_witness :
    (limitedOver 10 4 false)._state = State.ST_INITIALIZED ∧
    (limitedOver 10 4 false)._extrLimit = ⟨4, false, false⟩ ∧
    (limitedOver 10 4 false)._lowerLimit = 0 ∧
    executeUntilDone rowBackend 20 5 (limitedOver 10 4 false) =
      some [(4, State.ST_PAUSED), (4, State.ST_PAUSED), (2, State.ST_DONE)] := by
  refine ⟨rfl, rfl, rfl, ?_⟩
  obtain ⟨l, h1, h2, -⟩ := soft_limit_paging rowBackend rowBackend_rowYielding 10 4 20 5
    (limitedOver 10 4 false) rfl rfl rfl rfl (by decide) (by decide!) (by decide) rfl
    (by decide!) (by decide!) (by decide!) (by decide) (by decide)
  rw [h1, h2]
  decide

/-- C18, counterexample: the statement `unsupportedLimitedOver`, reachable by
public calls, is in state Initialized with the soft upper limit 4 and lower limit
0, over the row source (single fragment, no further bind batches) yielding 3
rows; its first `execute ()` throws the invalid-argument exception of
`makeExtractors`, so the `execute ()` calls do fail. -/
theorem soft_limit_paging_fails_on_unsupported_type :
    Reachable rowBackend unsupportedLimitedOver ∧
    unsupportedLimitedOver._state = State.ST_INITIALIZED ∧
    unsupportedLimitedOver._extrLimit = ⟨4, false, false⟩ ∧
    unsupportedLimitedOver._lowerLimit = 0 ∧
    (rowBackend.compileImpl unsupportedLimitedOver.backend).remaining = 3 ∧
    (execute rowBackend 20 unsupportedLimitedOver).exc? = some Exc.InvalidArgumentException ∧
    executeUntilDone rowBackend 20 5 unsupportedLimitedOver = none :=
  ⟨applyCalls_reachable rowBackend _ _ (Reachable.new _ _), by decide!, by decide!, by decide!,
    by decide!, by decide!, by decide!⟩

/-! ## The cursor and the counter sequence -/

theorem makeExtractorsLoop_counters (n i : Nat) (s t : StatementImpl β)
    (h : (makeExtractorsLoop B n i s).state? = some t) :
    t._columnsExtracted = s._columnsExtracted ∧ t._curDataSet = s._curDataSet := by
  induction n generalizing i s with
  | zero =>
    simp only [makeExtractorsLoop, M.pure_apply, Res.state?, Option.some.injEq] at h
    rw [h]
    exact ⟨rfl, rfl⟩
  | succ n ih =>
    by_cases hs : (B.metaColumn s.backend i).type.supported = true
    · have hrun : makeExtractorsLoop B (n + 1) i s = makeExtractorsLoop B n (i + 1)
          { s with _extractors := (registerAt s._extractors s._curDataSet
                    (internalExtraction s._curDataSet s._rSession (B.metaColumn s.backend i)))
                   calls := Prim.metaColumn :: s.calls } := by
        simp [makeExtractorsLoop, metaColumnAt, hs, addInternalExtract_run]
      rw [hrun] at h
      have hh := ih _ _ h
      exact hh
    · have hrun : makeExtractorsLoop B (n + 1) i s =
          Res.throw Exc.InvalidArgumentException { s with calls := Prim.metaColumn :: s.calls } := by
        simp [makeExtractorsLoop, metaColumnAt, hs]
      rw [hrun] at h
      simp only [Res.state?, Option.some.injEq] at h
      rw [← h]
      exact ⟨rfl, rfl⟩

theorem metaColumnLoop_counters (name : String) (n i : Nat) (s : StatementImpl β) :
    (metaColumnLoop B name n i s).sat False
      (fun _ t => t._columnsExtracted = s._columnsExtracted ∧ t._curDataSet = s._curDataSet)
      (fun _ t => t._columnsExtracted = s._columnsExtracted ∧ t._curDataSet = s._curDataSet) := by
  induction n generalizing i s with
  | zero => simp [metaColumnLoop]
  | succ n ih =>
    by_cases h : 0 = icompare (B.metaColumn s.backend i).name name
    · simp [metaColumnLoop, metaColumnAt, h]
    · simp only [metaColumnLoop, metaColumnAt, M.bind_apply, h, if_false]
      exact ih _ _

theorem runCall_counters (c : Call) (s t : StatementImpl β) (h : runCall B c s = some t)
    (hc : c ≠ Call.activateNextDataSet) : CursorKept s t := by
  have hframe : ∀ u, Frame s u → CursorKept s u :=
    fun _ hf => ⟨hf.columnsExtracted, le_of_eq hf.curDataSet⟩
  cases c with
  | addExtract e =>
    simp only [runCall, addExtract_run, Res.state?, Option.some.injEq] at h
    subst h
    exact ⟨le_rfl, le_rfl⟩
  | addBinding b =>
    simp only [runCall, addBinding, modifyS_run, Res.state?, Option.some.injEq] at h
    subst h
    exact ⟨le_rfl, le_rfl⟩
  | removeBind name =>
    by_cases hf : (removeBindLoop name s._bindings false).2 = true <;>
      simp [runCall, removeBind, hf, Res.state?] at h <;>
      subst h <;> exact ⟨le_rfl, le_rfl⟩
  | compile =>
    exact Res.sat_state (compile_spec B s) h (fun _ u hq => hframe u hq.1)
      (fun _ u he => hframe u he.1)
  | bind =>
    exact Res.sat_state (bind_quiet B s) h (fun _ u hq => hframe u hq.frame)
      (fun _ _ he => he.elim)
  | execute fuel =>
    exact Res.sat_state (execute_spec B fuel s) h (fun _ u hq => hframe u hq.1)
      (fun _ u he => hframe u he.1)
  | reset =>
    exact Res.sat_state (reset_frame s) h (fun _ u hq => hframe u hq) (fun _ u he => hframe u he)
  | setExtractionLimit l =>
    by_cases hl : l.isLowerLimit = true <;>
      simp [runCall, setExtractionLimit, hl, Res.state?] at h <;>
      subst h <;> exact ⟨le_rfl, le_rfl⟩
  | setBulkExtraction b =>
    by_cases hc : LIMIT_UNLIMITED ≠ s._extrLimit.value ∧ b.size ≠ s._extrLimit.value
    · simp [runCall, setBulkExtraction, getExtractionLimit, hc, Res.state?] at h
      subst h
      exact ⟨le_rfl, le_rfl⟩
    · by_cases hl : b.limit.isLowerLimit = true <;>
        simp [runCall, setBulkExtraction, getExtractionLimit, hc, setExtractionLimit, hl,
          ite_run, Res.state?] at h <;>
        subst h <;> exact ⟨le_rfl, le_rfl⟩
  | setStorage storage =>
    simp only [runCall, setStorage] at h
    split at h
    · simp only [modifyS_run, Res.state?, Option.some.injEq] at h
      subst h; exact ⟨le_rfl, le_rfl⟩
    · split at h
      · simp only [modifyS_run, Res.state?, Option.some.injEq] at h
        subst h; exact ⟨le_rfl, le_rfl⟩
      · split at h
        · simp only [modifyS_run, Res.state?, Option.some.injEq] at h
          subst h; exact ⟨le_rfl, le_rfl⟩
        · split at h
          · simp only [modifyS_run, Res.state?, Option.some.injEq] at h
            subst h; exact ⟨le_rfl, le_rfl⟩
          · simp only [throwE_run, Res.state?, Option.some.injEq] at h
            subst h; exact ⟨le_rfl, le_rfl⟩
  | makeExtractors count =>
    simp only [runCall, makeExtractors] at h
    obtain ⟨h1, h2⟩ := makeExtractorsLoop_counters B count 0 s t h
    exact ⟨le_of_eq (by rw [h1]), le_of_eq h2⟩
  | metaColumn name =>
    simp only [runCall, metaColumn, M.bind_apply, columnsReturned] at h
    exact Res.sat_state (metaColumnLoop_counters B name _ 0 _) h
      (fun _ u hq => ⟨le_of_eq (by rw [hq.1]), le_of_eq hq.2⟩)
      (fun _ u he => ⟨le_of_eq (by rw [he.1]), le_of_eq he.2⟩)
  | activateNextDataSet => exact absurd rfl hc
  | activatePreviousDataSet =>
    simp only [runCall, activatePreviousDataSet_run] at h
    split at h <;> simp only [Res.state?, Option.some.injEq] at h <;>
      subst h
    · exact ⟨le_rfl, Nat.sub_le _ _⟩
    · exact ⟨le_rfl, le_rfl⟩
  | columnsExtracted d =>
    simp only [runCall, columnsExtracted_state, Option.some.injEq] at h
    subst h; exact ⟨le_rfl, le_rfl⟩
  | rowsExtracted d =>
    simp only [runCall, rowsExtracted_state, Option.some.injEq] at h
    subst h; exact ⟨le_rfl, le_rfl⟩

theorem executeWithLimit_hard {rows : β → Nat} (hB : RowYielding B rows)
    (limit fuel : Nat) (s : StatementImpl β)
    (hst : s._state = State.ST_COMPILED ∨ s._state = State.ST_PAUSED)
    (hl : 0 < limit) (hlu : limit < UINT32_SIZE) (hlimit : s._extrLimit.value = limit)
    (hhard : s._extrLimit.isHardLimit = true)
    (hrows : 0 < rows s.backend) (hfuel : min limit (rows s.backend) < fuel) :
    (rows s.backend ≤ limit →
      ∃ t, executeWithLimit B (fuel + 1) s = Res.ok (rows s.backend) t
        ∧ t._state = State.ST_DONE ∧ rows t.backend = 0 ∧ Quiet s t) ∧
    (limit < rows s.backend →
      ∃ t, executeWithLimit B (fuel + 1) s = Res.throw Exc.HardLimitReached t
        ∧ rows t.backend = rows s.backend - limit ∧ Quiet s t) := by
  obtain ⟨t1, hloop, hb1⟩ := bindLoopWithLimit_rows B hB limit fuel s hst hlu hfuel
  have hq1 : Quiet s t1 := by
    have := bindLoopWithLimit_quiet B limit (fuel + 1) 0 s
    rw [hloop] at this
    exact this
  have hnd : s._state ≠ State.ST_DONE := by
    rcases hst with h | h <;> rw [h] <;> decide
  have hrun : executeWithLimit B (fuel + 1) s =
      finishWithLimit B limit (min limit (rows s.backend)) t1 := by
    simp only [executeWithLimit, M.bind_apply, getS_run, hnd, ne_eq,
      not_false_eq_true, decide_True, poco_assert_true, hlimit, hloop]
  have hspec := finishWithLimit_spec B limit (min limit (rows s.backend)) t1
  constructor
  · intro hfit
    have hmin : min limit (rows s.backend) = rows s.backend := by omega
    rw [hmin] at hrun hspec hb1
    have hn : B.hasNext t1.backend = false := by
      rw [hB.hasNext_iff, hb1]
      simp
    rw [hrun]
    cases hr : finishWithLimit B limit (rows s.backend) t1 with
    | timeout => rw [hr] at hspec; exact hspec.elim
    | throw e t =>
      rw [hr] at hspec
      exact absurd ⟨hB.canBind_false _, Or.inl hn⟩ hspec.2.2.2.2.2.1
    | ok v t =>
      rw [hr] at hspec
      obtain ⟨hq, hb, -, hv, ⟨-, -, hd⟩ | ⟨hne, -⟩⟩ := hspec
      · have hv2 : v = rows s.backend := by
          rw [hv, if_pos (by omega)]
        subst hv2
        exact ⟨t, rfl, hd, by rw [hb, hb1]; omega, hq1.quietTrans hq⟩
      · exact absurd ⟨hB.canBind_false _, Or.inl hn⟩ hne
  · intro hmore
    have hmin : min limit (rows s.backend) = limit := by omega
    rw [hmin] at hrun hb1
    have hn : B.hasNext t1.backend = true := by
      rw [hB.hasNext_iff, hb1]
      simp only [decide_eq_true_eq]
      omega
    have hspec2 := finishWithLimit_spec B limit limit t1
    cases hr : finishWithLimit B limit limit t1 with
    | timeout => rw [hr] at hspec2; exact hspec2.elim
    | ok v t =>
      rw [hr] at hspec2
      obtain ⟨-, -, -, -, ⟨-, hd, -⟩ | ⟨-, hp, -⟩⟩ := hspec2
      · rcases hd with hd | hd
        · rw [hn] at hd
          exact absurd hd (by decide)
        · omega
      · exact absurd ⟨hn, rfl, by rw [hq1.frame.extrLimit]; exact hhard⟩ hp
    | throw e t =>
      rw [hr] at hspec2
      obtain ⟨he, hq, hb, -⟩ := hspec2
      subst he
      exact ⟨t, by rw [hrun, hr], by rw [hb, hb1], hq1.quietTrans hq⟩

theorem execute_first_compile {rows : β → Nat} (R : Nat) (s : StatementImpl β)
    (hst : s._state = State.ST_INITIALIZED)
    (hrows : rows (B.compileImpl s.backend) = R)
    (h1 : s._curDataSet < s._extractors.length)
    (hgen : ∀ mc ∈ generatedColumns B (compiling B s), mc.type.supported = true) :
    ∃ s1, compile B (afterReset s) = Res.ok () s1 ∧ s1._state = State.ST_COMPILED
      ∧ rows s1.backend = R ∧ Frame s s1 := by
  obtain ⟨t1, -, k2, k3, -, k5, hok, -⟩ := compile_fresh B (afterReset s) (Or.inl hst)
    (by simpa [afterReset] using h1)
  rw [generatedColumns_afterReset] at hok
  exact ⟨t1, (hok hgen).1, k2, by rw [k3]; exact hrows, (afterReset_frame s).trans k5⟩

/-- C1 (amended). Under a hard upper limit `L > 0` (a row count, not the unlimited
sentinel) with lower limit 0, for a statement in state Initialized whose cursor is
within the registry and the counter sequence, over a single-fragment backend
without further bind batches that yields `R > 0` rows, one per `next ()`, and for
which `compile ()` has no default extraction to generate for a column of
unsupported type: if `R <= L`, one `execute` returns `R`, fetches every row and
leaves the state Done; if `R > L`, the first `execute` fetches exactly `L` rows
and throws the hard-limit `LimitException` (there is no paging under a hard
limit). -/
theorem hard_limit_fits_or_throws {rows : β → Nat} (hB : RowYielding B rows)
    (R L fuel : Nat) (s : StatementImpl β) (hst : s._state = State.ST_INITIALIZED)
    (hlim : s._extrLimit.value = L) (hhard : s._extrLimit.isHardLimit = true)
    (hlow : s._lowerLimit = 0) (hL : 0 < L) (hLu : L < LIMIT_UNLIMITED) (hR : 0 < R)
    (hrows : rows (B.compileImpl s.backend) = R)
    (h1 : s._curDataSet < s._extractors.length)
    (h2 : s._curDataSet < s._columnsExtracted.length)
    (hgen : ∀ mc ∈ generatedColumns B (compiling B s), mc.type.supported = true)
    (hfuel : min L R + 3 ≤ fuel) :
    (R ≤ L → ∃ t, execute B fuel s = Res.ok R t
      ∧ t._state = State.ST_DONE ∧ rows t.backend = 0) ∧
    (L < R → ∃ t, execute B fuel s = Res.throw Exc.HardLimitReached t
      ∧ rows t.backend = R - L) := by
  obtain ⟨f, hf⟩ : ∃ f, fuel = f + 2 := ⟨fuel - 2, by omega⟩
  subst hf
  have hLs : L < UINT32_SIZE := by
    simp only [LIMIT_UNLIMITED, UINT32_SIZE] at hLu ⊢
    omega
  have hne : ¬ L = LIMIT_UNLIMITED := by omega
  obtain ⟨s1, hcomp, hst1, hr1, hfs1⟩ := execute_first_compile B R s hst hrows h1 hgen
  have hlim1 : s1._extrLimit.value = L := by rw [hfs1.extrLimit]; exact hlim
  obtain ⟨hfit, hexc⟩ := executeWithLimit_hard B hB L f s1 (Or.inl hst1) hL hLs hlim1
    (by rw [hfs1.extrLimit]; exact hhard) (by rw [hr1]; exact hR) (by rw [hr1]; omega)
  rw [hr1] at hfit hexc
  rw [execute_run B _ s h1 h2 (by rw [hlow]; omega), compileLoop_single B hB.canCompile_false]
  constructor
  · intro hle
    obtain ⟨t2, hexec, hd, hrz, hq2⟩ := hfit hle
    have hmod : (0 + R) % UINT32_SIZE = R := by
      rw [Nat.zero_add]
      exact Nat.mod_eq_of_lt (by omega)
    have hft : Frame s { t2 with calls := Prim.canCompile :: t2.calls } :=
      (hfs1.trans hq2.frame).trans
        ⟨rfl, rfl, rfl, rfl, rfl, rfl, rfl, le_rfl, le_rfl, le_max_left _ _, le_max_left _ _⟩
    have hlimt : ¬ t2._extrLimit.value = LIMIT_UNLIMITED := by
      have := hft.extrLimit
      simp only at this
      rw [this, hlim]
      exact hne
    have hlowt : t2._lowerLimit = 0 := by
      have := hft.lowerLimit
      simp only at this
      rw [this, hlow]
    refine ⟨{ t2 with calls := Prim.canCompile :: t2.calls }, ?_, hd, hrz⟩
    simp only [hcomp, hlim1, hne, if_false, hexec, hmod, hlimt, hlowt, Nat.not_lt_zero]
  · intro hlt
    obtain ⟨t2, hexec, hrz, -⟩ := hexc hlt
    refine ⟨t2, ?_, hrz⟩
    simp only [hcomp, hlim1, hne, if_false, hexec]

/-- C1, over ten rows with the hard limit 4: the first `execute` throws the
hard-limit exception after fetching 4 rows; over three rows it returns 3 and the
state is Done. -/
theorem hard_limit_fits_or_throws_witness :
    (∃ t, execute rowBackend 20 (limitedOver 10 4 true) = Res.throw Exc.HardLimitReached t
      ∧ t.backend.remaining = 10 - 4) ∧
    (∃ t, execute rowBackend 20 (limitedOver 3 4 true) = Res.ok 3 t
      ∧ t._state = State.ST_DONE ∧ t.backend.remaining = 0) :=
  ⟨(hard_limit_fits_or_throws rowBackend rowBackend_rowYielding 10 4 20 (limitedOver 10 4 true)
      rfl rfl rfl rfl (by decide) (by decide!) (by decide) rfl (by decide!) (by decide!)
      (by decide!) (by decide!)).2 (by decide),
   (hard_limit_fits_or_throws rowBackend rowBackend_rowYielding 3 4 20 (limitedOver 3 4 true)
      rfl rfl rfl rfl (by decide) (by decide!) (by decide) rfl (by decide!) (by decide!)
      (by decide!) (by decide!)).1 (by decide)⟩

/-! ## The hard limit in any pass of the loop -/

theorem compileLoop_onePass (fuel lim : Nat) (s : StatementImpl β) :
    compileLoop B (fuel + 1) lim s =
      match onePass B fuel s with
      | Res.ok n s2 =>
        if B.canCompile s2.backend = true then
          compileLoop B fuel ((lim + n) % UINT32_SIZE)
            { s2 with calls := Prim.canCompile :: s2.calls }
        else Res.ok ((lim + n) % UINT32_SIZE) { s2 with calls := Prim.canCompile :: s2.calls }
      | Res.throw e s2 => Res.throw e s2
      | Res.timeout => Res.timeout := by
  simp only [compileLoop, onePass, M.bind_apply, getS_run]
  cases compile B s with
  | timeout => rfl
  | throw e s1 => rfl
  | ok u s1 =>
    simp only [ite_run]
    cases (if s1._extrLimit.value = LIMIT_UNLIMITED then executeWithoutLimit B fuel s1
      else executeWithLimit B fuel s1) with
    | timeout => rfl
    | throw e s2 => rfl
    | ok n s2 =>
      by_cases hcc : B.canCompile s2.backend = true
      · simp [canCompile, hcc]
      · simp [canCompile, hcc]

theorem compileLoop_laterPass {fuel lim f l : Nat} {s u : StatementImpl β}
    (h : LaterPass B fuel lim s f l u) :
    compileLoop B fuel lim s = compileLoop B f l u := by
  induction h with
  | here fuel lim s => rfl
  | step hpass hcc _ ih =>
    rw [compileLoop_onePass, hpass]
    simp only [hcc, if_true]
    exact ih

theorem LaterPass.frame {fuel lim f l : Nat} {s u : StatementImpl β}
    (h : LaterPass B fuel lim s f l u) : Frame s u := by
  induction h with
  | here fuel lim s => exact Frame.refl s
  | @step fuel lim n f l s s2 u hpass hcc _ ih =>
    refine Frame.trans ?_ ih
    have hf2 : Frame s s2 := by
      have hc := compile_spec B s
      simp only [onePass, M.bind_apply, getS_run] at hpass
      cases hcomp : compile B s with
      | timeout => simp [hcomp] at hpass
      | throw e s1 => simp [hcomp] at hpass
      | ok x s1 =>
        rw [hcomp] at hc
        simp only [hcomp] at hpass
        by_cases hu : s1._extrLimit.value = LIMIT_UNLIMITED
        · simp only [hu, if_true] at hpass
          have := executeWithoutLimit_spec B fuel s1
          rw [hpass] at this
          exact hc.1.trans this.frame
        · simp only [hu, if_false] at hpass
          have := executeWithLimit_spec B fuel s1
          rw [hpass] at this
          exact hc.1.trans this.frame
    exact hf2.trans
      ⟨rfl, rfl, rfl, rfl, rfl, rfl, rfl, le_rfl, le_rfl, le_max_left _ _, le_max_left _ _⟩

/-- Under the hard limit 0 over three rows, on a backend with a further fragment:
the loops of the first pass end with 0 rows counted while `hasNext ()` is true and
`canBind ()` is false, `executeWithLimit` sets the state to Done and returns, and
the second pass of `execute` fails with the assertion violation. -/
theorem hard_limit_zero_further_fragment_asserts :
    bindLoopWithLimit fragmentBackend 0 20 0 (entered fragmentBackend (limitedOver 3 0 true)) =
      Res.ok 0 (afterLoops fragmentBackend 0 20 (entered fragmentBackend (limitedOver 3 0 true))) ∧
    fragmentBackend.hasNext
      (afterLoops fragmentBackend 0 20
        (entered fragmentBackend (limitedOver 3 0 true))).backend = true ∧
    ((executeWithLimit fragmentBackend 20
      (entered fragmentBackend (limitedOver 3 0 true))).state?).map (fun t => t._state)
      = some State.ST_DONE ∧
    (execute fragmentBackend 21 (limitedOver 3 0 true)).exc?
      = some Exc.AssertionViolationException := by
  decide!

end EngineLemmas

end PocoData
